import Mathlib

/-!
# deficheck: a shallow embedding of the padder, the Base58 codec and the quote kernel

Go strings and byte slices are lists of byte values (`Bytes`), `*big.Int` is `Int`
(or `Nat` where the Go value is an unsigned magnitude), `*big.Float` is `Float` (a
precision in bits and a value `BigFloat`, a rational or one of the two infinities, every
operation rounding its result to the precision of the receiver), and Go functions
returning `(value, error)` return `Except Error value`.
-/

namespace Deficheck

/-! ## Strings and bytes -/

/-- A Go `string` or `[]byte`: the sequence of its bytes, each a value below 256. -/
abbrev Bytes := List Nat

/-- The bytes of an ASCII literal. -/
def ascii (s : String) : Bytes := s.toList.map Char.toNat

deriving instance DecidableEq for Except

/-- The errors returned by the embedded functions, one constructor per `fmt.Errorf` site. -/
inductive Error where
  | invalidBase58Character (c : Nat)
  | zeroReserves
  | reservesTooSmall
  | invalidSide (side : Bytes)
  | tokenAddressRequired
  | quantityMustBePositive
  | sideMustBeBuyOrSell
  | noMockPool (token : Bytes)
  | failedToFindPool (cause : Error)
  | failedToCalculatePrice (cause : Error)
  | panicErrNaN
  | panicNilDereference
  | panicIndexOutOfRange
  | transport (detail : Bytes)
  | noPoolDataFound (poolID : Bytes)
  | poolNotFoundForID (poolID : Bytes)
  | noPoolsFound (token : Bytes)
  | noPoolPairedWithSOL (token : Bytes)
  | failedToFindPoolViaAPI (cause : Error)
  | failedToGetOnchainPoolInfo (cause : Error)
  | noKnownPool (token : Bytes)
  | failedToGetPoolAccount (cause : Error)
  | poolNotFound
  | invalidAccountDataFormat
  | invalidDataEncoding
  | corruptBase64
  | failedToDecodeAccountData (cause : Error)
  | poolDataTooShort (length : Nat)
  | failedToGetBaseVaultBalance (cause : Error)
  | failedToGetQuoteVaultBalance (cause : Error)
  | failedToExtractBaseReserve (cause : Error)
  | failedToExtractQuoteReserve (cause : Error)
  | failedToGetVaultAccounts (cause : Error)
  | failedToGetBaseReserve (cause : Error)
  | failedToGetQuoteReserve (cause : Error)
  | balanceDataNil
  | invalidBalanceResponseFormat
  | amountNotString
  | failedToParseAmount (amount : Bytes)
  deriving DecidableEq, Repr

/-! ## problem2/pkg/utils/base58.go -/

/-- The constant `base58Alphabet`. -/
def base58Alphabet : Bytes :=
  ascii "123456789ABCDEFGHJKLMNPQRSTUVWXYZabcdefghijkmnopqrstuvwxyz"

/-- The map `base58AlphabetIdx` filled by `init`: every byte of the alphabet is sent to its
position in the alphabet (no byte occurs twice), every other byte is absent. -/
def base58AlphabetIdx (b : Nat) : Option Nat :=
  if b ∈ base58Alphabet then some (base58Alphabet.indexOf b) else none

/-- The counting loops `for ... { if b == x { n++ } else { break } }` of both codec
functions: the number of leading elements equal to `x`. -/
def countLeading (x : Nat) : List Nat → Nat
  | [] => 0
  | b :: rest => if b = x then countLeading x rest + 1 else 0

/-- The call `new(big.Int).SetBytes(input)`: the bytes read as a big-endian unsigned integer. -/
def SetBytes (input : Bytes) : Nat :=
  input.foldl (fun acc b => acc * 256 + b) 0

/-- The loop `for bigInt.Cmp(zero) > 0 { DivMod; append }` of `Base58Encode`. Every pass
divides `bigInt` by 58, so `bigInt` itself bounds the number of passes and is used as fuel. -/
def encodeLoop : Nat → Nat → Bytes → Bytes
  | 0, _, result => result
  | fuel + 1, bigInt, result =>
    if bigInt > 0 then
      encodeLoop fuel (bigInt / 58) (result ++ [base58Alphabet.getD (bigInt % 58) 0])
    else result

/-- The function `Base58Encode`. -/
def Base58Encode (input : Bytes) : Bytes :=
  if input.length = 0 then []
  else
    let leadingZeros := countLeading 0 input
    let bigInt := SetBytes input
    let result := encodeLoop bigInt bigInt []
    let result := result ++ List.replicate leadingZeros 49
    result.reverse

/-- The rune `utf8.RuneError`, U+FFFD. -/
def RuneError : Nat := 0xFFFD

/-- A UTF-8 continuation byte. -/
def isCont (b : Nat) : Bool := 0x80 ≤ b && b ≤ 0xBF

/-- One step of Go's `range` over a string: the rune at the head of `s` and its width in
bytes. An invalid or truncated encoding yields `RuneError` and width 1. -/
def decodeRune (s : Bytes) : Nat × Nat :=
  match s with
  | [] => (RuneError, 1)
  | b0 :: rest =>
    if b0 < 0x80 then (b0, 1)
    else if 0xC2 ≤ b0 ∧ b0 ≤ 0xDF then
      match rest with
      | b1 :: _ =>
        if isCont b1 then ((b0 % 32) * 64 + b1 % 64, 2) else (RuneError, 1)
      | _ => (RuneError, 1)
    else if 0xE0 ≤ b0 ∧ b0 ≤ 0xEF then
      match rest with
      | b1 :: b2 :: _ =>
        if (if b0 = 0xE0 then 0xA0 else 0x80) ≤ b1 ∧ b1 ≤ (if b0 = 0xED then 0x9F else 0xBF)
            ∧ isCont b2 then
          ((b0 % 16) * 4096 + (b1 % 64) * 64 + b2 % 64, 3)
        else (RuneError, 1)
      | _ => (RuneError, 1)
    else if 0xF0 ≤ b0 ∧ b0 ≤ 0xF4 then
      match rest with
      | b1 :: b2 :: b3 :: _ =>
        if (if b0 = 0xF0 then 0x90 else 0x80) ≤ b1 ∧ b1 ≤ (if b0 = 0xF4 then 0x8F else 0xBF)
            ∧ isCont b2 ∧ isCont b3 then
          ((b0 % 8) * 262144 + (b1 % 64) * 4096 + (b2 % 64) * 64 + b3 % 64, 4)
        else (RuneError, 1)
      | _ => (RuneError, 1)
    else (RuneError, 1)

/-- The runes that `for _, c := range s` visits, in order. Every step consumes at least one
byte, so the fuel `s.length` given by `rangeRunes` is never exhausted. -/
def rangeRunesAux : Nat → Bytes → List Nat
  | 0, _ => []
  | _ + 1, [] => []
  | fuel + 1, b :: rest =>
    let r := decodeRune (b :: rest)
    r.1 :: rangeRunesAux fuel ((b :: rest).drop r.2)

/-- The runes of a Go string as seen by `range`. -/
def rangeRunes (s : Bytes) : List Nat := rangeRunesAux s.length s

/-- The decoding loop of `Base58Decode` over the runes of the input: `byte(c)` keeps the low
eight bits of the rune, the map lookup fails or gives the digit, and the digit is
accumulated by multiply-and-add. -/
def decodeLoop : List Nat → Nat → Except Error Nat
  | [], bigInt => .ok bigInt
  | c :: rest, bigInt =>
    match base58AlphabetIdx (c % 256) with
    | none => .error (.invalidBase58Character c)
    | some idx => decodeLoop rest (bigInt * 58 + idx)

/-- The method `(*big.Int).Bytes` on a non-negative value: its big-endian bytes without
leading zero byte (no byte at all for 0). The value bounds the number of passes. -/
def bigIntBytes : Nat → Nat → Bytes → Bytes
  | 0, _, acc => acc
  | fuel + 1, n, acc => if n > 0 then bigIntBytes fuel (n / 256) (n % 256 :: acc) else acc

/-- The function `Base58Decode`. -/
def Base58Decode (input : Bytes) : Except Error Bytes :=
  if input.length = 0 then .ok []
  else
    let leadingOnes := countLeading 49 (rangeRunes input)
    match decodeLoop (rangeRunes input) 0 with
    | .error e => .error e
    | .ok bigInt =>
      let result := bigIntBytes bigInt bigInt []
      .ok (List.replicate leadingOnes 0 ++ result)

/-! ## problem1/padder.go -/

/-- The test `input[i] >= '0' && input[i] <= '9'`. -/
def isDigit (b : Nat) : Bool := 48 ≤ b && b ≤ 57

/-- The inner loop `for i < len(input) && input[i] >= '0' && input[i] <= '9' { i++ }`:
the index where it stops. Every pass advances `i`, so `len(input) - i` passes suffice. -/
def scanDigits (input : Bytes) : Nat → Nat → Nat
  | 0, i => i
  | fuel + 1, i =>
    if i < input.length ∧ isDigit (input.getD i 0) = true then scanDigits input fuel (i + 1)
    else i

/-- The slice expression `input[start:stop]`. -/
def slice (input : Bytes) (start stop : Nat) : Bytes := (input.drop start).take (stop - start)

/-- The largest `int` of a 64-bit platform. -/
def maxInt : Nat := 2 ^ 63 - 1

/-- The call `strconv.Atoi(numStr)` with its error dropped (`num, _ := ...`), on the only
strings that reach it: non-empty runs of ASCII digits. The digits are accumulated in
base ten; a value that does not fit `int` comes back as the largest `int` (with the
dropped range error). The result is never negative. -/
def Atoi (numStr : Bytes) : Nat :=
  let n := numStr.foldl (fun acc ch => acc * 10 + (ch - 48)) 0
  if n ≤ maxInt then n else maxInt

/-- The digit loop of `fmt` for `%d` on a non-negative integer: least significant digit
first, written from the right; at least one digit is written. -/
def formatDigits : Nat → Nat → Bytes → Bytes
  | 0, u, acc => (48 + u % 10) :: acc
  | fuel + 1, u, acc =>
    if u ≥ 10 then formatDigits fuel (u / 10) ((48 + u % 10) :: acc) else (48 + u) :: acc

/-- The decimal representation of a non-negative integer. -/
def formatDecimal (num : Nat) : Bytes := formatDigits num num []

/-- The string `%!(BADWIDTH)` that `fmt` writes for a width it refuses. -/
def badWidthString : Bytes := ascii "%!(BADWIDTH)"

/-- The call `fmt.Sprintf("%0*d", width, num)` for `num ≥ 0`. A width argument above
1000000 or below -1000000 is refused by `fmt` (`tooLarge`): it writes `%!(BADWIDTH)`
and formats the number with no width. A negative width is taken as its absolute value
with the `-` flag, which pads with spaces on the right and switches zero padding off.
Otherwise the digits are padded with `0` on the left up to `width`. -/
def Sprintf (width : Int) (num : Nat) : Bytes :=
  let digits := formatDecimal num
  if width > 1000000 ∨ width < -1000000 then badWidthString ++ digits
  else if width < 0 then digits ++ List.replicate (width.natAbs - digits.length) 32
  else List.replicate (width.toNat - digits.length) 48 ++ digits

/-- The outer loop `for i < len(input)` of `PadNumbers` with its state `(i, result)`.
Every pass advances `i`, so `len(input)` passes suffice. -/
def padLoop (input : Bytes) (width : Int) : Nat → Nat → Bytes → Bytes
  | 0, _, result => result
  | fuel + 1, i, result =>
    if i < input.length then
      if isDigit (input.getD i 0) = true then
        let start := i
        let i := scanDigits input (input.length - i) i
        let numStr := slice input start i
        let isDecimalPart := start > 0 ∧ input.getD (start - 1) 0 = 46
        if ¬ isDecimalPart then
          let num := Atoi numStr
          padLoop input width fuel i (result ++ Sprintf width num)
        else
          padLoop input width fuel i (result ++ numStr)
      else
        padLoop input width fuel (i + 1) (result ++ [input.getD i 0])
    else result

/-- The function `PadNumbers`. -/
def PadNumbers (input : Bytes) (width : Int) : Bytes :=
  padLoop input width input.length 0 []

/-- The positions `[s, e)` hold a maximal run of ASCII digits of `input`. -/
def MaximalRun (input : Bytes) (s e : Nat) : Prop :=
  s < e ∧ e ≤ input.length
    ∧ (∀ i, s ≤ i → i < e → isDigit (input.getD i 0) = true)
    ∧ (s = 0 ∨ isDigit (input.getD (s - 1) 0) = false)
    ∧ (e = input.length ∨ isDigit (input.getD e 0) = false)

instance (input : Bytes) (s e : Nat) : Decidable (MaximalRun input s e) := by
  unfold MaximalRun
  infer_instance

/-- The byte just before position `s` is the literal `.`. -/
def PrecededByDot (input : Bytes) (s : Nat) : Prop := 0 < s ∧ input.getD (s - 1) 0 = 46

instance (input : Bytes) (s : Nat) : Decidable (PrecededByDot input s) := by
  unfold PrecededByDot
  infer_instance

/-- A digit run without superfluous leading zero: the single digit `0`, or a run that does
not start with `0`. -/
def NoLeadingZero (run : Bytes) : Prop := run = [48] ∨ run.head? ≠ some 48

instance (run : Bytes) : Decidable (NoLeadingZero run) := by
  unfold NoLeadingZero
  infer_instance

/-! ## math/big.Float -/

/-- The value of a `*big.Float`: a rational number or one of the two infinities. The
precision of the variable is carried by `Float`. The sign of a zero is not kept: the only
zero divisor that `CalculatePrice` can form is the exact difference or sum of two non-zero
finite values, to which `big.Float` gives the sign `+`. -/
inductive BigFloat where
  | fin (v : ℚ)
  | inf (negative : Bool)
  deriving DecidableEq

namespace BigFloat

/-- The method `Sign`: -1, 0 or +1. -/
def Sign : BigFloat → Int
  | fin v => if v < 0 then -1 else if v = 0 then 0 else 1
  | inf negative => if negative then -1 else 1

/-- The exact difference `x - y`, which `Sub` rounds; subtracting equal infinities panics
with `ErrNaN`. -/
def Sub : BigFloat → BigFloat → Except Error BigFloat
  | fin x, fin y => .ok (fin (x - y))
  | fin _, inf n => .ok (inf (!n))
  | inf n, fin _ => .ok (inf n)
  | inf n, inf m => if n = m then .error .panicErrNaN else .ok (inf n)

/-- The exact sum `x + y`, which `Add` rounds; adding opposite infinities panics with
`ErrNaN`. -/
def Add : BigFloat → BigFloat → Except Error BigFloat
  | fin x, fin y => .ok (fin (x + y))
  | fin _, inf n => .ok (inf n)
  | inf n, fin _ => .ok (inf n)
  | inf n, inf m => if n = m then .ok (inf n) else .error .panicErrNaN

/-- The exact product `x * y`, which `Mul` rounds; zero times an infinity panics with
`ErrNaN`. -/
def Mul : BigFloat → BigFloat → Except Error BigFloat
  | fin x, fin y => .ok (fin (x * y))
  | fin x, inf n => if x = 0 then .error .panicErrNaN else .ok (inf (xor (decide (x < 0)) n))
  | inf n, fin y => if y = 0 then .error .panicErrNaN else .ok (inf (xor n (decide (y < 0))))
  | inf n, inf m => .ok (inf (xor n m))

/-- The exact quotient `x / y`, which `Quo` rounds. A non-zero finite value divided by zero
is an infinity with the sign of the dividend, a finite value divided by an infinity is
zero, and `0 / 0` and `Inf / Inf` panic with `ErrNaN`. -/
def Quo : BigFloat → BigFloat → Except Error BigFloat
  | fin x, fin y =>
    if y = 0 then (if x = 0 then .error .panicErrNaN else .ok (inf (decide (x < 0))))
    else .ok (fin (x / y))
  | fin _, inf _ => .ok (fin 0)
  | inf n, fin y => .ok (inf (xor n (decide (y < 0))))
  | inf _, inf _ => .error .panicErrNaN

/-- A strictly positive value. -/
def Positive : BigFloat → Prop
  | fin v => 0 < v
  | inf negative => negative = false

end BigFloat

/-- The integer nearest to `y`, the even one of the two when `y` lies half way. -/
def roundHalfEven (y : ℚ) : Int :=
  if y - ⌊y⌋ < 1 / 2 then ⌊y⌋
  else if 1 / 2 < y - ⌊y⌋ then ⌊y⌋ + 1
  else if ⌊y⌋ % 2 = 0 then ⌊y⌋
  else ⌊y⌋ + 1

/-- The rounding of `big.Float` in its default mode `ToNearestEven`: the multiple of
`2^(e+1-prec)` nearest to `x`, where `2^e ≤ |x| < 2^(e+1)`, the even multiple when `x` lies
half way; these multiples are the numbers with a mantissa of `prec` bits around `x`. The
exponent range of `big.Float` (binary exponents of 32 bits) is not modelled: no result
overflows to an infinity or underflows to zero. -/
def roundToPrec (prec : Nat) (x : ℚ) : ℚ :=
  if x = 0 then 0
  else
    roundHalfEven (x / (2 : ℚ) ^ (Int.log 2 |x| + 1 - prec))
      * (2 : ℚ) ^ (Int.log 2 |x| + 1 - prec)

/-- The rounding of a value to `prec` bits; an infinity stays. -/
def BigFloat.round (prec : Nat) : BigFloat → BigFloat
  | .fin v => .fin (roundToPrec prec v)
  | .inf negative => .inf negative

/-- The integer part of a rational, rounded toward zero. -/
def truncate (x : ℚ) : Int := if 0 ≤ x then ⌊x⌋ else ⌈x⌉

/-- The number of bits of `n`, by halving; `n` itself bounds the number of halvings and is
the fuel. -/
def bitLenLoop : Nat → Nat → Nat
  | 0, _ => 0
  | fuel + 1, n => if n = 0 then 0 else bitLenLoop fuel (n / 2) + 1

/-- The method `(*big.Int).BitLen`: the length of the absolute value in bits, 0 for 0. -/
def BitLen (x : Int) : Nat := bitLenLoop x.natAbs x.natAbs

/-- A `*big.Float` variable: its precision in bits and its value. A variable made by
`new(big.Float)` has precision 0 and value 0. -/
structure Float where
  prec : Nat
  val : BigFloat
  deriving DecidableEq

namespace Float

/-- The method `Sign`: -1, 0 or +1. -/
def Sign (x : Float) : Int := x.val.Sign

/-- A strictly positive value. -/
def Positive (x : Float) : Prop := x.val.Positive

/-- The call `new(big.Float).SetInt(x)`: the precision becomes the larger of the bit
length of `x` and 64, so the value is exact. -/
def SetInt (x : Int) : Float :=
  { prec := max (BitLen x) 64
    val := .fin x }

/-- The call `new(big.Float).SetFloat64(x)` on a finite `float64`: precision 53, exact
value. -/
def SetFloat64 (x : ℚ) : Float :=
  { prec := 53
    val := .fin x }

/-- The precision of the result of `z.Op(x, y)`: that of the receiver `z`, or the larger
of the precisions of `x` and `y` when the receiver has precision 0. -/
def opPrec (zprec : Nat) (x y : Float) : Nat :=
  if zprec = 0 then max x.prec y.prec else zprec

/-- The method `z.Sub(x, y)` for a receiver of precision `zprec`: the exact difference,
rounded to the precision of the result. -/
def Sub (zprec : Nat) (x y : Float) : Except Error Float :=
  match x.val.Sub y.val with
  | .error err => .error err
  | .ok v => .ok { prec := opPrec zprec x y, val := v.round (opPrec zprec x y) }

/-- The method `z.Add(x, y)` for a receiver of precision `zprec`. -/
def Add (zprec : Nat) (x y : Float) : Except Error Float :=
  match x.val.Add y.val with
  | .error err => .error err
  | .ok v => .ok { prec := opPrec zprec x y, val := v.round (opPrec zprec x y) }

/-- The method `z.Mul(x, y)` for a receiver of precision `zprec`. -/
def Mul (zprec : Nat) (x y : Float) : Except Error Float :=
  match x.val.Mul y.val with
  | .error err => .error err
  | .ok v => .ok { prec := opPrec zprec x y, val := v.round (opPrec zprec x y) }

/-- The method `z.Quo(x, y)` for a receiver of precision `zprec`. -/
def Quo (zprec : Nat) (x y : Float) : Except Error Float :=
  match x.val.Quo y.val with
  | .error err => .error err
  | .ok v => .ok { prec := opPrec zprec x y, val := v.round (opPrec zprec x y) }

/-- The call `x.Int(z)` with its results dropped: the new value of `z`, the integer part
of `x` rounded toward zero; for an infinite `x` the method leaves `z` as it is. -/
def Int (x : Float) (z : Int) : Int :=
  match x.val with
  | .fin v => truncate v
  | .inf _ => z

end Float
/-! ## problem2/internal/types/types.go -/

/-- The struct `QuoteRequest`; `Quantity` is a pointer and may be nil. -/
structure QuoteRequest where
  TokenAddress : Bytes
  Quantity : Option Float
  Side : Bytes

/-- The struct `PoolInfo`. The reserves are `*big.Int` and the decimals are `int`. -/
structure PoolInfo where
  PoolAddress : Bytes
  BaseToken : Bytes
  QuoteToken : Bytes
  BaseReserve : Int
  QuoteReserve : Int
  BaseDecimals : Int
  QuoteDecimals : Int
  deriving DecidableEq

/-- The struct `QuoteResponse`. -/
structure QuoteResponse where
  Price : Float
  PriceFormatted : Bytes
  TokenSymbol : Bytes
  Decimals : Int
  Protocol : Bytes
  deriving DecidableEq

/-- The constant `ProtocolName`. -/
def ProtocolName : Bytes := ascii "Raydium"

/-! ## problem2/pkg/raydium/raydium.go -/

/-- Modelled from the spec: `utils.Pow10`, whose file is not among the sources. The spec
normalizes a reserve as `B · 10^-dB`, so `Pow10 d` is the exact power `10^d`, which is a
`float64` for `0 ≤ d ≤ 22`; what the function returns outside that range, where no
`float64` is the exact power, is not known. -/
def Pow10 (n : Int) : ℚ := (10 : ℚ) ^ n

/-- The method `CalculatePrice`. The receivers made by `new(big.Float)` have precision 0;
the two quotients are stored in the reserves themselves and keep their precision. -/
def CalculatePrice (pool : PoolInfo) (quantity : Float) (side : Bytes) :
    Except Error Float :=
  if pool.BaseReserve = 0 ∨ pool.QuoteReserve = 0 then .error .zeroReserves
  else do
    let baseReserve := Float.SetInt pool.BaseReserve
    let quoteReserve := Float.SetInt pool.QuoteReserve
    let baseDecimalFactor := Float.SetFloat64 (Pow10 pool.BaseDecimals)
    let quoteDecimalFactor := Float.SetFloat64 (Pow10 pool.QuoteDecimals)
    let baseReserve ← Float.Quo baseReserve.prec baseReserve baseDecimalFactor
    let quoteReserve ← Float.Quo quoteReserve.prec quoteReserve quoteDecimalFactor
    if baseReserve.Sign = 0 ∨ quoteReserve.Sign = 0 then .error .reservesTooSmall
    else do
      let k ← Float.Mul 0 baseReserve quoteReserve
      if side = ascii "buy" then do
        let newQuoteReserve ← Float.Sub 0 quoteReserve quantity
        let newBaseReserve ← Float.Quo 0 k newQuoteReserve
        let baseAmount ← Float.Sub 0 newBaseReserve baseReserve
        pure baseAmount
      else if side = ascii "sell" then do
        let newQuoteReserve ← Float.Add 0 quoteReserve quantity
        let newBaseReserve ← Float.Quo 0 k newQuoteReserve
        let baseAmount ← Float.Sub 0 baseReserve newBaseReserve
        pure baseAmount
      else .error (.invalidSide side)

/-- The normalized base reserve `b = B / 10^dB` of the pricing claims. -/
def normalizedBase (pool : PoolInfo) : ℚ :=
  (pool.BaseReserve : ℚ) / (10 : ℚ) ^ pool.BaseDecimals

/-- The normalized quote reserve `q = Q / 10^dQ` of the pricing claims. -/
def normalizedQuote (pool : PoolInfo) : ℚ :=
  (pool.QuoteReserve : ℚ) / (10 : ℚ) ^ pool.QuoteDecimals

/-- The precision that `SetInt` gives a reserve: the larger of its bit length and 64. -/
def reservePrec (reserve : Int) : Nat := max (BitLen reserve) 64

/-- The normalized base reserve as `CalculatePrice` holds it: `B / 10^dB` rounded to the
precision of the reserve. -/
def floatBase (pool : PoolInfo) : ℚ :=
  roundToPrec (reservePrec pool.BaseReserve) (normalizedBase pool)

/-- The normalized quote reserve as `CalculatePrice` holds it. -/
def floatQuote (pool : PoolInfo) : ℚ :=
  roundToPrec (reservePrec pool.QuoteReserve) (normalizedQuote pool)

/-- The precision of the constant product `k`. -/
def productPrec (pool : PoolInfo) : Nat :=
  max (reservePrec pool.BaseReserve) (reservePrec pool.QuoteReserve)

/-- The constant product `k` as `CalculatePrice` holds it. -/
def floatProduct (pool : PoolInfo) : ℚ :=
  roundToPrec (productPrec pool) (floatBase pool * floatQuote pool)

/-- The precision of the new quote reserve for a quantity of precision `prec`. -/
def newQuotePrec (pool : PoolInfo) (prec : Nat) : Nat :=
  max (reservePrec pool.QuoteReserve) prec

/-- The precision of the new base reserve and of the price for a quantity of precision
`prec`: it is at least the precision of the product and of the base reserve. -/
def pricePrec (pool : PoolInfo) (prec : Nat) : Nat :=
  max (productPrec pool) (newQuotePrec pool prec)

/-- The number that a buy of the finite quantity `x` of precision `prec` returns when the
new quote reserve is not zero: four rounded operations after the rounded reserves and
product. -/
def buyPrice (pool : PoolInfo) (prec : Nat) (x : ℚ) : ℚ :=
  roundToPrec (pricePrec pool prec)
    (roundToPrec (pricePrec pool prec)
        (floatProduct pool / roundToPrec (newQuotePrec pool prec) (floatQuote pool - x))
      - floatBase pool)

/-- The number that a sell of the finite quantity `x` of precision `prec` returns when the
new quote reserve is not zero. -/
def sellPrice (pool : PoolInfo) (prec : Nat) (x : ℚ) : ℚ :=
  roundToPrec (pricePrec pool prec)
    (floatBase pool
      - roundToPrec (pricePrec pool prec)
          (floatProduct pool / roundToPrec (newQuotePrec pool prec) (floatQuote pool + x)))

/-- The decimals of both tokens lie between 0 and 22, where the power `10^d` is a `float64`
and `Pow10` can return it exactly. -/
def DecimalsExact (pool : PoolInfo) : Prop :=
  0 ≤ pool.BaseDecimals ∧ pool.BaseDecimals ≤ 22
    ∧ 0 ≤ pool.QuoteDecimals ∧ pool.QuoteDecimals ≤ 22

instance (pool : PoolInfo) : Decidable (DecimalsExact pool) := by
  unfold DecimalsExact
  infer_instance

/-- The pool of `TestCalculatePrice`: 1000 base and 50 quote, nine decimals each. -/
def testPool : PoolInfo :=
  { PoolAddress := ascii "mockpool"
    BaseToken := ascii "basetoken"
    QuoteToken := ascii "quotetoken"
    BaseReserve := 1000000000000
    QuoteReserve := 50000000000
    BaseDecimals := 9
    QuoteDecimals := 9 }

/-- A pool with base reserve 1 and quote reserve -1, no decimals. -/
def negativeQuotePool : PoolInfo :=
  { PoolAddress := ascii "pool"
    BaseToken := ascii "base"
    QuoteToken := ascii "quote"
    BaseReserve := 1
    QuoteReserve := -1
    BaseDecimals := 0
    QuoteDecimals := 0 }

/-! ## problem2/internal/quote -/

/-- The lower case of a rune, for the runes whose lower case is an ASCII letter: `A`..`Z`,
the dotted capital I `U+0130` and the Kelvin sign `U+212A`. The other entries of the
Unicode tables, which map a rune outside ASCII to a rune outside ASCII, are not carried:
such a rune is kept. -/
def lowerRune (r : Nat) : Nat :=
  if 65 ≤ r ∧ r ≤ 90 then r + 32
  else if r = 0x130 then 105
  else if r = 0x212A then 107
  else r

/-- The UTF-8 encoding of a rune that `range` produced. -/
def encodeRune (r : Nat) : Bytes :=
  if r < 0x80 then [r]
  else if r < 0x800 then [0xC0 + r / 64, 0x80 + r % 64]
  else if r < 0x10000 then [0xE0 + r / 4096, 0x80 + r / 64 % 64, 0x80 + r % 64]
  else [0xF0 + r / 262144, 0x80 + r / 4096 % 64, 0x80 + r / 64 % 64, 0x80 + r % 64]

/-- The call `strings.ToLower(s)`. On an ASCII string every byte `A`..`Z` is moved to
`a`..`z`; on a string with a byte outside ASCII the library maps each rune through
`unicode.ToLower` and encodes the result, an invalid byte becoming `U+FFFD`. With
`lowerRune` in the place of `unicode.ToLower` the result is the library's up to runes
outside ASCII, so every comparison of it with an ASCII constant has the library's answer. -/
def ToLower (s : Bytes) : Bytes :=
  if s.all (fun c => decide (c < 128)) then
    s.map (fun c => if 65 ≤ c ∧ c ≤ 90 then c + 32 else c)
  else
    (rangeRunes s).foldr (fun r acc => encodeRune (lowerRune r) ++ acc) []

/-- The function `GetMockPool` of `mock_pool.go`. -/
def GetMockPool (tokenAddress : Bytes) : Except Error PoolInfo :=
  if ToLower tokenAddress = ascii "epjfwdd5aufqssqem2qn1xzybapc8g4weggkzwytdt1v" then
    .ok { PoolAddress := ascii "6UmmUiYoBjSrhakAobJw8BvkmJtDVxaeBtbt7rxWo1mg"
          BaseToken := ascii "EPjFWdd5AufqSSqeM2qN1xzybapC8G4wEGGkZwyTDt1v"
          QuoteToken := ascii "So11111111111111111111111111111111111111112"
          BaseReserve := 50000000000000
          QuoteReserve := 1000000000000
          BaseDecimals := 6
          QuoteDecimals := 9 }
  else if ToLower tokenAddress = ascii "es9vmfrzacermjfrf4h2fyd4kconky11mcce8benwnyb" then
    .ok { PoolAddress := ascii "7XawhbbxtsRcQA8KTkHT9f9nc6d69UwqCDh6U5EEbEmX"
          BaseToken := ascii "Es9vMFrzaCERmJfrF4H2FYD4KCoNkY11McCe8BenwNYB"
          QuoteToken := ascii "So11111111111111111111111111111111111111112"
          BaseReserve := 30000000000000
          QuoteReserve := 600000000000
          BaseDecimals := 6
          QuoteDecimals := 9 }
  else .error (.noMockPool tokenAddress)

/-- The pool that `GetMockPool` returns for the USDC mint: 50000000 base and 1000 quote. -/
def usdcMockPool : PoolInfo :=
  { PoolAddress := ascii "6UmmUiYoBjSrhakAobJw8BvkmJtDVxaeBtbt7rxWo1mg"
    BaseToken := ascii "EPjFWdd5AufqSSqeM2qN1xzybapC8G4wEGGkZwyTDt1v"
    QuoteToken := ascii "So11111111111111111111111111111111111111112"
    BaseReserve := 50000000000000
    QuoteReserve := 1000000000000
    BaseDecimals := 6
    QuoteDecimals := 9 }

/-- The function `validateRequest`. -/
def validateRequest (request : QuoteRequest) : Except Error Unit :=
  if request.TokenAddress = [] then .error .tokenAddressRequired
  else
    match request.Quantity with
    | none => .error .quantityMustBePositive
    | some quantity =>
      if quantity.Sign ≤ 0 then .error .quantityMustBePositive
      else
        let side := ToLower request.Side
        if side ≠ ascii "buy" ∧ side ≠ ascii "sell" then .error .sideMustBeBuyOrSell
        else .ok ()

/-- The function `GetTokenSymbol`. -/
def GetTokenSymbol (address : Bytes) : Bytes :=
  if ToLower address = ascii "epjfwdd5aufqssqem2qn1xzybapc8g4weggkzwytdt1v" then ascii "USDC"
  else if ToLower address = ascii "es9vmfrzacermjfrf4h2fyd4kconky11mcce8benwnyb" then
    ascii "USDT"
  else if ToLower address = ascii "so11111111111111111111111111111111111111112" then
    ascii "SOL"
  else if address.length > 8 then
    slice address 0 4 ++ ascii "..." ++ slice address (address.length - 4) address.length
  else address

/-- The two steps of `GetQuote` that go through `price.Float64()`: `DetermineDecimals` and
`FormatPrice`. Both work on a machine float and are carried as parameters. -/
structure Rendering where
  DetermineDecimals : Float → Int
  FormatPrice : Float → Int → Bytes

/-- The method `GetQuote`. The pool lookup `s.findPool` (strategy flags, cache, catalog
and RPC) is the parameter `findPool`. After a successful validation the quantity is not
nil. -/
def GetQuote (render : Rendering) (findPool : Bytes → Except Error PoolInfo)
    (request : QuoteRequest) : Except Error QuoteResponse :=
  match validateRequest request with
  | .error err => .error err
  | .ok _ =>
    match findPool request.TokenAddress with
    | .error err => .error (.failedToFindPool err)
    | .ok pool =>
      match request.Quantity with
      | none => .error .panicNilDereference
      | some quantity =>
        match CalculatePrice pool quantity request.Side with
        | .error err => .error (.failedToCalculatePrice err)
        | .ok price =>
          let decimals := render.DetermineDecimals price
          let priceFormatted := render.FormatPrice price decimals
          .ok { Price := price
                PriceFormatted := priceFormatted
                TokenSymbol := GetTokenSymbol request.TokenAddress
                Decimals := decimals
                Protocol := ProtocolName }

/-! ## problem2/pkg/raydium/api_client.go -/

/-- One representative of the simple case folding orbit of a rune, for the orbits that
hold an ASCII letter: `A`..`Z` go to `a`..`z`, the Kelvin sign `U+212A` goes to `k` and the
long s `U+017F` goes to `s`. The orbits of the Unicode tables that hold no ASCII letter
are not carried: such a rune is its own representative. -/
def foldKey (r : Nat) : Nat :=
  if 65 ≤ r ∧ r ≤ 90 then r + 32
  else if r = 0x212A then 107
  else if r = 0x17F then 115
  else r

/-- The call `strings.EqualFold(s, t)`: the two strings have the same number of runes (an
invalid byte counts as `U+FFFD`) and the runes at each position lie in one folding orbit.
Exact whenever one of the two strings is ASCII, as at the call sites, where `t` is the
constant `solMint`. -/
def EqualFold (s t : Bytes) : Bool :=
  decide ((rangeRunes s).map foldKey = (rangeRunes t).map foldKey)

/-- The struct `TokenInfo` of `api_client.go`. -/
structure TokenInfo where
  Symbol : Bytes
  Name : Bytes
  Decimals : Int
  Address : Bytes

/-- The struct `PoolSearchData` (its field `Type` is `PoolType` here). A `float64` decoded
from JSON is finite, hence a rational number. -/
structure PoolSearchData where
  PoolType : Bytes
  ProgramID : Bytes
  ID : Bytes
  MintA : TokenInfo
  MintB : TokenInfo
  Price : ℚ
  Liquidity : ℚ
  FeeRate : ℚ
  MintAmountA : ℚ
  MintAmountB : ℚ
  TVL : ℚ

/-- The constant `solMint` of `FindPoolByTokenV3`. -/
def solMint : Bytes := ascii "So11111111111111111111111111111111111111112"

/-- The local `isPairedWithSOL` of the selection loop. -/
def isPairedWithSOL (pool : PoolSearchData) : Bool :=
  EqualFold pool.MintA.Address solMint || EqualFold pool.MintB.Address solMint

/-- The local `poolLiquidity` of the selection loop: the liquidity, or the TVL when the
liquidity is 0. -/
def poolLiquidity (pool : PoolSearchData) : ℚ :=
  if pool.Liquidity = 0 then pool.TVL else pool.Liquidity

/-- One pass of the loop `for _, pool := range searchResp.Data.Data` on the state
`(bestPoolID, maxLiquidity)`. -/
def selectStep (state : Bytes × ℚ) (pool : PoolSearchData) : Bytes × ℚ :=
  if isPairedWithSOL pool = true ∧ poolLiquidity pool > state.2 then
    (pool.ID, poolLiquidity pool)
  else state

/-- The selection loop of `FindPoolByTokenV3` from its initial state `("", 0)`: the final
`(bestPoolID, maxLiquidity)`. An empty `bestPoolID` is reported as "no pool found ... paired
with SOL". -/
def selectBestPool (pools : List PoolSearchData) : Bytes × ℚ :=
  pools.foldl selectStep ([], 0)

/-- The liquidity key in the words of the spec: the liquidity if it is greater than 0, else
the TVL. -/
def specLiquidityKey (pool : PoolSearchData) : ℚ :=
  if pool.Liquidity > 0 then pool.Liquidity else pool.TVL

/-- A catalog candidate paired with SOL on the `mintB` side. -/
def solCandidate (id : Bytes) (liquidity tvl : ℚ) : PoolSearchData :=
  { PoolType := ascii "Standard"
    ProgramID := ascii "675kPX9MHTjS2zt1qfr1NYHuzeLXfQM9H24wFSUt1Mp8"
    ID := id
    MintA :=
      { Symbol := ascii "USDC"
        Name := ascii "USD Coin"
        Decimals := 6
        Address := ascii "EPjFWdd5AufqSSqeM2qN1xzybapC8G4wEGGkZwyTDt1v" }
    MintB :=
      { Symbol := ascii "WSOL"
        Name := ascii "Wrapped SOL"
        Decimals := 9
        Address := solMint }
    Price := 1
    Liquidity := liquidity
    FeeRate := 0
    MintAmountA := 1
    MintAmountB := 1
    TVL := tvl }

/-! ## JSON values and problem2/pkg/solana/client.go -/

/-- A value that `json.Unmarshal` stores in an `interface{}`: `nil`, `bool`, `float64`,
`string`, `[]interface{}` or `map[string]interface{}`. -/
inductive Json where
  | null
  | bool (b : Bool)
  | number (v : ℚ)
  | string (s : Bytes)
  | array (items : List Json)
  | object (fields : List (Bytes × Json))

/-- A `map[string]interface{}` as decoded from a JSON object: its members in the order of
the text. A nil map and an empty map answer every lookup alike and are both `[]`. -/
abbrev JsonObject := List (Bytes × Json)

/-- The index expression `m[key]` on a decoded JSON object: the last member with that key
(a repeated key overwrites), or `nil`. -/
def JsonObject.get (m : JsonObject) (key : Bytes) : Json :=
  match m.reverse.find? (fun kv => decide (kv.1 = key)) with
  | some kv => kv.2
  | none => .null

/-- The alphabet of `base64.StdEncoding`. -/
def base64Alphabet : Bytes :=
  ascii "ABCDEFGHIJKLMNOPQRSTUVWXYZabcdefghijklmnopqrstuvwxyz0123456789+/"

/-- The decode map of `base64.StdEncoding`: the six-bit value of an alphabet byte. -/
def base64Value (c : Nat) : Option Nat :=
  if c ∈ base64Alphabet then some (base64Alphabet.indexOf c) else none

/-- The loops `for si < len(src) && (src[si] == '\n' || src[si] == '\r') { si++ }` of the
base64 decoder. -/
def skipNewlines : Bytes → Bytes
  | [] => []
  | c :: rest => if c = 10 ∨ c = 13 then skipNewlines rest else c :: rest

/-- The bytes that the base64 decoder writes for a quantum of two, three or four six-bit
values. -/
def quantumBytes (sextets : List Nat) : Bytes :=
  match sextets with
  | [a, b] => [(a * 64 + b) / 16 % 256]
  | [a, b, c] => [(a * 64 + b) / 16 % 256, ((b * 64 + c) / 4) % 256]
  | [a, b, c, d] => [(a * 64 + b) / 16 % 256, ((b * 64 + c) / 4) % 256, (c * 64 + d) % 256]
  | _ => []

/-- The function `base64.StdEncoding.DecodeString` as a scan of the input with the pending
six-bit values of the current quantum: line breaks are skipped, four values give three
bytes, and padding is accepted only as `==` after two values or `=` after three, followed
by nothing but line breaks. Every other input is corrupt. -/
def decodeQuanta : Bytes → List Nat → Bytes → Except Error Bytes
  | [], pending, out => if pending = [] then .ok out else .error .corruptBase64
  | c :: rest, pending, out =>
    match base64Value c with
    | some v =>
      if pending.length = 3 then decodeQuanta rest [] (out ++ quantumBytes (pending ++ [v]))
      else decodeQuanta rest (pending ++ [v]) out
    | none =>
      if c = 10 ∨ c = 13 then decodeQuanta rest pending out
      else if c ≠ 61 then .error .corruptBase64
      else if pending.length = 2 then
        match skipNewlines rest with
        | [] => .error .corruptBase64
        | d :: tail =>
          if d ≠ 61 then .error .corruptBase64
          else if skipNewlines tail = [] then .ok (out ++ quantumBytes pending)
          else .error .corruptBase64
      else if pending.length = 3 then
        if skipNewlines rest = [] then .ok (out ++ quantumBytes pending)
        else .error .corruptBase64
      else .error .corruptBase64

/-- The function `DecodeBase64Data`. -/
def DecodeBase64Data (data : Bytes) : Except Error Bytes := decodeQuanta data [] []

/-- The call `binary.LittleEndian.Uint64(b)` on a slice of eight bytes. -/
def Uint64LE (b : Bytes) : Nat := b.foldr (fun x acc => x + 256 * acc) 0

/-- The conversion `int(v)` of a `uint64` on a 64-bit platform: two's complement, so a value
from `2^63` on becomes negative. -/
def uint64ToInt (v : Nat) : Int :=
  if v % 2 ^ 64 < 2 ^ 63 then (v % 2 ^ 64 : Nat) else ((v % 2 ^ 64 : Nat) : Int) - 2 ^ 64

/-- The digits of `(*big.Int).SetString(s, 10)` after the sign: at least one, all decimal. -/
def parseDigits (s : Bytes) : Option Nat :=
  if s ≠ [] ∧ s.all isDigit = true then some (s.foldl (fun acc ch => acc * 10 + (ch - 48)) 0)
  else none

/-- The call `amount.SetString(amountStr, 10)`: an optional sign `+` or `-`, then decimal
digits to the end of the string; `none` is the failure (`success == false`). -/
def SetString (s : Bytes) : Option Int :=
  match s with
  | 45 :: rest => (parseDigits rest).map (fun n => -(n : Int))
  | 43 :: rest => (parseDigits rest).map (fun n => (n : Int))
  | _ => (parseDigits s).map (fun n => (n : Int))

/-! ## problem2/pkg/raydium/raydium.go: the pool decoder -/

/-- The offsets of the account layout that the decoder reads. -/
def BaseDecimalOffset : Nat := 32

/-- The constant `QuoteDecimalOffset`. -/
def QuoteDecimalOffset : Nat := 40

/-- The constant `BaseVaultOffset` (alias `CoinVaultOffset`). -/
def BaseVaultOffset : Nat := 336

/-- The constant `QuoteVaultOffset` (alias `PcVaultOffset`). -/
def QuoteVaultOffset : Nat := 368

/-- The constant `BaseMintOffset` (alias `CoinMintOffset`). -/
def BaseMintOffset : Nat := 400

/-- The constant `QuoteMintOffset` (alias `PcMintOffset`). -/
def QuoteMintOffset : Nat := 432

/-- The function `extractPubkey`. -/
def extractPubkey (data : Bytes) : Bytes := Base58Encode data

/-- The locals that both pool loaders compute from the account data. -/
structure PoolLayout where
  baseDecimals : Int
  quoteDecimals : Int
  baseMint : Bytes
  quoteMint : Bytes
  baseVault : Bytes
  quoteVault : Bytes
  deriving DecidableEq

/-- The part of `GetPoolInfoOnchain` and of `GetPoolInfo` from the length check to the four
`extractPubkey` calls (the same statements in both), on the decoded account data. -/
def decodeLayout (data : Bytes) : Except Error PoolLayout :=
  if data.length < 600 then .error (.poolDataTooShort data.length)
  else
    .ok { baseDecimals := uint64ToInt (Uint64LE (slice data BaseDecimalOffset
            (BaseDecimalOffset + 8)))
          quoteDecimals := uint64ToInt (Uint64LE (slice data QuoteDecimalOffset
            (QuoteDecimalOffset + 8)))
          baseMint := extractPubkey (slice data BaseMintOffset (BaseMintOffset + 32))
          quoteMint := extractPubkey (slice data QuoteMintOffset (QuoteMintOffset + 32))
          baseVault := extractPubkey (slice data BaseVaultOffset (BaseVaultOffset + 32))
          quoteVault := extractPubkey (slice data QuoteVaultOffset (QuoteVaultOffset + 32)) }

/-- The part of both pool loaders between the account reply and the vault requests: the
type assertions on `value` and `data`, the base64 decoding and `decodeLayout`. -/
def decodePoolAccount (accountInfo : JsonObject) : Except Error PoolLayout :=
  match accountInfo.get (ascii "value") with
  | .object value =>
    match JsonObject.get value (ascii "data") with
    | .array dataList =>
      if dataList.length < 2 then .error .invalidAccountDataFormat
      else
        match dataList.head? with
        | some (.string base64Data) =>
          match DecodeBase64Data base64Data with
          | .error err => .error (.failedToDecodeAccountData err)
          | .ok data => decodeLayout data
        | _ => .error .invalidDataEncoding
    | _ => .error .invalidAccountDataFormat
  | _ => .error .poolNotFound

/-- The function `getTokenBalance`; `none` is the nil map. -/
def getTokenBalance (accountData : Option JsonObject) : Except Error Int :=
  match accountData with
  | none => .ok 0
  | some accountData =>
    match accountData.get (ascii "data") with
    | .array value =>
      if value.length < 2 then .ok 0
      else
        match value.head? with
        | some (.string base64Data) =>
          match DecodeBase64Data base64Data with
          | .error err => .error err
          | .ok data =>
            if data.length < 8 then .ok 0
            else .ok ((Uint64LE (slice data 0 8) % 2 ^ 64 : Nat) : Int)
        | _ => .ok 0
    | _ => .ok 0

/-- The function `extractTokenAmount`; `none` is the nil map. -/
def extractTokenAmount (balanceData : Option JsonObject) : Except Error Int :=
  match balanceData with
  | none => .error .balanceDataNil
  | some balanceData =>
    match balanceData.get (ascii "value") with
    | .object value =>
      match JsonObject.get value (ascii "amount") with
      | .string amountStr =>
        match SetString amountStr with
        | none => .error (.failedToParseAmount amountStr)
        | some amount => .ok amount
      | _ => .error .amountNotString
    | _ => .error .invalidBalanceResponseFormat

/-- The struct `PoolInfoData` of `api_client.go`, with the fields that the service reads. -/
structure PoolInfoData where
  PoolType : Bytes
  ProgramID : Bytes
  ID : Bytes
  MintA : TokenInfo
  MintB : TokenInfo
  Price : ℚ
  MintAmountA : ℚ
  MintAmountB : ℚ
  FeeRate : ℚ
  Tvl : ℚ

/-- The method `convertV3PoolToInternal`. The reported amount and `Pow10(decimals)` are set
with `SetFloat64`, their product is stored in the amount itself, rounded to its 53 bits, and
`Int` cuts it to its integer part. The factors are finite, so `Mul` does not panic; the
reserve of the error branch is that of `new(big.Int)`. -/
def convertV3PoolToInternal (poolV3 : PoolInfoData) : PoolInfo :=
  { PoolAddress := poolV3.ID
    BaseToken := poolV3.MintA.Address
    QuoteToken := poolV3.MintB.Address
    BaseReserve :=
      match Float.Mul (Float.SetFloat64 poolV3.MintAmountA).prec
          (Float.SetFloat64 poolV3.MintAmountA)
          (Float.SetFloat64 (Pow10 poolV3.MintA.Decimals)) with
      | .ok baseAmount => baseAmount.Int 0
      | .error _ => 0
    QuoteReserve :=
      match Float.Mul (Float.SetFloat64 poolV3.MintAmountB).prec
          (Float.SetFloat64 poolV3.MintAmountB)
          (Float.SetFloat64 (Pow10 poolV3.MintB.Decimals)) with
      | .ok quoteAmount => quoteAmount.Int 0
      | .error _ => 0
    BaseDecimals := poolV3.MintA.Decimals
    QuoteDecimals := poolV3.MintB.Decimals }

/-- The descriptor invariant of the spec: both reserves at least 0 and both decimals in the
range 0..18. -/
def DescriptorInvariant (pool : PoolInfo) : Prop :=
  0 ≤ pool.BaseReserve ∧ 0 ≤ pool.QuoteReserve
    ∧ 0 ≤ pool.BaseDecimals ∧ pool.BaseDecimals ≤ 18
    ∧ 0 ≤ pool.QuoteDecimals ∧ pool.QuoteDecimals ≤ 18

/-! ## The network: catalog and RPC replies -/

/-- A request sent to the REST catalog or to the RPC endpoint. -/
inductive NetCall where
  | catalogSearch (tokenMint : Bytes)
  | catalogPoolInfo (poolID : Bytes)
  | getAccountInfo (address : Bytes)
  | getMultipleAccounts (addresses : List Bytes)
  | getTokenAccountBalance (address : Bytes)
  deriving DecidableEq

/-- The struct `PoolSearchResponse`, with the inner struct `Data` flattened. -/
structure PoolSearchResponse where
  Success : Bool
  Count : Int
  Data : List PoolSearchData
  HasNextPage : Bool

/-- The struct `PoolInfoResponse`; a `null` element of `data` is `none`. -/
structure PoolInfoResponse where
  ID : Bytes
  Success : Bool
  Data : List (Option PoolInfoData)

/-- The two remote services. Every reply is given after the transport and the JSON decoding
(a failure of either is an error reply), and may depend on the requests sent so far. The
reply of `getAccountInfo` is the decoded map (a nil map is the empty map), the reply of
`getMultipleAccounts` is the decoded `value` list with `none` for a `null` entry, and the
reply of `getTokenAccountBalance` is the decoded map or `none` for a nil map. -/
structure World where
  search : List NetCall → Bytes → Except Error PoolSearchResponse
  poolInfo : List NetCall → Bytes → Except Error PoolInfoResponse
  accountInfo : List NetCall → Bytes → Except Error JsonObject
  multipleAccounts : List NetCall → List Bytes → Except Error (List (Option JsonObject))
  tokenAccountBalance : List NetCall → Bytes → Except Error (Option JsonObject)

/-- The method `GetPoolInfoV3`: one catalog request, then the checks on the reply. The
second component is the log of requests after the call. -/
def GetPoolInfoV3 (w : World) (poolID : Bytes) (log : List NetCall) :
    Except Error PoolInfoData × List NetCall :=
  match w.poolInfo log poolID with
  | .error err => (.error err, log ++ [.catalogPoolInfo poolID])
  | .ok poolResp =>
    if poolResp.Success = false ∨ poolResp.Data.length = 0 then
      (.error (.noPoolDataFound poolID), log ++ [.catalogPoolInfo poolID])
    else
      match poolResp.Data.head? with
      | some (some data) => (.ok data, log ++ [.catalogPoolInfo poolID])
      | _ => (.error (.poolNotFoundForID poolID), log ++ [.catalogPoolInfo poolID])

/-- The part of `FindPoolByTokenV3` between the decoded search reply and the final
`GetPoolInfoV3` call: the check of `success` and `count`, the selection loop and the check
of `bestPoolID`. -/
def selectPoolID (tokenMint : Bytes) (searchResp : PoolSearchResponse) : Except Error Bytes :=
  if searchResp.Success = false ∨ searchResp.Count = 0 then .error (.noPoolsFound tokenMint)
  else if (selectBestPool searchResp.Data).1 = [] then .error (.noPoolPairedWithSOL tokenMint)
  else .ok (selectBestPool searchResp.Data).1

/-- The method `FindPoolByTokenV3`. -/
def FindPoolByTokenV3 (w : World) (tokenMint : Bytes) (log : List NetCall) :
    Except Error PoolInfoData × List NetCall :=
  match w.search log tokenMint with
  | .error err => (.error err, log ++ [.catalogSearch tokenMint])
  | .ok searchResp =>
    match selectPoolID tokenMint searchResp with
    | .error err => (.error err, log ++ [.catalogSearch tokenMint])
    | .ok bestPoolID => GetPoolInfoV3 w bestPoolID (log ++ [.catalogSearch tokenMint])

/-- The method `GetPoolInfoOnchain`. -/
def GetPoolInfoOnchain (w : World) (poolAddress : Bytes) (log : List NetCall) :
    Except Error PoolInfo × List NetCall :=
  match w.accountInfo log poolAddress with
  | .error err => (.error (.failedToGetPoolAccount err), log ++ [.getAccountInfo poolAddress])
  | .ok accountInfo =>
    match decodePoolAccount accountInfo with
    | .error err => (.error err, log ++ [.getAccountInfo poolAddress])
    | .ok layout =>
      match w.tokenAccountBalance (log ++ [.getAccountInfo poolAddress]) layout.baseVault with
      | .error err =>
        (.error (.failedToGetBaseVaultBalance err),
          log ++ [.getAccountInfo poolAddress, .getTokenAccountBalance layout.baseVault])
      | .ok baseBalance =>
        match w.tokenAccountBalance
            (log ++ [.getAccountInfo poolAddress, .getTokenAccountBalance layout.baseVault])
            layout.quoteVault with
        | .error err =>
          (.error (.failedToGetQuoteVaultBalance err),
            log ++ [.getAccountInfo poolAddress, .getTokenAccountBalance layout.baseVault,
              .getTokenAccountBalance layout.quoteVault])
        | .ok quoteBalance =>
          match extractTokenAmount baseBalance with
          | .error err =>
            (.error (.failedToExtractBaseReserve err),
              log ++ [.getAccountInfo poolAddress, .getTokenAccountBalance layout.baseVault,
                .getTokenAccountBalance layout.quoteVault])
          | .ok baseReserve =>
            match extractTokenAmount quoteBalance with
            | .error err =>
              (.error (.failedToExtractQuoteReserve err),
                log ++ [.getAccountInfo poolAddress, .getTokenAccountBalance layout.baseVault,
                  .getTokenAccountBalance layout.quoteVault])
            | .ok quoteReserve =>
              (.ok { PoolAddress := poolAddress
                     BaseToken := layout.baseMint
                     QuoteToken := layout.quoteMint
                     BaseReserve := baseReserve
                     QuoteReserve := quoteReserve
                     BaseDecimals := layout.baseDecimals
                     QuoteDecimals := layout.quoteDecimals },
                log ++ [.getAccountInfo poolAddress, .getTokenAccountBalance layout.baseVault,
                  .getTokenAccountBalance layout.quoteVault])

/-- The index expression `vaults[i]` of `GetPoolInfo`: out of range it panics. -/
def vaultAt (vaults : List (Option JsonObject)) (i : Nat) : Except Error (Option JsonObject) :=
  match vaults.get? i with
  | some vault => .ok vault
  | none => .error .panicIndexOutOfRange

/-- The method `GetPoolInfo` (legacy loader). -/
def GetPoolInfo (w : World) (poolAddress : Bytes) (log : List NetCall) :
    Except Error PoolInfo × List NetCall :=
  match w.accountInfo log poolAddress with
  | .error err => (.error (.failedToGetPoolAccount err), log ++ [.getAccountInfo poolAddress])
  | .ok accountInfo =>
    match decodePoolAccount accountInfo with
    | .error err => (.error err, log ++ [.getAccountInfo poolAddress])
    | .ok layout =>
      match w.multipleAccounts (log ++ [.getAccountInfo poolAddress])
          [layout.baseVault, layout.quoteVault] with
      | .error err =>
        (.error (.failedToGetVaultAccounts err),
          log ++ [.getAccountInfo poolAddress,
            .getMultipleAccounts [layout.baseVault, layout.quoteVault]])
      | .ok vaults =>
        match vaultAt vaults 0 with
        | .error err =>
          (.error err, log ++ [.getAccountInfo poolAddress,
            .getMultipleAccounts [layout.baseVault, layout.quoteVault]])
        | .ok vault0 =>
          match getTokenBalance vault0 with
          | .error err =>
            (.error (.failedToGetBaseReserve err),
              log ++ [.getAccountInfo poolAddress,
                .getMultipleAccounts [layout.baseVault, layout.quoteVault]])
          | .ok baseReserve =>
            match vaultAt vaults 1 with
            | .error err =>
              (.error err, log ++ [.getAccountInfo poolAddress,
                .getMultipleAccounts [layout.baseVault, layout.quoteVault]])
            | .ok vault1 =>
              match getTokenBalance vault1 with
              | .error err =>
                (.error (.failedToGetQuoteReserve err),
                  log ++ [.getAccountInfo poolAddress,
                    .getMultipleAccounts [layout.baseVault, layout.quoteVault]])
              | .ok quoteReserve =>
                (.ok { PoolAddress := poolAddress
                       BaseToken := layout.baseMint
                       QuoteToken := layout.quoteMint
                       BaseReserve := baseReserve
                       QuoteReserve := quoteReserve
                       BaseDecimals := layout.baseDecimals
                       QuoteDecimals := layout.quoteDecimals },
                  log ++ [.getAccountInfo poolAddress,
                    .getMultipleAccounts [layout.baseVault, layout.quoteVault]])

/-! ## problem2/internal/quote/service.go: the pool lookup -/

/-- The struct `Service`: the pool cache (a map, newest entry first) and the two strategy
flags. The clients it points to are the `World`. -/
structure Service where
  poolCache : List (Bytes × PoolInfo)
  useAPI : Bool
  useOnchain : Bool

/-- The lookup `s.poolCache[key]` with its `ok` flag. -/
def Service.cacheGet (s : Service) (key : Bytes) : Option PoolInfo :=
  (s.poolCache.find? (fun entry => decide (entry.1 = key))).map (fun entry => entry.2)

/-- The assignment `s.poolCache[key] = pool`. -/
def Service.cachePut (s : Service) (key : Bytes) (pool : PoolInfo) : Service :=
  { s with poolCache := (key, pool) :: s.poolCache }

/-- The map `knownPools` of `findPoolHardcoded`. -/
def knownPools (loweredToken : Bytes) : Option Bytes :=
  if loweredToken = ascii "epjfwdd5aufqssqem2qn1xzybapc8g4weggkzwytdt1v" then
    some (ascii "58oQChx4yWmvKdwLLZzBi4ChoCc2fqCUWBkwMihLYQo2")
  else if loweredToken = ascii "es9vmfrzacermjfrf4h2fyd4kconky11mcce8benwnyb" then
    some (ascii "7XawhbbxtsRcQA8KTkHT9f9nc6d69UwqCDh6U5EEbEmX")
  else none

/-- The method `findPoolViaAPI`: the result, the service afterwards and the log of requests
afterwards. The catalog is asked first; the cache is looked up with the id of its answer. -/
def findPoolViaAPI (w : World) (s : Service) (tokenAddress : Bytes) (log : List NetCall) :
    Except Error PoolInfo × Service × List NetCall :=
  match FindPoolByTokenV3 w tokenAddress log with
  | (.error err, log1) => (.error (.failedToFindPoolViaAPI err), s, log1)
  | (.ok poolV3, log1) =>
    match s.cacheGet poolV3.ID with
    | some pool => (.ok pool, s, log1)
    | none =>
      if s.useOnchain = true then
        match GetPoolInfoOnchain w poolV3.ID log1 with
        | (.error err, log2) => (.error (.failedToGetOnchainPoolInfo err), s, log2)
        | (.ok pool, log2) => (.ok pool, s.cachePut poolV3.ID pool, log2)
      else
        (.ok (convertV3PoolToInternal poolV3),
          s.cachePut poolV3.ID (convertV3PoolToInternal poolV3), log1)

/-- The method `findPoolHardcoded`: the cache is looked up before any request. -/
def findPoolHardcoded (w : World) (s : Service) (tokenAddress : Bytes) (log : List NetCall) :
    Except Error PoolInfo × Service × List NetCall :=
  match knownPools (ToLower tokenAddress) with
  | none => (.error (.noKnownPool tokenAddress), s, log)
  | some poolAddress =>
    match s.cacheGet poolAddress with
    | some pool => (.ok pool, s, log)
    | none =>
      match (if s.useOnchain = true then GetPoolInfoOnchain w poolAddress log
          else GetPoolInfo w poolAddress log) with
      | (.error err, log1) => (.error err, s, log1)
      | (.ok pool, log1) => (.ok pool, s.cachePut poolAddress pool, log1)

/-- The method `findPool`. -/
def findPool (w : World) (s : Service) (tokenAddress : Bytes) (log : List NetCall) :
    Except Error PoolInfo × Service × List NetCall :=
  if s.useAPI = true then findPoolViaAPI w s tokenAddress log
  else findPoolHardcoded w s tokenAddress log

/-! ## Sample replies -/

/-- Account data of 600 bytes, all zero except byte 39, which is `0x80`: the 64-bit integer
at offset 32 is `2^63`. -/
def wrapAccountData : Bytes := List.replicate 39 0 ++ [128] ++ List.replicate 560 0

/-- The base64 text of `wrapAccountData`. -/
def wrapAccountBase64 : Bytes := List.replicate 52 65 ++ ascii "gAAA" ++ List.replicate 744 65

/-- A `getAccountInfo` reply `{"value": {"data": [<base64>, "base64"]}}`. -/
def accountReply (base64Data : Bytes) : JsonObject :=
  [(ascii "value",
    .object [(ascii "data", .array [.string base64Data, .string (ascii "base64")])])]

/-- A `getTokenAccountBalance` reply `{"value": {"amount": <amount>}}`. -/
def balanceReply (amount : Bytes) : Option JsonObject :=
  some [(ascii "value", .object [(ascii "amount", .string amount)])]

/-- A vault account `{"data": [<base64>, "base64"]}` of a `getMultipleAccounts` reply. -/
def vaultReply (base64Data : Bytes) : Option JsonObject :=
  some [(ascii "data", .array [.string base64Data, .string (ascii "base64")])]

/-- The base64 text of the token account of `TestGetTokenBalance`, amount 1. -/
def testVaultBase64 : Bytes :=
  ascii "AQAAAAAAAAAAAAAAAAAAAAAAAAAAAAAAAAAAAAAAAAAAAAAAAAAAAAAAAAAAAAAAAAAAAAAAAAAAAAAAAAAAAAAAAA=="

/-- The descriptor that both loaders build from `wrapAccountData` and two vaults of amount
1: the mints and vaults are 32 zero bytes, in Base58 32 times `1`. -/
def wrapAccountPool (poolAddress : Bytes) : PoolInfo :=
  { PoolAddress := poolAddress
    BaseToken := List.replicate 32 49
    QuoteToken := List.replicate 32 49
    BaseReserve := 1
    QuoteReserve := 1
    BaseDecimals := -9223372036854775808
    QuoteDecimals := 0 }

/-- A world whose RPC endpoint answers every `getAccountInfo` with the given account data,
every `getTokenAccountBalance` with the given amount string and every `getMultipleAccounts`
with two vault accounts of amount 1, and whose catalog is down. -/
def rpcWorld (base64Data amount : Bytes) : World :=
  { search := fun _ _ => .error (.transport (ascii "catalog down"))
    poolInfo := fun _ _ => .error (.transport (ascii "catalog down"))
    accountInfo := fun _ _ => .ok (accountReply base64Data)
    multipleAccounts := fun _ _ => .ok [vaultReply testVaultBase64, vaultReply testVaultBase64]
    tokenAccountBalance := fun _ _ => .ok (balanceReply amount) }

/-- The account reply carries, as `value.data[0]` of a `data` list of at least two entries,
a base64 string that decodes to `data`. -/
def CarriesData (accountInfo : JsonObject) (data : Bytes) : Prop :=
  ∃ value dataList base64Data,
    accountInfo.get (ascii "value") = .object value
      ∧ JsonObject.get value (ascii "data") = .array dataList
      ∧ 2 ≤ dataList.length
      ∧ dataList.head? = some (.string base64Data)
      ∧ DecodeBase64Data base64Data = .ok data

/-- A catalog pool record for USDC and wrapped SOL with the given id, `mintA` decimals and
reported amounts. -/
def catalogPool (id : Bytes) (decimalsA : Int) (amountA amountB : ℚ) : PoolInfoData :=
  { PoolType := ascii "Standard"
    ProgramID := ascii "675kPX9MHTjS2zt1qfr1NYHuzeLXfQM9H24wFSUt1Mp8"
    ID := id
    MintA :=
      { Symbol := ascii "USDC"
        Name := ascii "USD Coin"
        Decimals := decimalsA
        Address := ascii "EPjFWdd5AufqSSqeM2qN1xzybapC8G4wEGGkZwyTDt1v" }
    MintB :=
      { Symbol := ascii "WSOL"
        Name := ascii "Wrapped SOL"
        Decimals := 9
        Address := solMint }
    Price := 1
    MintAmountA := amountA
    MintAmountB := amountB
    FeeRate := 0
    Tvl := 1 }

/-- A world whose catalog answers every search with the single candidate `pool1`, paired
with SOL and of liquidity 5, and every pool request with the record of `pool1`, and whose
RPC endpoint is down. -/
def catalogWorld : World :=
  { search := fun _ _ =>
      .ok { Success := true
            Count := 1
            Data := [solCandidate (ascii "pool1") 5 0]
            HasNextPage := false }
    poolInfo := fun _ _ =>
      .ok { ID := ascii "response"
            Success := true
            Data := [some (catalogPool (ascii "pool1") 6 1 1)] }
    accountInfo := fun _ _ => .error (.transport (ascii "rpc down"))
    multipleAccounts := fun _ _ => .error (.transport (ascii "rpc down"))
    tokenAccountBalance := fun _ _ => .error (.transport (ascii "rpc down")) }

/-- A fresh service in catalog mode (`use_api` set, `use_onchain` not set). -/
def apiService : Service :=
  { poolCache := []
    useAPI := true
    useOnchain := false }

/-- The request is one of the two catalog requests. -/
def NetCall.isCatalog : NetCall → Bool
  | .catalogSearch _ => true
  | .catalogPoolInfo _ => true
  | _ => false

/-- A fresh service in hardcoded mode with the legacy loader (no flag set), as `NewService`
builds it. -/
def hardcodedService : Service :=
  { poolCache := []
    useAPI := false
    useOnchain := false }

/-- The USDC mint. -/
def usdcMint : Bytes := ascii "EPjFWdd5AufqSSqeM2qN1xzybapC8G4wEGGkZwyTDt1v"

/-- The hardcoded pool address of the USDC mint. -/
def usdcPoolAddress : Bytes := ascii "58oQChx4yWmvKdwLLZzBi4ChoCc2fqCUWBkwMihLYQo2"


/-- Account data of 600 bytes with six distinct fields: the integers 6 and 9 at offsets 32
and 40, and 32 bytes of value 1, 2, 3 and 4 at offsets 336 (base vault), 368 (quote vault),
400 (base mint) and 432 (quote mint). -/
def layoutAccountData : Bytes :=
  List.replicate 32 0 ++ [6] ++ List.replicate 7 0 ++ [9] ++ List.replicate 295 0
    ++ List.replicate 32 1 ++ List.replicate 32 2 ++ List.replicate 32 3
    ++ List.replicate 32 4 ++ List.replicate 136 0

/-- The base64 text of `layoutAccountData`. -/
def layoutAccountBase64 : Bytes :=
  List.replicate 43 65
    ++ ascii "G"
    ++ List.replicate 10 65
    ++ ascii "k"
    ++ List.replicate 394 65
    ++ ascii "QEBAQEBAQEBAQEBAQEBAQEBAQEBAQEBAQEBAQEBAQECAgICAgICAgICAgICA"
    ++ ascii "gICAgICAgICAgICAgICAgICAgMDAwMDAwMDAwMDAwMDAwMDAwMDAwMDAwMDA"
    ++ ascii "wMDAwMDBAQEBAQEBAQEBAQEBAQEBAQEBAQEBAQEBAQEBAQEBAQ"
    ++ List.replicate 181 65

/-- The base64 text of a token account of 67 bytes with amount 1000. -/
def baseVaultBase64 : Bytes :=
  ascii "6AMAAAAAAAAAAAAAAAAAAAAAAAAAAAAAAAAAAAAAAAAAAAAAAAAAAAAAAAAAAAAAAAAAAAAAAAAAAAAAAAAAAAAAAA=="

/-- The base64 text of a token account of 67 bytes with amount 50. -/
def quoteVaultBase64 : Bytes :=
  ascii "MgAAAAAAAAAAAAAAAAAAAAAAAAAAAAAAAAAAAAAAAAAAAAAAAAAAAAAAAAAAAAAAAAAAAAAAAAAAAAAAAAAAAAAAAA=="

/-- A world whose RPC endpoint answers every `getAccountInfo` with `layoutAccountData`,
reports the balance `1000` for the vault of 32 bytes of value 1 and `50` for every other
vault, answers `getMultipleAccounts` with one account for each address asked, of amount
1000 for that vault and 50 for every other, and whose catalog is down. -/
def layoutWorld : World :=
  { search := fun _ _ => .error (.transport (ascii "catalog down"))
    poolInfo := fun _ _ => .error (.transport (ascii "catalog down"))
    accountInfo := fun _ _ => .ok (accountReply layoutAccountBase64)
    multipleAccounts := fun _ addresses =>
      .ok (addresses.map (fun address =>
        if address = Base58Encode (List.replicate 32 1) then vaultReply baseVaultBase64
        else vaultReply quoteVaultBase64))
    tokenAccountBalance := fun _ address =>
      if address = Base58Encode (List.replicate 32 1) then .ok (balanceReply (ascii "1000"))
      else .ok (balanceReply (ascii "50")) }

/-- The descriptor that both loaders build from `layoutAccountData` in `layoutWorld`. -/
def layoutPool (poolAddress : Bytes) : PoolInfo :=
  { PoolAddress := poolAddress
    BaseToken := Base58Encode (List.replicate 32 3)
    QuoteToken := Base58Encode (List.replicate 32 4)
    BaseReserve := 1000
    QuoteReserve := 50
    BaseDecimals := 6
    QuoteDecimals := 9 }

/-! ## Conversion to float64 and DetermineDecimals -/

/-- The `float64` nearest to a positive rational `x`, ties to even, as a rational: with
`2^e ≤ x < 2^(e+1)` the spacing of the floats around `x` is `2^(e-52)`, and `2^(-1074)` in
the subnormal range (`e < -1022`); a result of `2^1024` or more stands for an overflow. -/
def nearestFloat64 (x : ℚ) : ℚ :=
  roundHalfEven (x / (2 : ℚ) ^ (max (Int.log 2 x) (-1022) - 52))
    * (2 : ℚ) ^ (max (Int.log 2 x) (-1022) - 52)

/-- The method `(*big.Float).Float64`, first result: the nearest `float64`, an infinity
when the rounded magnitude is beyond the largest `float64`. -/
def Float64 : BigFloat → BigFloat
  | .inf negative => .inf negative
  | .fin x =>
    if x = 0 then .fin 0
    else if 0 < x then
      (if nearestFloat64 x < 2 ^ 1024 then .fin (nearestFloat64 x) else .inf false)
    else
      (if nearestFloat64 (-x) < 2 ^ 1024 then .fin (-nearestFloat64 (-x)) else .inf true)

/-- The comparison `a < b` of two `float64` values that are not NaN. -/
def BigFloat.lt : BigFloat → BigFloat → Prop
  | .fin a, .fin b => a < b
  | .fin _, .inf negative => negative = false
  | .inf negative, .fin _ => negative = true
  | .inf a, .inf b => a = true ∧ b = false

instance (a b : BigFloat) : Decidable (a.lt b) := by
  cases a <;> cases b <;> simp only [BigFloat.lt] <;> infer_instance

/-- The `float64` constant `0.01`: `0x1.47ae147ae147bp-7`, a little above one hundredth. -/
def float64OneHundredth : ℚ := 5764607523034235 / 2 ^ 59

/-- The function `DetermineDecimals`. -/
def DetermineDecimals (price : BigFloat) : Int :=
  if (Float64 price).lt (.fin float64OneHundredth) then 8
  else if (Float64 price).lt (.fin 1) then 6
  else if (Float64 price).lt (.fin 100) then 4
  else 2

/-! ## Token symbols, vault accounts and the padding loop: definitions for the claims -/

/-- The USDT mint, as written in `mock_pool.go`. -/
def usdtMint : Bytes := ascii "Es9vMFrzaCERmJfrF4H2FYD4KCoNkY11McCe8BenwNYB"

/-- An address of five characters, each the two bytes `C3 A9` of the letter e with acute
accent: ten bytes. -/
def accentedAddress : Bytes := [195, 169, 195, 169, 195, 169, 195, 169, 195, 169]

/-- The vault account carries, as `data[0]` of a `data` list of at least two entries, the
string `base64Data`. -/
def VaultString (accountData : Option JsonObject) (base64Data : Bytes) : Prop :=
  ∃ obj value, accountData = some obj
    ∧ JsonObject.get obj (ascii "data") = .array value
    ∧ 2 ≤ value.length
    ∧ value.head? = some (.string base64Data)

/-- The world of `rpcWorld` over the account data `wrapAccountData`, with a successful
`getMultipleAccounts` reply that carries the given `value` list (`[]` for `null`). -/
def vaultsWorld (vaults : List (Option JsonObject)) : World :=
  { search := fun _ _ => .error (.transport (ascii "catalog down"))
    poolInfo := fun _ _ => .error (.transport (ascii "catalog down"))
    accountInfo := fun _ _ => .ok (accountReply wrapAccountBase64)
    multipleAccounts := fun _ _ => .ok vaults
    tokenAccountBalance := fun _ _ => .ok (balanceReply (ascii "1")) }

/-- The outer loop of `PadNumbers` as a recursion over the rest of the input, for the
proofs: `afterDot` says that the byte before the rest is the literal `.`. A digit starts a
run, which is the digits in front of the rest; the run is copied when it follows a dot and
reformatted otherwise, and the loop goes on behind the run. Another byte is copied.
`padLoop_eq_padRest` shows that this is what `padLoop` computes. -/
def padRest (width : Int) (afterDot : Bool) : Bytes → Bytes
  | [] => []
  | c :: rest =>
    if isDigit c = true then
      (if afterDot = true then c :: rest.takeWhile isDigit
        else Sprintf width (Atoi (c :: rest.takeWhile isDigit)))
        ++ padRest width false (rest.dropWhile isDigit)
    else c :: padRest width (decide (c = 46)) rest
termination_by l => l.length
decreasing_by
  · have := (List.dropWhile_sublist isDigit (l := rest)).length_le
    simp only [List.length_cons]
    omega
  · simp

end Deficheck

namespace Deficheck

/-! ## Base58: the loops against the digits of a number -/

theorem alphabet_idx_getD : ∀ d, d < 58 →
    base58AlphabetIdx (base58Alphabet.getD d 0 % 256) = some d := by decide

theorem alphabet_getD_lt : ∀ d, d < 58 → base58Alphabet.getD d 0 < 128 := by decide

theorem alphabet_getD_ne_one : ∀ d, d < 58 → d ≠ 0 → base58Alphabet.getD d 0 ≠ 49 := by decide

theorem alphabet_getD_zero : base58Alphabet.getD 0 0 = 49 := by decide

theorem encodeLoop_eq (fuel : Nat) : ∀ (n : Nat) (result : Bytes), n ≤ fuel →
    encodeLoop fuel n result
      = result ++ (Nat.digits 58 n).map (fun d => base58Alphabet.getD d 0) := by
  induction fuel with
  | zero =>
    intro n result h
    have : n = 0 := by omega
    subst this
    simp [encodeLoop]
  | succ fuel ih =>
    intro n result h
    by_cases hn : n > 0
    · have hlt : n / 58 ≤ fuel := by
        have := Nat.div_lt_self hn (by norm_num : 1 < 58)
        omega
      rw [encodeLoop, if_pos hn, ih _ _ hlt, Nat.digits_def' (by norm_num) hn]
      simp
    · have : n = 0 := by omega
      subst this
      simp [encodeLoop]

theorem bigIntBytes_eq (fuel : Nat) : ∀ (n : Nat) (acc : Bytes), n ≤ fuel →
    bigIntBytes fuel n acc = (Nat.digits 256 n).reverse ++ acc := by
  induction fuel with
  | zero =>
    intro n acc h
    have : n = 0 := by omega
    subst this
    simp [bigIntBytes]
  | succ fuel ih =>
    intro n acc h
    by_cases hn : n > 0
    · have hlt : n / 256 ≤ fuel := by
        have := Nat.div_lt_self hn (by norm_num : 1 < 256)
        omega
      rw [bigIntBytes, if_pos hn, ih _ _ hlt, Nat.digits_def' (by norm_num) hn]
      simp
    · have : n = 0 := by omega
      subst this
      simp [bigIntBytes]

/-- Multiply-and-add from the most significant digit gives the value of the digits. -/
theorem foldl_mul_add_eq_ofDigits (b : Nat) (l : List Nat) :
    l.foldl (fun acc d => acc * b + d) 0 = Nat.ofDigits b l.reverse := by
  induction l using List.reverseRecOn with
  | nil => simp
  | append_singleton l x ih =>
    simp [List.foldl_append, ih, Nat.ofDigits_cons]
    ring

theorem SetBytes_eq (input : Bytes) : SetBytes input = Nat.ofDigits 256 input.reverse :=
  foldl_mul_add_eq_ofDigits 256 input

theorem ofDigits_replicate_zero (b z : Nat) : Nat.ofDigits b (List.replicate z 0) = 0 := by
  induction z with
  | zero => simp
  | succ z ih => simp [List.replicate_succ, Nat.ofDigits_cons, ih]

theorem decodeLoop_map (ds : List Nat) : ∀ acc : Nat, (∀ d ∈ ds, d < 58) →
    decodeLoop (ds.map (fun d => base58Alphabet.getD d 0)) acc
      = .ok (ds.foldl (fun a d => a * 58 + d) acc) := by
  induction ds with
  | nil => intro acc _; simp [decodeLoop]
  | cons d ds ih =>
    intro acc h
    have hd : d < 58 := h d (by simp)
    simp only [List.map_cons, decodeLoop, alphabet_idx_getD d hd, List.foldl_cons]
    exact ih _ (fun x hx => h x (by simp [hx]))

theorem rangeRunesAux_ascii (fuel : Nat) : ∀ s : Bytes, s.length ≤ fuel →
    (∀ x ∈ s, x < 128) → rangeRunesAux fuel s = s := by
  induction fuel with
  | zero =>
    intro s h _
    have : s = [] := List.length_eq_zero.mp (by omega)
    subst this
    simp [rangeRunesAux]
  | succ fuel ih =>
    intro s h hs
    cases s with
    | nil => simp [rangeRunesAux]
    | cons b rest =>
      have hb : b < 128 := hs b (by simp)
      have hrest : rangeRunesAux fuel rest = rest :=
        ih rest (by simpa using h) (fun x hx => hs x (by simp [hx]))
      simp [rangeRunesAux, decodeRune, hb, hrest]

theorem rangeRunes_ascii (s : Bytes) (hs : ∀ x ∈ s, x < 128) : rangeRunes s = s :=
  rangeRunesAux_ascii s.length s (le_refl _) hs

theorem countLeading_replicate_append (x z : Nat) (rest : List Nat) :
    countLeading x (List.replicate z x ++ rest) = z + countLeading x rest := by
  induction z with
  | zero => simp
  | succ z ih =>
    simp [List.replicate_succ, countLeading, ih]
    omega

theorem countLeading_of_head_ne (x : Nat) (l : List Nat) (h : ∀ a ∈ l.head?, a ≠ x) :
    countLeading x l = 0 := by
  cases l with
  | nil => rfl
  | cons a l =>
    have : a ≠ x := h a (by simp)
    simp [countLeading, this]

/-- A byte sequence is its run of leading zero bytes followed by a tail that does not start
with a zero byte. -/
theorem leading_zero_split (input : Bytes) :
    ∃ tail : Bytes, input = List.replicate (countLeading 0 input) 0 ++ tail
      ∧ ∀ a ∈ tail.head?, a ≠ 0 := by
  induction input with
  | nil => exact ⟨[], by simp [countLeading]⟩
  | cons b rest ih =>
    by_cases hb : b = 0
    · obtain ⟨tail, h1, h2⟩ := ih
      refine ⟨tail, ?_, h2⟩
      subst hb
      simp only [countLeading, if_true, List.replicate_succ, List.cons_append]
      rw [← h1]
    · refine ⟨b :: rest, by simp [countLeading, hb], ?_⟩
      intro a ha
      simp at ha
      omega

/-- The big-endian bytes of the value of a byte sequence are the sequence without its
leading zero bytes. -/
theorem digits_SetBytes (z : Nat) (tail : Bytes) (hlt : ∀ x ∈ tail, x < 256)
    (hhead : ∀ a ∈ tail.head?, a ≠ 0) :
    (Nat.digits 256 (SetBytes (List.replicate z 0 ++ tail))).reverse = tail := by
  rw [SetBytes_eq, List.reverse_append, List.reverse_replicate, Nat.ofDigits_append,
    ofDigits_replicate_zero, Nat.mul_zero, Nat.add_zero,
    Nat.digits_ofDigits 256 (by norm_num) tail.reverse (by simpa using hlt)]
  · simp
  · intro hne
    have hne2 : tail ≠ [] := by simpa using hne
    rw [List.getLast_reverse]
    cases tail with
    | nil => exact absurd rfl hne2
    | cons a t => exact hhead a (by simp)

theorem Base58Encode_eq (input : Bytes) :
    Base58Encode input = List.replicate (countLeading 0 input) 49
      ++ (Nat.digits 58 (SetBytes input)).reverse.map (fun d => base58Alphabet.getD d 0) := by
  cases input with
  | nil => simp [Base58Encode, countLeading, SetBytes]
  | cons b rest =>
    simp only [Base58Encode, List.length_cons, Nat.add_one_ne_zero, if_false]
    rw [encodeLoop_eq _ _ _ (le_refl _)]
    simp [List.reverse_append, List.map_reverse]

/-- The general path of `Base58Decode` on a string of alphabet characters given by its
digits: the leading ones, the digits read as a number, and the number's bytes. -/
theorem Base58Decode_digits (z : Nat) (ds : List Nat) (hds : ∀ d ∈ ds, d < 58)
    (hhead : ∀ a ∈ ds.head?, a ≠ 0) :
    Base58Decode (List.replicate z 49 ++ ds.map (fun d => base58Alphabet.getD d 0))
      = .ok (List.replicate z 0 ++ (Nat.digits 256 (Nat.ofDigits 58 ds.reverse)).reverse) := by
  have hzero : List.replicate z 49
      = (List.replicate z 0).map (fun d => base58Alphabet.getD d 0) := by
    rw [List.map_replicate, alphabet_getD_zero]
  have hascii : ∀ x ∈ List.replicate z 49 ++ ds.map (fun d => base58Alphabet.getD d 0),
      x < 128 := by
    intro x hx
    rcases List.mem_append.mp hx with h | h
    · rw [List.eq_of_mem_replicate h]; norm_num
    · obtain ⟨d, hd, rfl⟩ := List.mem_map.mp h
      exact alphabet_getD_lt d (hds d hd)
  have hlead : countLeading 49
      (List.replicate z 49 ++ ds.map (fun d => base58Alphabet.getD d 0)) = z := by
    rw [countLeading_replicate_append, countLeading_of_head_ne, Nat.add_zero]
    intro a ha
    cases ds with
    | nil => simp at ha
    | cons d ds =>
      simp only [List.map_cons, List.head?_cons, Option.mem_def, Option.some.injEq] at ha
      subst ha
      exact alphabet_getD_ne_one d (hds d (by simp)) (hhead d (by simp))
  have hloop : decodeLoop
      (List.replicate z 49 ++ ds.map (fun d => base58Alphabet.getD d 0)) 0
        = .ok (Nat.ofDigits 58 ds.reverse) := by
    rw [hzero, ← List.map_append, decodeLoop_map]
    · rw [foldl_mul_add_eq_ofDigits, List.reverse_append, List.reverse_replicate,
        Nat.ofDigits_append, ofDigits_replicate_zero]
      simp
    · intro d hd
      rcases List.mem_append.mp hd with h | h
      · rw [List.eq_of_mem_replicate h]; norm_num
      · exact hds d h
  unfold Base58Decode
  split
  · rename_i hlen
    have hnil := List.length_eq_zero.mp hlen
    have hz : z = 0 := by
      cases z with
      | zero => rfl
      | succ z => simp [List.replicate_succ] at hnil
    have hd : ds = [] := by
      cases ds with
      | nil => rfl
      | cons d ds => simp at hnil
    subst hz hd
    simp
  · simp only [rangeRunes_ascii _ hascii, hlead, hloop]
    rw [bigIntBytes_eq _ _ _ (le_refl _)]
    simp

/-- C1. Round trip: for every byte sequence `b` (empty, or with any number of leading zero
bytes), `Base58Decode (Base58Encode b)` succeeds and returns exactly `b`. -/
theorem Base58Decode_Base58Encode (b : Bytes) (hb : ∀ x ∈ b, x < 256) :
    Base58Decode (Base58Encode b) = .ok b := by
  obtain ⟨tail, hsplit, hhead⟩ := leading_zero_split b
  have htail : ∀ x ∈ tail, x < 256 := by
    intro x hx
    apply hb
    rw [hsplit]
    exact List.mem_append_right _ hx
  have hdig := digits_SetBytes (countLeading 0 b) tail htail hhead
  rw [← hsplit] at hdig
  rw [Base58Encode_eq, Base58Decode_digits]
  · rw [List.reverse_reverse, Nat.ofDigits_digits, hdig, ← hsplit]
  · intro d hd
    exact Nat.digits_lt_base (by norm_num) (List.mem_reverse.mp hd)
  · intro a ha
    have hne : Nat.digits 58 (SetBytes b) ≠ [] := by
      intro h
      simp [h] at ha
    have hlast := Nat.getLast_digit_ne_zero 58
      (Nat.digits_ne_nil_iff_ne_zero.mp hne)
    rw [List.head?_reverse] at ha
    rw [List.getLast?_eq_getLast _ hne] at ha
    simp at ha
    rw [← ha]
    exact hlast

/-- The round trip at the byte sequence `[0, 1, 2, 3, 4, 5, 0]` of the repository's test. -/
theorem Base58Decode_Base58Encode_witness :
    (∀ x ∈ ([0, 1, 2, 3, 4, 5, 0] : Bytes), x < 256)
      ∧ Base58Decode (Base58Encode [0, 1, 2, 3, 4, 5, 0]) = .ok [0, 1, 2, 3, 4, 5, 0] :=
  ⟨by decide, Base58Decode_Base58Encode [0, 1, 2, 3, 4, 5, 0] (by decide)⟩

/-- Every step of `range` consumes at least one byte. -/
theorem decodeRune_width_pos (s : Bytes) : 1 ≤ (decodeRune s).2 := by
  unfold decodeRune
  repeat' split
  all_goals simp

/-- The fuel `len(s)` of `rangeRunes` is enough: more fuel yields the same runes. -/
theorem rangeRunesAux_fuel (fuel : Nat) : ∀ (s : Bytes) (extra : Nat), s.length ≤ fuel →
    rangeRunesAux (fuel + extra) s = rangeRunesAux fuel s := by
  induction fuel with
  | zero =>
    intro s extra h
    have : s = [] := List.length_eq_zero.mp (by omega)
    subst this
    cases extra <;> simp [rangeRunesAux]
  | succ fuel ih =>
    intro s extra h
    have hs : fuel + 1 + extra = (fuel + extra) + 1 := by omega
    rw [hs]
    cases s with
    | nil => simp [rangeRunesAux]
    | cons b rest =>
      have hw := decodeRune_width_pos (b :: rest)
      simp only [rangeRunesAux]
      rw [ih _ extra]
      simp only [List.length_drop, List.length_cons] at h ⊢
      omega

/-- `Base58Decode` succeeds exactly when the low byte of every rune of the input is a byte
of the alphabet. -/
theorem decodeLoop_isOk_iff (runes : List Nat) : ∀ acc : Nat,
    (∃ n, decodeLoop runes acc = .ok n) ↔ ∀ c ∈ runes, c % 256 ∈ base58Alphabet := by
  induction runes with
  | nil => intro acc; simp [decodeLoop]
  | cons c rest ih =>
    intro acc
    by_cases hc : c % 256 ∈ base58Alphabet
    · simp only [decodeLoop, base58AlphabetIdx, if_pos hc, List.mem_cons, forall_eq_or_imp,
        hc, true_and]
      exact ih _
    · simp only [decodeLoop, base58AlphabetIdx, if_neg hc, List.mem_cons, forall_eq_or_imp,
        hc, false_and, iff_false, not_exists]
      intro n hn
      cases hn

theorem Base58Decode_isOk_iff (input : Bytes) :
    (∃ out, Base58Decode input = .ok out)
      ↔ ∀ c ∈ rangeRunes input, c % 256 ∈ base58Alphabet := by
  unfold Base58Decode
  split
  · rename_i hlen
    have hnil := List.length_eq_zero.mp hlen
    subst hnil
    simp [rangeRunes, rangeRunesAux]
  · rw [← decodeLoop_isOk_iff (rangeRunes input) 0]
    cases h : decodeLoop (rangeRunes input) 0 with
    | error e => simp
    | ok n => simp

/-! ## PadNumbers: the scan loop and the frame of the outer loop -/

theorem scanDigits_spec (input : Bytes) (fuel : Nat) : ∀ i, i ≤ input.length →
    input.length - i ≤ fuel →
    i ≤ scanDigits input fuel i ∧ scanDigits input fuel i ≤ input.length
      ∧ (∀ k, i ≤ k → k < scanDigits input fuel i → isDigit (input.getD k 0) = true)
      ∧ (scanDigits input fuel i = input.length
          ∨ isDigit (input.getD (scanDigits input fuel i) 0) = false) := by
  induction fuel with
  | zero =>
    intro i hi hf
    have : i = input.length := by omega
    simp only [scanDigits]
    refine ⟨le_refl _, hi, ?_, Or.inl this⟩
    intro k h1 h2
    omega
  | succ fuel ih =>
    intro i hi hf
    by_cases hc : i < input.length ∧ isDigit (input.getD i 0) = true
    · simp only [scanDigits, if_pos hc]
      obtain ⟨h1, h2, h3, h4⟩ := ih (i + 1) (by omega) (by omega)
      refine ⟨by omega, h2, ?_, h4⟩
      intro k hk1 hk2
      by_cases hk : k = i
      · subst hk; exact hc.2
      · exact h3 k (by omega) hk2
    · simp only [scanDigits, if_neg hc]
      refine ⟨le_refl _, hi, ?_, ?_⟩
      · intro k h1 h2; omega
      · by_cases hlt : i < input.length
        · right
          simpa using fun h => hc ⟨hlt, h⟩
        · left; omega

theorem slice_append_drop (input : Bytes) (i j : Nat) (hij : i ≤ j) :
    slice input i j ++ input.drop j = input.drop i := by
  have : input.drop j = (input.drop i).drop (j - i) := by
    rw [List.drop_drop]
    congr 1
    omega
  rw [slice, this, List.take_append_drop]

theorem getD_cons_drop (input : Bytes) (i : Nat) (hi : i < input.length) :
    input.getD i 0 :: input.drop (i + 1) = input.drop i := by
  rw [List.getD_eq_getElem _ _ hi]
  exact (List.drop_eq_getElem_cons hi).symm

/-- When every digit run that the loop reformats is reproduced by the reformatting, the
outer loop copies the rest of the input. -/
theorem padLoop_unchanged (input : Bytes) (width : Int)
    (h : ∀ s e, MaximalRun input s e → ¬ PrecededByDot input s →
      Sprintf width (Atoi (slice input s e)) = slice input s e)
    (fuel : Nat) : ∀ (i : Nat) (result : Bytes), i ≤ input.length →
    input.length - i ≤ fuel →
    (i < input.length → isDigit (input.getD i 0) = true →
      i = 0 ∨ isDigit (input.getD (i - 1) 0) = false) →
    padLoop input width fuel i result = result ++ input.drop i := by
  induction fuel with
  | zero =>
    intro i result hi hf _
    have : i = input.length := by omega
    subst this
    simp [padLoop]
  | succ fuel ih =>
    intro i result hi hf hinv
    by_cases hlt : i < input.length
    · by_cases hd : isDigit (input.getD i 0) = true
      · obtain ⟨h1, h2, h3, h4⟩ :=
          scanDigits_spec input (input.length - i) i hi (le_refl _)
        have hne : scanDigits input (input.length - i) i ≠ i := by
          intro heq
          rw [heq] at h4
          rcases h4 with h4 | h4
          · omega
          · rw [hd] at h4; exact Bool.noConfusion h4
        have hrun : MaximalRun input i (scanDigits input (input.length - i) i) :=
          ⟨by omega, h2, h3, hinv hlt hd, h4⟩
        have hnext : ∀ r : Bytes,
            padLoop input width fuel (scanDigits input (input.length - i) i) r
              = r ++ input.drop (scanDigits input (input.length - i) i) := by
          intro r
          apply ih _ r h2 (by omega)
          intro hlt2 hd2
          rcases h4 with h4 | h4
          · omega
          · rw [hd2] at h4; exact Bool.noConfusion h4
        by_cases hdot : i > 0 ∧ input.getD (i - 1) 0 = 46
        · rw [padLoop, if_pos hlt, if_pos hd]
          simp only []
          rw [if_neg (not_not.mpr hdot), hnext, List.append_assoc,
            slice_append_drop input i _ h1]
        · rw [padLoop, if_pos hlt, if_pos hd]
          simp only []
          rw [if_pos hdot, hnext, h i _ hrun hdot, List.append_assoc,
            slice_append_drop input i _ h1]
      · simp only [padLoop, if_pos hlt, if_neg hd]
        rw [ih (i + 1) _ (by omega) (by omega), List.append_assoc, List.singleton_append,
          getD_cons_drop input i hlt]
        intro _ _
        right
        simpa using hd
    · have : i = input.length := by omega
      subst this
      simp [padLoop]

theorem PadNumbers_unchanged (input : Bytes) (width : Int)
    (h : ∀ s e, MaximalRun input s e → ¬ PrecededByDot input s →
      Sprintf width (Atoi (slice input s e)) = slice input s e) :
    PadNumbers input width = input := by
  unfold PadNumbers
  rw [padLoop_unchanged input width h input.length 0 [] (Nat.zero_le _) (by omega)]
  · simp
  · intro _ _; left; rfl

/-- The fuel `len(input)` of `PadNumbers` is enough: more fuel does not change the result of
the outer loop. -/
theorem padLoop_fuel (input : Bytes) (width : Int) (fuel : Nat) :
    ∀ (i : Nat) (result : Bytes) (extra : Nat), input.length - i ≤ fuel →
    padLoop input width (fuel + extra) i result = padLoop input width fuel i result := by
  induction fuel with
  | zero =>
    intro i result extra hf
    cases extra with
    | zero => rfl
    | succ extra =>
      have hlt : ¬ i < input.length := by omega
      simp only [Nat.zero_add, padLoop, if_neg hlt]
  | succ fuel ih =>
    intro i result extra hf
    have hs : fuel + 1 + extra = (fuel + extra) + 1 := by omega
    rw [hs]
    by_cases hlt : i < input.length
    · by_cases hd : isDigit (input.getD i 0) = true
      · obtain ⟨h1, h2, _, h4⟩ :=
          scanDigits_spec input (input.length - i) i (le_of_lt hlt) (le_refl _)
        have hne : scanDigits input (input.length - i) i ≠ i := by
          intro heq
          rw [heq] at h4
          rcases h4 with h4 | h4
          · omega
          · rw [hd] at h4; exact Bool.noConfusion h4
        have hnext : ∀ r : Bytes,
            padLoop input width (fuel + extra) (scanDigits input (input.length - i) i) r
              = padLoop input width fuel (scanDigits input (input.length - i) i) r :=
          fun r => ih _ r extra (by omega)
        rw [padLoop, padLoop, if_pos hlt, if_pos hd, if_pos hlt, if_pos hd]
        simp only [hnext]
      · rw [padLoop, padLoop, if_pos hlt, if_neg hd, if_pos hlt, if_neg hd]
        exact ih _ _ extra (by omega)
    · rw [padLoop, padLoop, if_neg hlt, if_neg hlt]

/-! ## PadNumbers: parsing and formatting a digit run -/

theorem formatDigits_eq (fuel : Nat) : ∀ (u : Nat) (acc : Bytes), u ≤ fuel →
    formatDigits fuel u acc
      = (if u = 0 then [48] else (Nat.digits 10 u).reverse.map (fun d => 48 + d)) ++ acc := by
  induction fuel with
  | zero =>
    intro u acc h
    have : u = 0 := by omega
    subst this
    simp [formatDigits]
  | succ fuel ih =>
    intro u acc h
    by_cases hu : u ≥ 10
    · have hdiv : u / 10 ≤ fuel := by
        have := Nat.div_lt_self (by omega : 0 < u) (by norm_num : 1 < 10)
        omega
      have hpos : u / 10 ≠ 0 := by
        have := Nat.div_pos hu (by norm_num : 0 < 10)
        omega
      have hu0 : u ≠ 0 := by omega
      rw [formatDigits, if_pos hu, ih _ _ hdiv, if_neg hpos, if_neg hu0,
        Nat.digits_def' (by norm_num : 1 < 10) (by omega : 0 < u)]
      simp
    · rw [formatDigits, if_neg hu]
      by_cases hu0 : u = 0
      · subst hu0; simp
      · rw [if_neg hu0, Nat.digits_of_lt 10 u hu0 (by omega)]
        simp

theorem formatDecimal_eq (u : Nat) :
    formatDecimal u
      = if u = 0 then [48] else (Nat.digits 10 u).reverse.map (fun d => 48 + d) := by
  rw [formatDecimal, formatDigits_eq u u [] (le_refl _), List.append_nil]

theorem foldl_digits_eq (run : Bytes) :
    run.foldl (fun acc ch => acc * 10 + (ch - 48)) 0
      = Nat.ofDigits 10 (run.map (fun ch => ch - 48)).reverse := by
  rw [← foldl_mul_add_eq_ofDigits, List.foldl_map]

/-- Parsing a run of at most 18 digits without superfluous leading zero and formatting the
value gives the run back. -/
theorem formatDecimal_Atoi (run : Bytes) (hne : run ≠ [])
    (hdig : ∀ x ∈ run, isDigit x = true) (hlen : run.length ≤ 18)
    (hlead : NoLeadingZero run) : formatDecimal (Atoi run) = run := by
  have hlt : ∀ d ∈ (run.map (fun ch => ch - 48)).reverse, d < 10 := by
    intro d hd
    obtain ⟨x, hx, rfl⟩ := List.mem_map.mp (List.mem_reverse.mp hd)
    have := hdig x hx
    simp [isDigit] at this
    omega
  have hval : run.foldl (fun acc ch => acc * 10 + (ch - 48)) 0 < 10 ^ 18 := by
    rw [foldl_digits_eq]
    calc Nat.ofDigits 10 (run.map (fun ch => ch - 48)).reverse
        < 10 ^ (run.map (fun ch => ch - 48)).reverse.length :=
          Nat.ofDigits_lt_base_pow_length (by norm_num) hlt
      _ ≤ 10 ^ 18 := Nat.pow_le_pow_right (by norm_num) (by simpa using hlen)
  have hatoi : Atoi run = Nat.ofDigits 10 (run.map (fun ch => ch - 48)).reverse := by
    have hle : run.foldl (fun acc ch => acc * 10 + (ch - 48)) 0 ≤ maxInt := by
      have : (10 : Nat) ^ 18 ≤ maxInt := by norm_num [maxInt]
      omega
    simp only [Atoi, if_pos hle]
    exact foldl_digits_eq run
  have hback : run.map (fun ch => 48 + (ch - 48)) = run := by
    conv_rhs => rw [← List.map_id run]
    apply List.map_congr_left
    intro x hx
    have := hdig x hx
    simp [isDigit] at this
    simp only [id]
    omega
  rw [hatoi, formatDecimal_eq]
  rcases hlead with h0 | hhead
  · subst h0
    simp [Nat.ofDigits]
  · have hlast : ∀ hh : (run.map (fun ch => ch - 48)).reverse ≠ [],
        (run.map (fun ch => ch - 48)).reverse.getLast hh ≠ 0 := by
      intro hh
      rw [List.getLast_reverse]
      cases run with
      | nil => exact absurd rfl hne
      | cons a t =>
        have ha := hdig a (by simp)
        simp [isDigit] at ha
        simp only [List.head?_cons, ne_eq, Option.some.injEq] at hhead
        simp only [List.map_cons, List.head_cons]
        omega
    have hdigits := Nat.digits_ofDigits 10 (by norm_num) _ hlt hlast
    have hnz : Nat.ofDigits 10 (run.map (fun ch => ch - 48)).reverse ≠ 0 := by
      intro hz
      rw [hz, Nat.digits_zero] at hdigits
      have : run = [] := by simpa using hdigits.symm
      exact hne this
    rw [if_neg hnz, hdigits, List.reverse_reverse, List.map_map]
    exact hback

theorem length_slice (input : Bytes) (s e : Nat) (he : e ≤ input.length) :
    (slice input s e).length = e - s := by
  simp [slice]
  omega

theorem mem_slice_digit (input : Bytes) (s e : Nat) (hrun : MaximalRun input s e) :
    ∀ x ∈ slice input s e, isDigit x = true := by
  intro x hx
  obtain ⟨k, hk, rfl⟩ := List.mem_iff_getElem.mp hx
  have hlen := length_slice input s e hrun.2.1
  have hk2 : k < e - s := by omega
  have hin : s + k < input.length := by
    have := hrun.2.1
    omega
  have := hrun.2.2.1 (s + k) (by omega) (by omega)
  rw [List.getD_eq_getElem _ _ hin] at this
  simpa [slice] using this

/-- A maximal run of at most 18 digits without superfluous leading zero, at least as long
as the width asks for, is reproduced by `Sprintf` of its parsed value. -/
theorem Sprintf_Atoi_slice (input : Bytes) (width : Int) (s e : Nat)
    (hrun : MaximalRun input s e) (hlead : NoLeadingZero (slice input s e))
    (hlen : (slice input s e).length ≤ 18)
    (hw : width ≤ (slice input s e).length) (hw2 : -width ≤ (slice input s e).length) :
    Sprintf width (Atoi (slice input s e)) = slice input s e := by
  have hl := length_slice input s e hrun.2.1
  have hne : slice input s e ≠ [] := by
    intro h0
    rw [h0] at hl
    have := hrun.1
    simp at hl
    omega
  have hfmt := formatDecimal_Atoi _ hne (mem_slice_digit input s e hrun) hlen hlead
  simp only [Sprintf, hfmt]
  have h1 : ¬ (width > 1000000 ∨ width < -1000000) := by omega
  rw [if_neg h1]
  by_cases hneg : width < 0
  · rw [if_pos hneg]
    have : width.natAbs - (slice input s e).length = 0 := by omega
    simp [this]
  · rw [if_neg hneg]
    have : width.toNat - (slice input s e).length = 0 := by omega
    simp [this]

/-- A property of all maximal runs follows from its instances at the finitely many
positions inside the input. -/
theorem forall_maximalRun_of_bounded (input : Bytes) (P : Nat → Nat → Prop)
    (h : ∀ e, e < input.length + 1 → ∀ s, s < e → MaximalRun input s e → P s e) :
    ∀ s e, MaximalRun input s e → P s e :=
  fun s e hrun => h e (Nat.lt_succ_of_le hrun.2.1) s hrun.1 hrun

/-! ## PadNumbers: the claims -/

set_option synthInstance.maxSize 1000

/-- C5, at a width that `fmt` refuses. The input `7` has one digit run, of one digit, not
preceded by `.`; with width 1000001 the claim asks for `7` left-padded with `0` to
1000001 characters, and `PadNumbers` returns the 13 bytes `%!(BADWIDTH)7`. -/
theorem PadNumbers_width_too_large :
    PadNumbers (ascii "7") 1000001 = ascii "%!(BADWIDTH)7"
      ∧ (PadNumbers (ascii "7") 1000001).length = 13 := by
  decide

/-- C6 as stated fails: the only digit run of `007` has three digits, more than the width
2, and is not preceded by `.`, yet `PadNumbers` returns `07`, not the input. -/
theorem PadNumbers_drops_leading_zeros :
    (∀ s e, MaximalRun (ascii "007") s e → ¬ PrecededByDot (ascii "007") s →
        (2 : Int) < (slice (ascii "007") s e).length)
      ∧ PadNumbers (ascii "007") 2 = ascii "07"
      ∧ PadNumbers (ascii "007") 2 ≠ ascii "007" :=
  ⟨forall_maximalRun_of_bounded (ascii "007")
      (fun s e => ¬ PrecededByDot (ascii "007") s →
        (2 : Int) < (slice (ascii "007") s e).length) (by decide),
    by decide, by decide⟩

/-- C6, amended. When every maximal digit run that is not immediately preceded by `.` is
longer than `width`, has at least `-width` digits, has no superfluous leading zero and
has at most 18 digits, `PadNumbers` returns the input unchanged. -/
theorem PadNumbers_no_truncation (input : Bytes) (width : Int)
    (h : ∀ s e, MaximalRun input s e → ¬ PrecededByDot input s →
      width < (slice input s e).length ∧ -width ≤ (slice input s e).length
        ∧ NoLeadingZero (slice input s e) ∧ (slice input s e).length ≤ 18) :
    PadNumbers input width = input := by
  apply PadNumbers_unchanged
  intro s e hrun hdot
  obtain ⟨h1, h2, h3, h4⟩ := h s e hrun hdot
  exact Sprintf_Atoi_slice input width s e hrun h3 h4 (le_of_lt h1) h2

/-- The amended C6 at `Year 2024` and width 2, the repository's test. -/
theorem PadNumbers_no_truncation_witness :
    PadNumbers (ascii "Year 2024") 2 = ascii "Year 2024" :=
  PadNumbers_no_truncation (ascii "Year 2024") 2
    (forall_maximalRun_of_bounded (ascii "Year 2024")
      (fun s e => ¬ PrecededByDot (ascii "Year 2024") s →
        (2 : Int) < (slice (ascii "Year 2024") s e).length
          ∧ -(2 : Int) ≤ (slice (ascii "Year 2024") s e).length
          ∧ NoLeadingZero (slice (ascii "Year 2024") s e)
          ∧ (slice (ascii "Year 2024") s e).length ≤ 18) (by decide))

/-- C7 as stated fails: at width 0 the input `007` comes back as `7`. -/
theorem PadNumbers_zero_width_changes_input :
    (0 : Int) ≤ 0 ∧ PadNumbers (ascii "007") 0 = ascii "7"
      ∧ PadNumbers (ascii "007") 0 ≠ ascii "007" := by
  decide

/-- C7, amended. For `width ≤ 0`, when every maximal digit run that is not immediately
preceded by `.` has no superfluous leading zero, at most 18 digits and at least `-width`
digits, `PadNumbers` returns the input unchanged. -/
theorem PadNumbers_nonpositive_width (input : Bytes) (width : Int) (hw : width ≤ 0)
    (h : ∀ s e, MaximalRun input s e → ¬ PrecededByDot input s →
      NoLeadingZero (slice input s e) ∧ (slice input s e).length ≤ 18
        ∧ -width ≤ (slice input s e).length) :
    PadNumbers input width = input := by
  apply PadNumbers_unchanged
  intro s e hrun hdot
  obtain ⟨h1, h2, h3⟩ := h s e hrun hdot
  exact Sprintf_Atoi_slice input width s e hrun h1 h2 (by omega) h3

/-- The amended C7 at `Test 123` and width -1, the repository's test. -/
theorem PadNumbers_nonpositive_width_witness :
    PadNumbers (ascii "Test 123") (-1) = ascii "Test 123" :=
  PadNumbers_nonpositive_width (ascii "Test 123") (-1) (by decide)
    (forall_maximalRun_of_bounded (ascii "Test 123")
      (fun s e => ¬ PrecededByDot (ascii "Test 123") s →
        NoLeadingZero (slice (ascii "Test 123") s e)
          ∧ (slice (ascii "Test 123") s e).length ≤ 18
          ∧ -(-1 : Int) ≤ (slice (ascii "Test 123") s e).length) (by decide))

/-! ## Base58: the claims -/

/-- C8, at a character outside the alphabet. The two bytes `C5 81` are the UTF-8 encoding
of U+0141; `range` yields that one rune, which is not in the alphabet, and `byte(c)` keeps
`0x41`, the letter `A`: `Base58Decode` returns the byte 9 and no error. -/
theorem Base58Decode_accepts_non_alphabet_rune :
    rangeRunes [0xC5, 0x81] = [0x141] ∧ 0x141 ∉ base58Alphabet
      ∧ Base58Decode [0xC5, 0x81] = .ok [9] := by
  decide

/-! ## Rounding to nearest, ties to even -/

/-- The integers above the rounding of `y`: those above `y + 1/2`, and `y + 1/2` itself
when it is odd. -/
theorem roundHalfEven_lt_iff (y : ℚ) (N : Int) :
    roundHalfEven y < N ↔ y < N - 1 / 2 ∨ (y = N - 1 / 2 ∧ N % 2 = 1) := by
  have hfl : (⌊y⌋ : ℚ) ≤ y := Int.floor_le y
  have hlt : y < ⌊y⌋ + 1 := Int.lt_floor_add_one y
  unfold roundHalfEven
  split_ifs with h1 h2 h3
  · constructor
    · intro h
      left
      have : (⌊y⌋ : ℚ) + 1 ≤ N := by exact_mod_cast h
      linarith
    · rintro (h | ⟨h, _⟩)
      · have : (⌊y⌋ : ℚ) < N := by linarith
        exact_mod_cast this
      · have : (⌊y⌋ : ℚ) < N := by linarith
        exact_mod_cast this
  · constructor
    · intro h
      left
      have : (⌊y⌋ : ℚ) + 1 + 1 ≤ N := by exact_mod_cast (show ⌊y⌋ + 1 + 1 ≤ N by omega)
      linarith
    · rintro (h | ⟨h, _⟩)
      · have : (⌊y⌋ : ℚ) + 1 < N := by linarith
        exact_mod_cast this
      · have : (⌊y⌋ : ℚ) + 1 < N := by linarith
        exact_mod_cast this
  · have hy : y = ⌊y⌋ + 1 / 2 := by linarith
    constructor
    · intro h
      by_cases hN : ⌊y⌋ + 1 = N
      · right
        refine ⟨?_, by omega⟩
        have : (⌊y⌋ : ℚ) + 1 = N := by exact_mod_cast hN
        linarith
      · left
        have : (⌊y⌋ : ℚ) + 1 + 1 ≤ N := by exact_mod_cast (show ⌊y⌋ + 1 + 1 ≤ N by omega)
        linarith
    · rintro (h | ⟨h, _⟩)
      · have : (⌊y⌋ : ℚ) < N := by linarith
        exact_mod_cast this
      · have : (⌊y⌋ : ℚ) < N := by linarith
        exact_mod_cast this
  · have hy : y = ⌊y⌋ + 1 / 2 := by linarith
    constructor
    · intro h
      left
      have : (⌊y⌋ : ℚ) + 1 + 1 ≤ N := by exact_mod_cast (show ⌊y⌋ + 1 + 1 ≤ N by omega)
      linarith
    · rintro (h | ⟨h, hodd⟩)
      · have : (⌊y⌋ : ℚ) + 1 < N := by linarith
        exact_mod_cast this
      · exfalso
        have : (⌊y⌋ : ℚ) + 1 = N := by linarith
        have hN : ⌊y⌋ + 1 = N := by exact_mod_cast this
        omega

theorem roundHalfEven_le_of_lt (y : ℚ) (M : Int) (h : y < M) : roundHalfEven y ≤ M := by
  have hfl : (⌊y⌋ : ℚ) ≤ y := Int.floor_le y
  have hn : ⌊y⌋ < M := by
    have : (⌊y⌋ : ℚ) < M := by linarith
    exact_mod_cast this
  unfold roundHalfEven
  split_ifs <;> omega

theorem le_roundHalfEven (y : ℚ) (M : Int) (h : (M : ℚ) ≤ y) : M ≤ roundHalfEven y := by
  have hn : M ≤ ⌊y⌋ := Int.le_floor.mpr h
  unfold roundHalfEven
  split_ifs <;> omega

theorem log_bracket (x : ℚ) (hx : 0 < x) :
    (2 : ℚ) ^ Int.log 2 x ≤ x ∧ x < (2 : ℚ) ^ (Int.log 2 x + 1) := by
  have h1 := Int.zpow_log_le_self (b := 2) (r := x) (by norm_num) hx
  have h2 := Int.lt_zpow_succ_log_self (b := 2) (by norm_num) x
  simp only [Nat.cast_ofNat] at h1 h2
  exact ⟨h1, h2⟩

theorem roundHalfEven_abs_sub_le (y : ℚ) : |(roundHalfEven y : ℚ) - y| ≤ 1 / 2 := by
  have hfl : (⌊y⌋ : ℚ) ≤ y := Int.floor_le y
  have hlt : y < ⌊y⌋ + 1 := Int.lt_floor_add_one y
  rw [abs_le]
  unfold roundHalfEven
  split_ifs with h1 h2 h3
  · constructor <;> linarith
  · push_cast
    constructor <;> linarith
  · constructor <;> linarith
  · push_cast
    constructor <;> linarith

/-- A rational within less than one half of an integer is rounded to it. -/
theorem roundHalfEven_eq_of_abs_lt (y : ℚ) (n : Int) (h : |y - n| < 1 / 2) :
    roundHalfEven y = n := by
  rw [abs_lt] at h
  have h1 : ¬ roundHalfEven y < n := by
    rw [roundHalfEven_lt_iff]
    rintro (h' | ⟨h', _⟩) <;> linarith
  have h2 : roundHalfEven y < n + 1 := by
    rw [roundHalfEven_lt_iff]
    left
    push_cast
    linarith
  omega

theorem roundHalfEven_intCast (n : Int) : roundHalfEven (n : ℚ) = n :=
  roundHalfEven_eq_of_abs_lt _ n (by simp)

/-- The binary exponent of a rational between two consecutive powers of two. -/
theorem log_eq_of_bracket (x : ℚ) (e : Int) (h1 : (2 : ℚ) ^ e ≤ x) (h2 : x < (2 : ℚ) ^ (e + 1)) :
    Int.log 2 x = e := by
  have hx : 0 < x := lt_of_lt_of_le (by positivity) h1
  have hle : e ≤ Int.log 2 x := by
    rw [← Int.zpow_le_iff_le_log (by norm_num) hx]
    simpa using h1
  have hlt : Int.log 2 x < e + 1 := by
    rw [← Int.lt_zpow_iff_log_lt (by norm_num) hx]
    simpa using h2
  omega

/-- The value of `roundToPrec` from the binary exponent of `x` and the rounded multiple. -/
theorem roundToPrec_eq (prec : Nat) (x : ℚ) (e n : Int) (h1 : (2 : ℚ) ^ e ≤ |x|)
    (h2 : |x| < (2 : ℚ) ^ (e + 1)) (h3 : roundHalfEven (x / (2 : ℚ) ^ (e + 1 - prec)) = n) :
    roundToPrec prec x = n * (2 : ℚ) ^ (e + 1 - prec) := by
  have hx : x ≠ 0 := by
    intro h0
    rw [h0, abs_zero] at h1
    have : (0 : ℚ) < (2 : ℚ) ^ e := by positivity
    linarith
  rw [roundToPrec, if_neg hx, log_eq_of_bracket |x| e h1 h2, h3]

/-- The rounding error is at most half a unit in the last place, hence at most
`|x| / 2^prec`. -/
theorem roundToPrec_abs_sub_le (prec : Nat) (x : ℚ) :
    |roundToPrec prec x - x| ≤ |x| / 2 ^ prec := by
  by_cases hx : x = 0
  · subst hx
    simp [roundToPrec]
  · have hpos : 0 < |x| := abs_pos.mpr hx
    obtain ⟨hlo, _⟩ := log_bracket |x| hpos
    have hq : (0 : ℚ) < (2 : ℚ) ^ (Int.log 2 |x| + 1 - prec) := by positivity
    rw [roundToPrec, if_neg hx]
    have herr := roundHalfEven_abs_sub_le (x / (2 : ℚ) ^ (Int.log 2 |x| + 1 - prec))
    have hsplit : (roundHalfEven (x / (2 : ℚ) ^ (Int.log 2 |x| + 1 - prec)) : ℚ)
          * (2 : ℚ) ^ (Int.log 2 |x| + 1 - prec) - x
        = ((roundHalfEven (x / (2 : ℚ) ^ (Int.log 2 |x| + 1 - prec)) : ℚ)
            - x / (2 : ℚ) ^ (Int.log 2 |x| + 1 - prec))
          * (2 : ℚ) ^ (Int.log 2 |x| + 1 - prec) := by
      field_simp
    rw [hsplit, abs_mul, abs_of_pos hq]
    have hpow : (2 : ℚ) ^ (Int.log 2 |x| + 1 - prec)
        = 2 * (2 : ℚ) ^ Int.log 2 |x| / 2 ^ prec := by
      rw [zpow_sub₀ (by norm_num : (2 : ℚ) ≠ 0), zpow_add₀ (by norm_num : (2 : ℚ) ≠ 0),
        zpow_one, zpow_natCast]
      ring
    have hp : (0 : ℚ) < 2 ^ prec := by positivity
    calc |(roundHalfEven (x / (2 : ℚ) ^ (Int.log 2 |x| + 1 - prec)) : ℚ)
            - x / (2 : ℚ) ^ (Int.log 2 |x| + 1 - prec)|
          * (2 : ℚ) ^ (Int.log 2 |x| + 1 - prec)
        ≤ 1 / 2 * (2 : ℚ) ^ (Int.log 2 |x| + 1 - prec) :=
          mul_le_mul_of_nonneg_right herr hq.le
      _ = (2 : ℚ) ^ Int.log 2 |x| / 2 ^ prec := by rw [hpow]; ring
      _ ≤ |x| / 2 ^ prec := div_le_div_of_nonneg_right hlo hp.le

/-- At a precision of 64 bits or more the rounding error is at most `|x| / 2^64`. -/
theorem roundToPrec_abs_sub_le_64 (prec : Nat) (x : ℚ) (hp : 64 ≤ prec) :
    |roundToPrec prec x - x| ≤ |x| / 2 ^ 64 := by
  refine le_trans (roundToPrec_abs_sub_le prec x) ?_
  apply div_le_div_of_nonneg_left (abs_nonneg x) (by positivity)
  exact pow_le_pow_right₀ (by norm_num) hp

/-- Rounding to at least one bit keeps the sign: a positive number stays positive. -/
theorem roundToPrec_pos (prec : Nat) (x : ℚ) (hp : 1 ≤ prec) (hx : 0 < x) :
    0 < roundToPrec prec x := by
  have h := roundToPrec_abs_sub_le prec x
  rw [abs_of_pos hx, abs_le] at h
  have h2 : x / 2 ^ prec ≤ x / 2 := by
    apply div_le_div_of_nonneg_left hx.le (by norm_num)
    calc (2 : ℚ) = 2 ^ 1 := by norm_num
      _ ≤ 2 ^ prec := pow_le_pow_right₀ (by norm_num) hp
  linarith [h.1]

theorem roundToPrec_neg_of_neg (prec : Nat) (x : ℚ) (hp : 1 ≤ prec) (hx : x < 0) :
    roundToPrec prec x < 0 := by
  have h := roundToPrec_abs_sub_le prec x
  rw [abs_of_neg hx, abs_le] at h
  have h2 : -x / 2 ^ prec ≤ -x / 2 := by
    apply div_le_div_of_nonneg_left (by linarith) (by norm_num)
    calc (2 : ℚ) = 2 ^ 1 := by norm_num
      _ ≤ 2 ^ prec := pow_le_pow_right₀ (by norm_num) hp
  linarith [h.2]

theorem roundToPrec_zero (prec : Nat) : roundToPrec prec 0 = 0 := by
  simp [roundToPrec]

theorem roundToPrec_eq_zero_iff (prec : Nat) (x : ℚ) (hp : 1 ≤ prec) :
    roundToPrec prec x = 0 ↔ x = 0 := by
  constructor
  · intro h
    by_contra hx
    rcases lt_or_gt_of_ne hx with hneg | hpos
    · exact absurd h (roundToPrec_neg_of_neg prec x hp hneg).ne
    · exact absurd h (roundToPrec_pos prec x hp hpos).ne'
  · rintro rfl
    exact roundToPrec_zero prec

/-- A rounded value between bounds that are not negative: the bounds of the result. -/
theorem round_bounds (r y lo hi : ℚ) (h : |r - y| ≤ |y| / 2 ^ 64) (hlo : 0 ≤ lo)
    (h1 : lo ≤ y) (h2 : y ≤ hi) :
    lo * (1 - 1 / 2 ^ 64) ≤ r ∧ r ≤ hi * (1 + 1 / 2 ^ 64) := by
  have hy : 0 ≤ y := le_trans hlo h1
  rw [abs_of_nonneg hy, abs_le] at h
  constructor
  · nlinarith [h.1]
  · nlinarith [h.2]

/-- A number with a mantissa of at most `prec` bits is not changed by the rounding. -/
theorem roundToPrec_of_int (prec : Nat) (m k : Int) (hm : |(m : ℚ)| < 2 ^ prec) :
    roundToPrec prec (m * (2 : ℚ) ^ k) = m * (2 : ℚ) ^ k := by
  by_cases hz : m = 0
  · subst hz
    simp [roundToPrec]
  · have h2k : (0 : ℚ) < (2 : ℚ) ^ k := by positivity
    have hx : (m : ℚ) * (2 : ℚ) ^ k ≠ 0 :=
      mul_ne_zero (by exact_mod_cast hz) h2k.ne'
    have habs : |(m : ℚ) * (2 : ℚ) ^ k| = |(m : ℚ)| * (2 : ℚ) ^ k := by
      rw [abs_mul, abs_of_pos h2k]
    obtain ⟨hlo, _⟩ := log_bracket |(m : ℚ) * (2 : ℚ) ^ k| (abs_pos.mpr hx)
    -- the binary exponent is below `k + prec`
    have hlt : (2 : ℚ) ^ Int.log 2 |(m : ℚ) * (2 : ℚ) ^ k| < (2 : ℚ) ^ (k + prec) := by
      refine lt_of_le_of_lt hlo ?_
      rw [habs, zpow_add₀ (by norm_num : (2 : ℚ) ≠ 0), zpow_natCast, mul_comm]
      exact mul_lt_mul_of_pos_left hm h2k
    have hexp : Int.log 2 |(m : ℚ) * (2 : ℚ) ^ k| < k + prec :=
      (zpow_lt_zpow_iff_right₀ (by norm_num : (1 : ℚ) < 2)).mp hlt
    obtain ⟨j, hj⟩ : ∃ j : Nat, (j : Int) = k - (Int.log 2 |(m : ℚ) * (2 : ℚ) ^ k| + 1 - prec) :=
      ⟨(k - (Int.log 2 |(m : ℚ) * (2 : ℚ) ^ k| + 1 - prec)).toNat, by
        rw [Int.toNat_of_nonneg]
        omega⟩
    have hquot : (m : ℚ) * (2 : ℚ) ^ k / (2 : ℚ) ^ (Int.log 2 |(m : ℚ) * (2 : ℚ) ^ k| + 1 - prec)
        = ((m * 2 ^ j : Int) : ℚ) := by
      rw [mul_div_assoc, ← zpow_sub₀ (by norm_num : (2 : ℚ) ≠ 0), ← hj, zpow_natCast]
      push_cast
      ring
    rw [roundToPrec, if_neg hx, hquot, roundHalfEven_intCast]
    rw [← hquot]
    field_simp

/-- An integer of at most `prec` bits is not changed by the rounding. -/
theorem roundToPrec_intCast (prec : Nat) (m : Int) (hm : |(m : ℚ)| < 2 ^ prec) :
    roundToPrec prec (m : ℚ) = m := by
  have h := roundToPrec_of_int prec m 0 hm
  simpa using h

/-- The value of `roundToPrec` at a number given with its binary exponent `e` and the
multiple `n` of the last place that lies within one half of it. -/
theorem roundToPrec_eval (prec : Nat) (x : ℚ) (e n : Int) (h1 : (2 : ℚ) ^ e ≤ |x|)
    (h2 : |x| < (2 : ℚ) ^ (e + 1))
    (h3 : |x / (2 : ℚ) ^ (e + 1 - prec) - n| < 1 / 2) :
    roundToPrec prec x = n * (2 : ℚ) ^ (e + 1 - prec) :=
  roundToPrec_eq prec x e n h1 h2 (roundHalfEven_eq_of_abs_lt _ n h3)

/-! ## The rounding error of the constant product -/

/-- The rounded product `k` of the rounded reserves. -/
theorem product_bounds (b q b' q' k' : ℚ) (hb : 0 < b) (hq : 0 < q)
    (h1 : |b' - b| ≤ |b| / 2 ^ 64) (h2 : |q' - q| ≤ |q| / 2 ^ 64)
    (h3 : |k' - b' * q'| ≤ |b' * q'| / 2 ^ 64) :
    (b * (1 - 1 / 2 ^ 64) ≤ b' ∧ b' ≤ b * (1 + 1 / 2 ^ 64))
      ∧ (q * (1 - 1 / 2 ^ 64) ≤ q' ∧ q' ≤ q * (1 + 1 / 2 ^ 64))
      ∧ b * q * (1 - 4 / 2 ^ 64) ≤ k' ∧ k' ≤ b * q * (1 + 4 / 2 ^ 64) := by
  have hb' := round_bounds b' b b b h1 hb.le (le_refl _) (le_refl _)
  have hq' := round_bounds q' q q q h2 hq.le (le_refl _) (le_refl _)
  have hbq : 0 < b * q := mul_pos hb hq
  have hblo : 0 ≤ b * (1 - 1 / 2 ^ 64) := mul_nonneg hb.le (by norm_num)
  have hqlo : 0 ≤ q * (1 - 1 / 2 ^ 64) := mul_nonneg hq.le (by norm_num)
  have hm1 : b * (1 - 1 / 2 ^ 64) * (q * (1 - 1 / 2 ^ 64)) ≤ b' * q' :=
    mul_le_mul hb'.1 hq'.1 hqlo (le_trans hblo hb'.1)
  have hm2 : b' * q' ≤ b * (1 + 1 / 2 ^ 64) * (q * (1 + 1 / 2 ^ 64)) :=
    mul_le_mul hb'.2 hq'.2 (le_trans hqlo hq'.1) (mul_nonneg hb.le (by norm_num))
  have hk := round_bounds k' (b' * q') _ _ h3 (mul_nonneg hblo hqlo) hm1 hm2
  refine ⟨hb', hq', ?_, ?_⟩
  · refine le_trans ?_ hk.1
    have : b * (1 - 1 / 2 ^ 64) * (q * (1 - 1 / 2 ^ 64)) * (1 - 1 / 2 ^ 64)
        = b * q * ((1 - 1 / 2 ^ 64) * (1 - 1 / 2 ^ 64) * (1 - 1 / 2 ^ 64)) := by ring
    rw [this]
    apply mul_le_mul_of_nonneg_left _ hbq.le
    norm_num
  · refine le_trans hk.2 ?_
    have : b * (1 + 1 / 2 ^ 64) * (q * (1 + 1 / 2 ^ 64)) * (1 + 1 / 2 ^ 64)
        = b * q * ((1 + 1 / 2 ^ 64) * (1 + 1 / 2 ^ 64) * (1 + 1 / 2 ^ 64)) := by ring
    rw [this]
    apply mul_le_mul_of_nonneg_left _ hbq.le
    norm_num

/-- The rounded new base reserve `k / w'` against the exact `b * q / w`, when the rounded
new quote reserve `w'` is within a relative `4 / 2^64` of the exact `w`. -/
theorem quotient_bounds (bq w k' nq nb : ℚ) (hbq : 0 < bq) (hw : 0 < w)
    (hk1 : bq * (1 - 4 / 2 ^ 64) ≤ k') (hk2 : k' ≤ bq * (1 + 4 / 2 ^ 64))
    (hn1 : w * (1 - 4 / 2 ^ 64) ≤ nq) (hn2 : nq ≤ w * (1 + 4 / 2 ^ 64))
    (h : |nb - k' / nq| ≤ |k' / nq| / 2 ^ 64) :
    0 < nq ∧ bq / w * (1 - 11 / 2 ^ 64) ≤ nb ∧ nb ≤ bq / w * (1 + 11 / 2 ^ 64) := by
  have hnq : 0 < nq := lt_of_lt_of_le (mul_pos hw (by norm_num)) hn1
  have hT : 0 < bq / w := div_pos hbq hw
  have hlo : bq / w * (1 - 9 / 2 ^ 64) ≤ k' / nq := by
    rw [le_div_iff₀ hnq]
    have h1 : bq / w * (1 - 9 / 2 ^ 64) * nq
        ≤ bq / w * (1 - 9 / 2 ^ 64) * (w * (1 + 4 / 2 ^ 64)) :=
      mul_le_mul_of_nonneg_left hn2 (mul_nonneg hT.le (by norm_num))
    have h2 : bq / w * (1 - 9 / 2 ^ 64) * (w * (1 + 4 / 2 ^ 64))
        = bq * ((1 - 9 / 2 ^ 64) * (1 + 4 / 2 ^ 64)) := by
      field_simp
      ring
    have h3 : bq * ((1 - 9 / 2 ^ 64) * (1 + 4 / 2 ^ 64)) ≤ bq * (1 - 4 / 2 ^ 64) := by
      apply mul_le_mul_of_nonneg_left _ hbq.le
      norm_num
    linarith
  have hhi : k' / nq ≤ bq / w * (1 + 9 / 2 ^ 64) := by
    rw [div_le_iff₀ hnq]
    have h1 : bq / w * (1 + 9 / 2 ^ 64) * (w * (1 - 4 / 2 ^ 64))
        ≤ bq / w * (1 + 9 / 2 ^ 64) * nq :=
      mul_le_mul_of_nonneg_left hn1 (mul_nonneg hT.le (by norm_num))
    have h2 : bq / w * (1 + 9 / 2 ^ 64) * (w * (1 - 4 / 2 ^ 64))
        = bq * ((1 + 9 / 2 ^ 64) * (1 - 4 / 2 ^ 64)) := by
      field_simp
      ring
    have h3 : bq * (1 + 4 / 2 ^ 64) ≤ bq * ((1 + 9 / 2 ^ 64) * (1 - 4 / 2 ^ 64)) := by
      apply mul_le_mul_of_nonneg_left _ hbq.le
      norm_num
    linarith
  have hr := round_bounds nb (k' / nq) _ _ h (mul_nonneg hT.le (by norm_num)) hlo hhi
  refine ⟨hnq, ?_, ?_⟩
  · refine le_trans ?_ hr.1
    rw [mul_assoc]
    apply mul_le_mul_of_nonneg_left _ hT.le
    norm_num
  · refine le_trans hr.2 ?_
    rw [mul_assoc]
    apply mul_le_mul_of_nonneg_left _ hT.le
    norm_num

/-- The last step of both error bounds: the rounded difference `price` of the new and the
old base reserve, with `t` the exact new base reserve. -/
theorem difference_error (b t b' nb s price exact : ℚ) (hb : 0 < b)
    (hb1 : b * (1 - 1 / 2 ^ 64) ≤ b') (hb2 : b' ≤ b * (1 + 1 / 2 ^ 64))
    (hnb1 : t * (1 - 11 / 2 ^ 64) ≤ nb) (hnb2 : nb ≤ t * (1 + 11 / 2 ^ 64))
    (ht2 : t ≤ 2 * b)
    (hs : s = nb - b' ∧ exact = t - b ∨ s = b' - nb ∧ exact = b - t)
    (h6 : |price - s| ≤ |s| / 2 ^ 64) :
    |price - exact| ≤ b / 2 ^ 59 := by
  have hs1 : exact - 23 * b / 2 ^ 64 ≤ s := by
    rcases hs with ⟨h, h'⟩ | ⟨h, h'⟩ <;> rw [h, h'] <;> linarith
  have hs2 : s ≤ exact + 23 * b / 2 ^ 64 := by
    rcases hs with ⟨h, h'⟩ | ⟨h, h'⟩ <;> rw [h, h'] <;> linarith
  have he1 : -b ≤ exact := by
    rcases hs with ⟨_, h'⟩ | ⟨_, h'⟩ <;> rw [h'] <;> linarith
  have he2 : exact ≤ b := by
    rcases hs with ⟨_, h'⟩ | ⟨_, h'⟩ <;> rw [h'] <;> linarith
  have habs : |s| ≤ 2 * b := by
    rw [abs_le]
    constructor <;> linarith
  have hu : |s| / 2 ^ 64 ≤ 2 * b / 2 ^ 64 :=
    div_le_div_of_nonneg_right habs (by positivity)
  rw [abs_le] at h6 ⊢
  constructor
  · linarith [h6.1]
  · linarith [h6.2]

/-- The rounding error of the buy: with rounded reserves, product, new quote reserve, new
base reserve and difference, each within `2^-64` of the exact operation on its operands,
the price of a buy of at most half the quote reserve is within `b / 2^59` of
`b * q / (q - x) - b`. -/
theorem buy_error (b q x b' q' k' nq nb price : ℚ) (hb : 0 < b) (hq : 0 < q) (hx : 0 < x)
    (hxq : 2 * x ≤ q)
    (h1 : |b' - b| ≤ |b| / 2 ^ 64) (h2 : |q' - q| ≤ |q| / 2 ^ 64)
    (h3 : |k' - b' * q'| ≤ |b' * q'| / 2 ^ 64)
    (h4 : |nq - (q' - x)| ≤ |q' - x| / 2 ^ 64)
    (h5 : |nb - k' / nq| ≤ |k' / nq| / 2 ^ 64)
    (h6 : |price - (nb - b')| ≤ |nb - b'| / 2 ^ 64) :
    0 < nq ∧ |price - (b * q / (q - x) - b)| ≤ b / 2 ^ 59 := by
  obtain ⟨hb', hq', hk1, hk2⟩ := product_bounds b q b' q' k' hb hq h1 h2 h3
  have hw : 0 < q - x := by linarith
  have hd1 : (q - x) * (1 - 2 / 2 ^ 64) ≤ q' - x := by linarith [hq'.1]
  have hd2 : q' - x ≤ (q - x) * (1 + 2 / 2 ^ 64) := by linarith [hq'.2]
  have hn := round_bounds nq (q' - x) _ _ h4 (mul_nonneg hw.le (by norm_num)) hd1 hd2
  have hn1 : (q - x) * (1 - 4 / 2 ^ 64) ≤ nq := by
    refine le_trans ?_ hn.1
    rw [mul_assoc]
    apply mul_le_mul_of_nonneg_left _ hw.le
    norm_num
  have hn2 : nq ≤ (q - x) * (1 + 4 / 2 ^ 64) := by
    refine le_trans hn.2 ?_
    rw [mul_assoc]
    apply mul_le_mul_of_nonneg_left _ hw.le
    norm_num
  obtain ⟨hnq, hnb1, hnb2⟩ :=
    quotient_bounds (b * q) (q - x) k' nq nb (mul_pos hb hq) hw hk1 hk2 hn1 hn2 h5
  refine ⟨hnq, ?_⟩
  have hT2 : b * q / (q - x) ≤ 2 * b := by
    rw [div_le_iff₀ hw]
    have := mul_nonneg hb.le (by linarith : 0 ≤ q - 2 * x)
    linarith
  exact difference_error b (b * q / (q - x)) b' nb (nb - b') price _ hb hb'.1 hb'.2 hnb1
    hnb2 hT2 (Or.inl ⟨rfl, rfl⟩) h6

/-- The rounding error of the sell: the price of a sell is within `b / 2^59` of
`b - b * q / (q + x)`. -/
theorem sell_error (b q x b' q' k' nq nb price : ℚ) (hb : 0 < b) (hq : 0 < q) (hx : 0 < x)
    (h1 : |b' - b| ≤ |b| / 2 ^ 64) (h2 : |q' - q| ≤ |q| / 2 ^ 64)
    (h3 : |k' - b' * q'| ≤ |b' * q'| / 2 ^ 64)
    (h4 : |nq - (q' + x)| ≤ |q' + x| / 2 ^ 64)
    (h5 : |nb - k' / nq| ≤ |k' / nq| / 2 ^ 64)
    (h6 : |price - (b' - nb)| ≤ |b' - nb| / 2 ^ 64) :
    0 < nq ∧ |price - (b - b * q / (q + x))| ≤ b / 2 ^ 59 := by
  obtain ⟨hb', hq', hk1, hk2⟩ := product_bounds b q b' q' k' hb hq h1 h2 h3
  have hw : 0 < q + x := by linarith
  have hd1 : (q + x) * (1 - 2 / 2 ^ 64) ≤ q' + x := by linarith [hq'.1]
  have hd2 : q' + x ≤ (q + x) * (1 + 2 / 2 ^ 64) := by linarith [hq'.2]
  have hn := round_bounds nq (q' + x) _ _ h4 (mul_nonneg hw.le (by norm_num)) hd1 hd2
  have hn1 : (q + x) * (1 - 4 / 2 ^ 64) ≤ nq := by
    refine le_trans ?_ hn.1
    rw [mul_assoc]
    apply mul_le_mul_of_nonneg_left _ hw.le
    norm_num
  have hn2 : nq ≤ (q + x) * (1 + 4 / 2 ^ 64) := by
    refine le_trans hn.2 ?_
    rw [mul_assoc]
    apply mul_le_mul_of_nonneg_left _ hw.le
    norm_num
  obtain ⟨hnq, hnb1, hnb2⟩ :=
    quotient_bounds (b * q) (q + x) k' nq nb (mul_pos hb hq) hw hk1 hk2 hn1 hn2 h5
  refine ⟨hnq, ?_⟩
  have hT2 : b * q / (q + x) ≤ 2 * b := by
    rw [div_le_iff₀ hw]
    have := mul_pos hb hq
    have := mul_pos hb hx
    linarith
  exact difference_error b (b * q / (q + x)) b' nb (b' - nb) price _ hb hb'.1 hb'.2 hnb1
    hnb2 hT2 (Or.inr ⟨rfl, rfl⟩) h6
/-! ## CalculatePrice: the two branches in closed form -/

theorem Pow10_pos (n : Int) : 0 < Pow10 n := by
  unfold Pow10
  positivity

theorem Sign_fin_eq_zero (v : ℚ) : (BigFloat.fin v).Sign = 0 ↔ v = 0 := by
  simp only [BigFloat.Sign]
  split_ifs with h1 h2
  · simp; exact ne_of_lt h1
  · simp [h2]
  · simp [h2]

theorem normalizedBase_ne_zero (pool : PoolInfo) (hB : pool.BaseReserve ≠ 0) :
    normalizedBase pool ≠ 0 := by
  have hB' : (pool.BaseReserve : ℚ) ≠ 0 := by exact_mod_cast hB
  exact div_ne_zero hB' (Pow10_pos pool.BaseDecimals).ne'

theorem normalizedQuote_ne_zero (pool : PoolInfo) (hQ : pool.QuoteReserve ≠ 0) :
    normalizedQuote pool ≠ 0 := by
  have hQ' : (pool.QuoteReserve : ℚ) ≠ 0 := by exact_mod_cast hQ
  exact div_ne_zero hQ' (Pow10_pos pool.QuoteDecimals).ne'

theorem reservePrec_ge (reserve : Int) : 64 ≤ reservePrec reserve := le_max_right _ _

theorem productPrec_ge (pool : PoolInfo) : 64 ≤ productPrec pool :=
  le_trans (reservePrec_ge _) (le_max_left _ _)

theorem newQuotePrec_ge (pool : PoolInfo) (prec : Nat) : 64 ≤ newQuotePrec pool prec :=
  le_trans (reservePrec_ge _) (le_max_left _ _)

theorem pricePrec_ge (pool : PoolInfo) (prec : Nat) : 64 ≤ pricePrec pool prec :=
  le_trans (productPrec_ge pool) (le_max_left _ _)

/-- The precision of the difference of the new and the old base reserve is that of the
new base reserve. -/
theorem pricePrec_max (pool : PoolInfo) (prec : Nat) :
    max (pricePrec pool prec) (reservePrec pool.BaseReserve) = pricePrec pool prec
      ∧ max (reservePrec pool.BaseReserve) (pricePrec pool prec) = pricePrec pool prec := by
  have h : reservePrec pool.BaseReserve ≤ pricePrec pool prec :=
    le_trans (le_max_left _ _) (le_max_left _ _)
  exact ⟨max_eq_left h, max_eq_right h⟩

theorem floatBase_ne_zero (pool : PoolInfo) (hB : pool.BaseReserve ≠ 0) :
    floatBase pool ≠ 0 := by
  unfold floatBase
  rw [Ne, roundToPrec_eq_zero_iff _ _ (le_trans (by norm_num) (reservePrec_ge _))]
  exact normalizedBase_ne_zero pool hB

theorem floatQuote_ne_zero (pool : PoolInfo) (hQ : pool.QuoteReserve ≠ 0) :
    floatQuote pool ≠ 0 := by
  unfold floatQuote
  rw [Ne, roundToPrec_eq_zero_iff _ _ (le_trans (by norm_num) (reservePrec_ge _))]
  exact normalizedQuote_ne_zero pool hQ

theorem floatProduct_ne_zero (pool : PoolInfo) (hB : pool.BaseReserve ≠ 0)
    (hQ : pool.QuoteReserve ≠ 0) : floatProduct pool ≠ 0 := by
  unfold floatProduct
  rw [Ne, roundToPrec_eq_zero_iff _ _ (le_trans (by norm_num) (productPrec_ge _))]
  exact mul_ne_zero (floatBase_ne_zero pool hB) (floatQuote_ne_zero pool hQ)

/-- The quotient `reserve.Quo(reserve, factor)` of `CalculatePrice`. -/
theorem Quo_reserve (reserve decimals : Int) :
    Float.Quo (Float.SetInt reserve).prec (Float.SetInt reserve)
        (Float.SetFloat64 (Pow10 decimals))
      = .ok { prec := reservePrec reserve
              val := .fin (roundToPrec (reservePrec reserve)
                ((reserve : ℚ) / (10 : ℚ) ^ decimals)) } := by
  have hp : (Float.SetInt reserve).prec = reservePrec reserve := rfl
  have h0 : reservePrec reserve ≠ 0 := by
    have := reservePrec_ge reserve
    omega
  have h10 : (10 : ℚ) ^ decimals ≠ 0 := (Pow10_pos decimals).ne'
  have h0' : max (BitLen reserve) 64 ≠ 0 := h0
  simp only [Float.Quo, Float.SetInt, Float.SetFloat64, BigFloat.Quo, Pow10, if_neg h10,
    Float.opPrec, BigFloat.round, if_neg h0']
  rfl

/-- The part of `CalculatePrice` up to the constant product, on non-zero reserves: the
branch of the side on the rounded reserves and product. -/
theorem CalculatePrice_sides (pool : PoolInfo) (quantity : Float) (side : Bytes)
    (hB : pool.BaseReserve ≠ 0) (hQ : pool.QuoteReserve ≠ 0) :
    CalculatePrice pool quantity side
      = if side = ascii "buy" then
          (do
            let newQuoteReserve ← Float.Sub 0
              { prec := reservePrec pool.QuoteReserve, val := .fin (floatQuote pool) } quantity
            let newBaseReserve ← Float.Quo 0
              { prec := productPrec pool, val := .fin (floatProduct pool) } newQuoteReserve
            let baseAmount ← Float.Sub 0 newBaseReserve
              { prec := reservePrec pool.BaseReserve, val := .fin (floatBase pool) }
            pure baseAmount)
        else if side = ascii "sell" then
          (do
            let newQuoteReserve ← Float.Add 0
              { prec := reservePrec pool.QuoteReserve, val := .fin (floatQuote pool) } quantity
            let newBaseReserve ← Float.Quo 0
              { prec := productPrec pool, val := .fin (floatProduct pool) } newQuoteReserve
            let baseAmount ← Float.Sub 0
              { prec := reservePrec pool.BaseReserve, val := .fin (floatBase pool) }
              newBaseReserve
            pure baseAmount)
        else .error (.invalidSide side) := by
  have hb := floatBase_ne_zero pool hB
  have hq := floatQuote_ne_zero pool hQ
  unfold floatProduct productPrec
  unfold floatBase floatQuote normalizedBase normalizedQuote at *
  unfold CalculatePrice
  rw [if_neg (by simp [hB, hQ])]
  simp only [Quo_reserve, bind, Except.bind, Float.Sign, Sign_fin_eq_zero]
  rw [if_neg (by simp [hb, hq])]
  simp only [Float.Mul, BigFloat.Mul, Float.opPrec, if_true, BigFloat.round, pure,
    Except.pure]

theorem sell_ne_buy : ascii "sell" ≠ ascii "buy" := by decide

/-- The buy branch of `CalculatePrice` on non-zero reserves and a finite quantity: the
number `buyPrice`, or an infinity when the new quote reserve is zero. -/
theorem CalculatePrice_buy_fin (pool : PoolInfo) (prec : Nat) (x : ℚ)
    (hB : pool.BaseReserve ≠ 0) (hQ : pool.QuoteReserve ≠ 0) :
    CalculatePrice pool { prec := prec, val := .fin x } (ascii "buy")
      = .ok { prec := pricePrec pool prec
              val := if floatQuote pool - x = 0 then .inf (decide (floatProduct pool < 0))
                else .fin (buyPrice pool prec x) } := by
  have hk := floatProduct_ne_zero pool hB hQ
  have hn : 1 ≤ newQuotePrec pool prec := le_trans (by norm_num) (newQuotePrec_ge pool prec)
  have he := (pricePrec_max pool prec).1
  unfold buyPrice
  unfold pricePrec newQuotePrec at *
  rw [CalculatePrice_sides pool _ _ hB hQ, if_pos rfl]
  simp only [Float.Sub, BigFloat.Sub, Float.opPrec, if_true, BigFloat.round, bind,
    Except.bind, Float.Quo, BigFloat.Quo]
  by_cases h0 : floatQuote pool - x = 0
  · simp only [h0, roundToPrec_zero, if_true, if_neg hk, BigFloat.round, BigFloat.Sub, pure,
      Except.pure, he]
  · have hr : roundToPrec (max (reservePrec pool.QuoteReserve) prec) (floatQuote pool - x)
        ≠ 0 := fun h => h0 ((roundToPrec_eq_zero_iff _ _ hn).mp h)
    simp only [if_neg hr, if_neg h0, BigFloat.round, BigFloat.Sub, pure, Except.pure, he]

/-- The sell branch of `CalculatePrice` on non-zero reserves and a finite quantity: the
number `sellPrice`, or an infinity when the new quote reserve is zero. -/
theorem CalculatePrice_sell_fin (pool : PoolInfo) (prec : Nat) (x : ℚ)
    (hB : pool.BaseReserve ≠ 0) (hQ : pool.QuoteReserve ≠ 0) :
    CalculatePrice pool { prec := prec, val := .fin x } (ascii "sell")
      = .ok { prec := pricePrec pool prec
              val := if floatQuote pool + x = 0 then .inf (!decide (floatProduct pool < 0))
                else .fin (sellPrice pool prec x) } := by
  have hk := floatProduct_ne_zero pool hB hQ
  have hn : 1 ≤ newQuotePrec pool prec := le_trans (by norm_num) (newQuotePrec_ge pool prec)
  have he := (pricePrec_max pool prec).2
  unfold sellPrice
  unfold pricePrec newQuotePrec at *
  rw [CalculatePrice_sides pool _ _ hB hQ, if_neg sell_ne_buy, if_pos rfl]
  simp only [Float.Add, BigFloat.Add, Float.Sub, BigFloat.Sub, Float.opPrec, if_true,
    BigFloat.round, bind, Except.bind, Float.Quo, BigFloat.Quo]
  by_cases h0 : floatQuote pool + x = 0
  · simp only [h0, roundToPrec_zero, if_true, if_neg hk, BigFloat.round, BigFloat.Sub, pure,
      Except.pure, he]
  · have hr : roundToPrec (max (reservePrec pool.QuoteReserve) prec) (floatQuote pool + x)
        ≠ 0 := fun h => h0 ((roundToPrec_eq_zero_iff _ _ hn).mp h)
    simp only [if_neg hr, if_neg h0, BigFloat.round, BigFloat.Sub, pure, Except.pure, he]

/-- On non-zero reserves a side other than `buy` and `sell` reaches the last branch. -/
theorem CalculatePrice_other_side (pool : PoolInfo) (quantity : Float) (side : Bytes)
    (hB : pool.BaseReserve ≠ 0) (hQ : pool.QuoteReserve ≠ 0)
    (h1 : side ≠ ascii "buy") (h2 : side ≠ ascii "sell") :
    CalculatePrice pool quantity side = .error (.invalidSide side) := by
  rw [CalculatePrice_sides pool quantity side hB hQ, if_neg h1, if_neg h2]
/-! ## CalculatePrice: the rounding error of a trade -/

/-- A buy of at most half the quote reserve from a pool with positive reserves returns the
number `buyPrice`, within `b / 2^59` of the exact constant-product value. -/
theorem CalculatePrice_buy_bound (pool : PoolInfo) (prec : Nat) (x : ℚ)
    (hB : 0 < pool.BaseReserve) (hQ : 0 < pool.QuoteReserve) (hx : 0 < x)
    (hxq : 2 * x ≤ normalizedQuote pool) :
    CalculatePrice pool { prec := prec, val := .fin x } (ascii "buy")
        = .ok { prec := pricePrec pool prec, val := .fin (buyPrice pool prec x) }
      ∧ |buyPrice pool prec x
          - (normalizedBase pool * normalizedQuote pool / (normalizedQuote pool - x)
              - normalizedBase pool)| ≤ normalizedBase pool / 2 ^ 59 := by
  have hb : 0 < normalizedBase pool :=
    div_pos (by exact_mod_cast hB) (Pow10_pos pool.BaseDecimals)
  have hq : 0 < normalizedQuote pool :=
    div_pos (by exact_mod_cast hQ) (Pow10_pos pool.QuoteDecimals)
  have herr := buy_error (normalizedBase pool) (normalizedQuote pool) x (floatBase pool)
    (floatQuote pool) (floatProduct pool)
    (roundToPrec (newQuotePrec pool prec) (floatQuote pool - x))
    (roundToPrec (pricePrec pool prec)
      (floatProduct pool / roundToPrec (newQuotePrec pool prec) (floatQuote pool - x)))
    (buyPrice pool prec x) hb hq hx hxq
    (roundToPrec_abs_sub_le_64 _ _ (reservePrec_ge _))
    (roundToPrec_abs_sub_le_64 _ _ (reservePrec_ge _))
    (roundToPrec_abs_sub_le_64 _ _ (productPrec_ge _))
    (roundToPrec_abs_sub_le_64 _ _ (newQuotePrec_ge _ _))
    (roundToPrec_abs_sub_le_64 _ _ (pricePrec_ge _ _))
    (roundToPrec_abs_sub_le_64 _ _ (pricePrec_ge _ _))
  refine ⟨?_, herr.2⟩
  have h0 : floatQuote pool - x ≠ 0 := by
    intro h
    have := herr.1
    rw [h, roundToPrec_zero] at this
    exact lt_irrefl _ this
  rw [CalculatePrice_buy_fin pool prec x hB.ne' hQ.ne', if_neg h0]

/-- A sell to a pool with positive reserves returns the number `sellPrice`, within
`b / 2^59` of the exact constant-product value. -/
theorem CalculatePrice_sell_bound (pool : PoolInfo) (prec : Nat) (x : ℚ)
    (hB : 0 < pool.BaseReserve) (hQ : 0 < pool.QuoteReserve) (hx : 0 < x) :
    CalculatePrice pool { prec := prec, val := .fin x } (ascii "sell")
        = .ok { prec := pricePrec pool prec, val := .fin (sellPrice pool prec x) }
      ∧ |sellPrice pool prec x
          - (normalizedBase pool
              - normalizedBase pool * normalizedQuote pool / (normalizedQuote pool + x))|
          ≤ normalizedBase pool / 2 ^ 59 := by
  have hb : 0 < normalizedBase pool :=
    div_pos (by exact_mod_cast hB) (Pow10_pos pool.BaseDecimals)
  have hq : 0 < normalizedQuote pool :=
    div_pos (by exact_mod_cast hQ) (Pow10_pos pool.QuoteDecimals)
  have herr := sell_error (normalizedBase pool) (normalizedQuote pool) x (floatBase pool)
    (floatQuote pool) (floatProduct pool)
    (roundToPrec (newQuotePrec pool prec) (floatQuote pool + x))
    (roundToPrec (pricePrec pool prec)
      (floatProduct pool / roundToPrec (newQuotePrec pool prec) (floatQuote pool + x)))
    (sellPrice pool prec x) hb hq hx
    (roundToPrec_abs_sub_le_64 _ _ (reservePrec_ge _))
    (roundToPrec_abs_sub_le_64 _ _ (reservePrec_ge _))
    (roundToPrec_abs_sub_le_64 _ _ (productPrec_ge _))
    (roundToPrec_abs_sub_le_64 _ _ (newQuotePrec_ge _ _))
    (roundToPrec_abs_sub_le_64 _ _ (pricePrec_ge _ _))
    (roundToPrec_abs_sub_le_64 _ _ (pricePrec_ge _ _))
  refine ⟨?_, herr.2⟩
  have h0 : floatQuote pool + x ≠ 0 := by
    intro h
    have := herr.1
    rw [h, roundToPrec_zero] at this
    exact lt_irrefl _ this
  rw [CalculatePrice_sell_fin pool prec x hB.ne' hQ.ne', if_neg h0]

/-! ## CalculatePrice on the test pool -/

theorem normalizedQuote_testPool : normalizedQuote testPool = 50 := by
  norm_num [normalizedQuote, testPool]

theorem normalizedBase_testPool : normalizedBase testPool = 1000 := by
  norm_num [normalizedBase, testPool]

theorem reservePrec_testPool :
    reservePrec testPool.BaseReserve = 64 ∧ reservePrec testPool.QuoteReserve = 64 := by
  decide

theorem floatBase_testPool : floatBase testPool = 1000 := by
  rw [floatBase, normalizedBase_testPool, reservePrec_testPool.1]
  exact_mod_cast roundToPrec_intCast 64 1000 (by norm_num)

theorem floatQuote_testPool : floatQuote testPool = 50 := by
  rw [floatQuote, normalizedQuote_testPool, reservePrec_testPool.2]
  exact_mod_cast roundToPrec_intCast 64 50 (by norm_num)

theorem floatProduct_testPool : floatProduct testPool = 50000 := by
  rw [floatProduct, productPrec, floatBase_testPool, floatQuote_testPool,
    reservePrec_testPool.1, reservePrec_testPool.2]
  norm_num
  exact_mod_cast roundToPrec_intCast 64 50000 (by norm_num)

/-- The precisions on the test pool for a quantity of at most 64 bits. -/
theorem pricePrec_testPool (prec : Nat) (hp : prec ≤ 64) :
    newQuotePrec testPool prec = 64 ∧ pricePrec testPool prec = 64 := by
  unfold pricePrec productPrec newQuotePrec
  rw [reservePrec_testPool.1, reservePrec_testPool.2]
  omega

/-- The buy on the test pool with a quantity of at most 64 bits: three roundings to 64
bits. -/
theorem buyPrice_testPool (prec : Nat) (hp : prec ≤ 64) (x : ℚ) :
    buyPrice testPool prec x
      = roundToPrec 64 (roundToPrec 64 (50000 / roundToPrec 64 (50 - x)) - 1000) := by
  rw [buyPrice, (pricePrec_testPool prec hp).1, (pricePrec_testPool prec hp).2,
    floatBase_testPool, floatQuote_testPool, floatProduct_testPool]

/-- The sell on the test pool with a quantity of at most 64 bits. -/
theorem sellPrice_testPool (prec : Nat) (hp : prec ≤ 64) (x : ℚ) :
    sellPrice testPool prec x
      = roundToPrec 64 (1000 - roundToPrec 64 (50000 / roundToPrec 64 (50 + x))) := by
  rw [sellPrice, (pricePrec_testPool prec hp).1, (pricePrec_testPool prec hp).2,
    floatBase_testPool, floatQuote_testPool, floatProduct_testPool]

theorem CalculatePrice_testPool_buy (prec : Nat) (hp : prec ≤ 64) (x : ℚ) (hx : x ≠ 50) :
    CalculatePrice testPool { prec := prec, val := .fin x } (ascii "buy")
      = .ok { prec := 64
              val := .fin (roundToPrec 64
                (roundToPrec 64 (50000 / roundToPrec 64 (50 - x)) - 1000)) } := by
  rw [CalculatePrice_buy_fin _ _ _ (by decide) (by decide), floatQuote_testPool,
    if_neg (fun h => hx (by linarith)), buyPrice_testPool prec hp,
    (pricePrec_testPool prec hp).2]

theorem CalculatePrice_testPool_sell (prec : Nat) (hp : prec ≤ 64) (x : ℚ) (hx : x ≠ -50) :
    CalculatePrice testPool { prec := prec, val := .fin x } (ascii "sell")
      = .ok { prec := 64
              val := .fin (roundToPrec 64
                (1000 - roundToPrec 64 (50000 / roundToPrec 64 (50 + x)))) } := by
  rw [CalculatePrice_sell_fin _ _ _ (by decide) (by decide), floatQuote_testPool,
    if_neg (fun h => hx (by linarith)), sellPrice_testPool prec hp,
    (pricePrec_testPool prec hp).2]

/-- The buy of 1 on the test pool: `50000 / 49` rounded to 64 bits, less 1000. -/
theorem buy_one_testPool :
    CalculatePrice testPool { prec := 53, val := .fin 1 } (ascii "buy")
      = .ok { prec := 64, val := .fin (45955098238474449 / 2 ^ 51) } := by
  rw [CalculatePrice_testPool_buy 53 (by norm_num) 1 (by norm_num)]
  have h1 : roundToPrec 64 ((50 : ℚ) - 1) = 49 := by
    norm_num
    exact_mod_cast roundToPrec_intCast 64 49 (by norm_num)
  have h2 : roundToPrec 64 ((50000 : ℚ) / 49) = 18382039295389779592 / 2 ^ 54 := by
    have h := roundToPrec_eval 64 (50000 / 49) 9 18382039295389779592
      (by rw [abs_of_pos (by norm_num)]; norm_num)
      (by rw [abs_of_pos (by norm_num)]; norm_num)
      (by rw [abs_lt]; constructor <;> norm_num)
    rw [h]
    norm_num
  have h3 : roundToPrec 64 ((18382039295389779592 : ℚ) / 2 ^ 54 - 1000)
      = 45955098238474449 / 2 ^ 51 := by
    have h := roundToPrec_of_int 64 45955098238474449 (-51) (by norm_num [abs_of_pos])
    have e : (18382039295389779592 : ℚ) / 2 ^ 54 - 1000
        = ((45955098238474449 : Int) : ℚ) * (2 : ℚ) ^ (-51 : Int) := by norm_num
    rw [e, h]
    norm_num
  rw [h1, h2, h3]
/-! ## CalculatePrice: the claims -/

/-- C2 as stated fails: on the test pool (`b = 1000`, `q = 50`) the exact value of a buy of
1 is `k / (q - x) - b = 1000 / 49`, but `CalculatePrice` computes with 64 bits and returns
`45955098238474449 / 2^51`, the quotient `50000 / 49` rounded to 64 bits, less 1000. -/
theorem CalculatePrice_rounds :
    testPool.BaseReserve ≠ 0 ∧ testPool.QuoteReserve ≠ 0 ∧ (0 : ℚ) < 1
      ∧ (1 : ℚ) < normalizedQuote testPool
      ∧ normalizedBase testPool * normalizedQuote testPool / (normalizedQuote testPool - 1)
          - normalizedBase testPool = 1000 / 49
      ∧ CalculatePrice testPool { prec := 53, val := .fin 1 } (ascii "buy")
          = .ok { prec := 64, val := .fin (45955098238474449 / 2 ^ 51) }
      ∧ (45955098238474449 / 2 ^ 51 : ℚ) ≠ 1000 / 49 := by
  refine ⟨by decide, by decide, by norm_num, ?_, ?_, buy_one_testPool, by norm_num⟩
  · rw [normalizedQuote_testPool]
    norm_num
  · rw [normalizedQuote_testPool, normalizedBase_testPool]
    norm_num

/-- C2 fails in a second way on the sell side: on `negativeQuotePool`, with reserves
`B = 1`, `Q = -1` (both non-zero), no decimals and quantity `x = 1 > 0`, the new quote
reserve `q + x` is zero, and `CalculatePrice` returns an infinity. -/
theorem CalculatePrice_sell_infinite :
    negativeQuotePool.BaseReserve ≠ 0 ∧ negativeQuotePool.QuoteReserve ≠ 0 ∧ (0 : ℚ) < 1
      ∧ ∃ price, CalculatePrice negativeQuotePool { prec := 53, val := .fin 1 } (ascii "sell")
          = .ok price
        ∧ price.val = .inf false := by
  have hq : floatQuote negativeQuotePool = -1 := by
    have h : normalizedQuote negativeQuotePool = -1 := by
      norm_num [normalizedQuote, negativeQuotePool]
    rw [floatQuote, h]
    exact_mod_cast roundToPrec_intCast _ (-1) (by
      have := reservePrec_ge negativeQuotePool.QuoteReserve
      have h2 : (2 : ℚ) ^ 64 ≤ 2 ^ reservePrec negativeQuotePool.QuoteReserve :=
        pow_le_pow_right₀ (by norm_num) this
      norm_num
      linarith [show (1 : ℚ) < 2 ^ 64 by norm_num])
  have hb : floatBase negativeQuotePool = 1 := by
    have h : normalizedBase negativeQuotePool = 1 := by
      norm_num [normalizedBase, negativeQuotePool]
    rw [floatBase, h]
    exact_mod_cast roundToPrec_intCast _ 1 (by
      have := reservePrec_ge negativeQuotePool.BaseReserve
      have h2 : (2 : ℚ) ^ 64 ≤ 2 ^ reservePrec negativeQuotePool.BaseReserve :=
        pow_le_pow_right₀ (by norm_num) this
      norm_num
      linarith [show (1 : ℚ) < 2 ^ 64 by norm_num])
  have hk : floatProduct negativeQuotePool < 0 := by
    rw [floatProduct, hb, hq]
    exact roundToPrec_neg_of_neg _ _ (le_trans (by norm_num) (productPrec_ge _)) (by norm_num)
  refine ⟨by decide, by decide, by norm_num, _, CalculatePrice_sell_fin _ _ _ (by decide)
    (by decide), ?_⟩
  simp only [hq]
  rw [if_pos (by norm_num)]
  simp [hk]

/-- C2, amended. For every pool with positive reserves and decimals from 0 to 22, and
every finite quantity `x > 0` of any precision, with `b = B / 10^dB`, `q = Q / 10^dQ` and
`k = b * q`: a buy with `2 * x ≤ q` returns a number within `b / 2^59` of `k / (q - x) - b`,
and a sell returns a number within `b / 2^59` of `b - k / (q + x)`. -/
theorem CalculatePrice_constant_product (pool : PoolInfo) (prec : Nat) (x : ℚ)
    (hB : 0 < pool.BaseReserve) (hQ : 0 < pool.QuoteReserve) (hd : DecimalsExact pool)
    (hx : 0 < x) :
    (2 * x ≤ normalizedQuote pool →
        ∃ price : ℚ,
          CalculatePrice pool { prec := prec, val := .fin x } (ascii "buy")
              = .ok { prec := pricePrec pool prec, val := .fin price }
            ∧ |price - (normalizedBase pool * normalizedQuote pool / (normalizedQuote pool - x)
                - normalizedBase pool)| ≤ normalizedBase pool / 2 ^ 59)
      ∧ ∃ price : ℚ,
          CalculatePrice pool { prec := prec, val := .fin x } (ascii "sell")
              = .ok { prec := pricePrec pool prec, val := .fin price }
            ∧ |price - (normalizedBase pool
                - normalizedBase pool * normalizedQuote pool / (normalizedQuote pool + x))|
              ≤ normalizedBase pool / 2 ^ 59 := by
  have _ := hd
  exact ⟨fun hxq => ⟨_, CalculatePrice_buy_bound pool prec x hB hQ hx hxq⟩,
    ⟨_, CalculatePrice_sell_bound pool prec x hB hQ hx⟩⟩

/-- The amended C2 at the test pool (`b = 1000`, `q = 50`) and quantity 1 of 53 bits. -/
theorem CalculatePrice_constant_product_witness :
    (∃ price : ℚ,
        CalculatePrice testPool { prec := 53, val := .fin 1 } (ascii "buy")
            = .ok { prec := pricePrec testPool 53, val := .fin price }
          ∧ |price - (normalizedBase testPool * normalizedQuote testPool
                / (normalizedQuote testPool - 1) - normalizedBase testPool)|
            ≤ normalizedBase testPool / 2 ^ 59)
      ∧ ∃ price : ℚ,
          CalculatePrice testPool { prec := 53, val := .fin 1 } (ascii "sell")
              = .ok { prec := pricePrec testPool 53, val := .fin price }
            ∧ |price - (normalizedBase testPool
                - normalizedBase testPool * normalizedQuote testPool
                  / (normalizedQuote testPool + 1))|
              ≤ normalizedBase testPool / 2 ^ 59 :=
  ⟨(CalculatePrice_constant_product testPool 53 1 (by decide) (by decide) (by decide)
      (by norm_num)).1 (by rw [normalizedQuote_testPool]; norm_num),
    (CalculatePrice_constant_product testPool 53 1 (by decide) (by decide) (by decide)
      (by norm_num)).2⟩

/-- C3 as stated fails: on the test pool (`q = 50`) a buy of 60, more than the quote
reserve, returns the price -6000 and no error. -/
theorem CalculatePrice_buy_beyond_depth :
    testPool.BaseReserve ≠ 0 ∧ testPool.QuoteReserve ≠ 0 ∧ normalizedQuote testPool ≤ 60
      ∧ CalculatePrice testPool { prec := 53, val := .fin 60 } (ascii "buy")
          = .ok { prec := 64, val := .fin (-6000) } := by
  refine ⟨by decide, by decide, by rw [normalizedQuote_testPool]; norm_num, ?_⟩
  rw [CalculatePrice_testPool_buy 53 (by norm_num) 60 (by norm_num)]
  have h1 : roundToPrec 64 ((50 : ℚ) - 60) = -10 := by
    norm_num
    exact_mod_cast roundToPrec_intCast 64 (-10) (by norm_num [abs_of_pos])
  have h2 : roundToPrec 64 ((50000 : ℚ) / -10) = -5000 := by
    norm_num
    exact_mod_cast roundToPrec_intCast 64 (-5000) (by norm_num [abs_of_pos])
  have h3 : roundToPrec 64 ((-5000 : ℚ) - 1000) = -6000 := by
    norm_num
    exact_mod_cast roundToPrec_intCast 64 (-6000) (by norm_num [abs_of_pos])
  rw [h1, h2, h3]

/-- C3, amended. `CalculatePrice` has no depth check: for every pool with non-zero reserves
and decimals from 0 to 22, and every finite quantity `x` of any precision, in particular
every `x` at or above the normalized quote reserve, a buy returns a price and no error.
With positive reserves and `q'` the normalized quote reserve as the code holds it (rounded
to the precision of the reserve), the price is a negative number when `x > q'` and plus
infinity when `x = q'`. -/
theorem CalculatePrice_buy_no_depth_check (pool : PoolInfo) (prec : Nat) (x : ℚ)
    (hB : pool.BaseReserve ≠ 0) (hQ : pool.QuoteReserve ≠ 0) (hd : DecimalsExact pool) :
    ∃ price, CalculatePrice pool { prec := prec, val := .fin x } (ascii "buy") = .ok price
      ∧ (0 < pool.BaseReserve → 0 < pool.QuoteReserve → floatQuote pool < x →
          ∃ v : ℚ, price.val = .fin v ∧ v < 0)
      ∧ (0 < pool.BaseReserve → 0 < pool.QuoteReserve → x = floatQuote pool →
          price.val = .inf false) := by
  have _ := hd
  refine ⟨_, CalculatePrice_buy_fin pool prec x hB hQ, ?_, ?_⟩
  · intro hBpos hQpos hlt
    have hb : 0 < floatBase pool :=
      roundToPrec_pos _ _ (le_trans (by norm_num) (reservePrec_ge _))
        (div_pos (by exact_mod_cast hBpos) (Pow10_pos pool.BaseDecimals))
    have hq : 0 < floatQuote pool :=
      roundToPrec_pos _ _ (le_trans (by norm_num) (reservePrec_ge _))
        (div_pos (by exact_mod_cast hQpos) (Pow10_pos pool.QuoteDecimals))
    have hk : 0 < floatProduct pool :=
      roundToPrec_pos _ _ (le_trans (by norm_num) (productPrec_ge _)) (mul_pos hb hq)
    have hnq : roundToPrec (newQuotePrec pool prec) (floatQuote pool - x) < 0 :=
      roundToPrec_neg_of_neg _ _ (le_trans (by norm_num) (newQuotePrec_ge _ _))
        (by linarith)
    have hnb : roundToPrec (pricePrec pool prec)
        (floatProduct pool / roundToPrec (newQuotePrec pool prec) (floatQuote pool - x)) < 0 :=
      roundToPrec_neg_of_neg _ _ (le_trans (by norm_num) (pricePrec_ge _ _))
        (div_neg_of_pos_of_neg hk hnq)
    refine ⟨buyPrice pool prec x, ?_, ?_⟩
    · simp only []
      rw [if_neg (by linarith)]
    · exact roundToPrec_neg_of_neg _ _ (le_trans (by norm_num) (pricePrec_ge _ _))
        (by linarith)
  · intro hBpos hQpos heq
    have hb : 0 < floatBase pool :=
      roundToPrec_pos _ _ (le_trans (by norm_num) (reservePrec_ge _))
        (div_pos (by exact_mod_cast hBpos) (Pow10_pos pool.BaseDecimals))
    have hq : 0 < floatQuote pool :=
      roundToPrec_pos _ _ (le_trans (by norm_num) (reservePrec_ge _))
        (div_pos (by exact_mod_cast hQpos) (Pow10_pos pool.QuoteDecimals))
    have hk : 0 < floatProduct pool :=
      roundToPrec_pos _ _ (le_trans (by norm_num) (productPrec_ge _)) (mul_pos hb hq)
    simp only []
    rw [if_pos (by linarith)]
    simp [not_lt.mpr hk.le]

/-- The amended C3 at the test pool: a buy of 99, above the quote reserve `q' = 50`,
returns a negative number. -/
theorem CalculatePrice_buy_no_depth_check_witness :
    floatQuote testPool < 99
      ∧ ∃ price, CalculatePrice testPool { prec := 53, val := .fin 99 } (ascii "buy")
          = .ok price
        ∧ ∃ v : ℚ, price.val = .fin v ∧ v < 0 := by
  have hlt : floatQuote testPool < 99 := by
    rw [floatQuote_testPool]
    norm_num
  obtain ⟨price, h1, h2, _⟩ :=
    CalculatePrice_buy_no_depth_check testPool 53 99 (by decide) (by decide) (by decide)
  exact ⟨hlt, price, h1, h2 (by decide) (by decide) hlt⟩

/-- C4. For every pool, quantity and side, `CalculatePrice` returns the zero-reserves error
whenever the base or the quote reserve is zero, and returns an error (zero reserves or
invalid side) whenever the side is neither `buy` nor `sell`. -/
theorem CalculatePrice_rejects (pool : PoolInfo) (quantity : Float) (side : Bytes) :
    ((pool.BaseReserve = 0 ∨ pool.QuoteReserve = 0) →
        CalculatePrice pool quantity side = .error .zeroReserves)
      ∧ (side ≠ ascii "buy" → side ≠ ascii "sell" →
        CalculatePrice pool quantity side = .error .zeroReserves
          ∨ CalculatePrice pool quantity side = .error (.invalidSide side)) := by
  constructor
  · intro h
    unfold CalculatePrice
    rw [if_pos h]
  · intro h1 h2
    by_cases hz : pool.BaseReserve = 0 ∨ pool.QuoteReserve = 0
    · left
      unfold CalculatePrice
      rw [if_pos hz]
    · right
      push_neg at hz
      exact CalculatePrice_other_side pool quantity side hz.1 hz.2 h1 h2

/-- C4 at the test pool with its quote reserve emptied (side `buy`) and at the test pool
with the side `invalid` of the repository's test. -/
theorem CalculatePrice_rejects_witness :
    CalculatePrice { testPool with QuoteReserve := 0 } { prec := 53, val := .fin 1 }
        (ascii "buy") = .error .zeroReserves
      ∧ (CalculatePrice testPool { prec := 53, val := .fin 1 } (ascii "invalid")
          = .error .zeroReserves
          ∨ CalculatePrice testPool { prec := 53, val := .fin 1 } (ascii "invalid")
            = .error (.invalidSide (ascii "invalid"))) :=
  ⟨(CalculatePrice_rejects { testPool with QuoteReserve := 0 } { prec := 53, val := .fin 1 }
      (ascii "buy")).1 (Or.inr rfl),
    (CalculatePrice_rejects testPool { prec := 53, val := .fin 1 } (ascii "invalid")).2
      (by decide) (by decide)⟩
/-! ## The quote service: the claims -/

theorem Sign_nonpos_iff (q : Float) : q.Sign ≤ 0 ↔ ¬ q.Positive := by
  obtain ⟨prec, val⟩ := q
  cases val with
  | fin v =>
    simp only [Float.Sign, Float.Positive, BigFloat.Sign, BigFloat.Positive]
    split_ifs with h1 h2
    · simp; exact le_of_lt h1
    · simp [h2]
    · simp
      exact lt_of_le_of_ne (not_lt.mp h1) (Ne.symm h2)
  | inf negative =>
    cases negative <;> simp [Float.Sign, Float.Positive, BigFloat.Sign, BigFloat.Positive]

/-- C9. `validateRequest` returns an error if and only if the token address is empty, or
the quantity is missing or not strictly positive, or the lowercased side is neither `buy`
nor `sell`. -/
theorem validateRequest_error_iff (request : QuoteRequest) :
    (∃ err, validateRequest request = .error err)
      ↔ (request.TokenAddress = []
          ∨ (request.Quantity = none
              ∨ ∃ quantity, request.Quantity = some quantity ∧ ¬ quantity.Positive)
          ∨ (ToLower request.Side ≠ ascii "buy" ∧ ToLower request.Side ≠ ascii "sell")) := by
  unfold validateRequest
  by_cases ht : request.TokenAddress = []
  · simp [ht]
  · rw [if_neg ht]
    cases hq : request.Quantity with
    | none => simp
    | some quantity =>
      by_cases hs : quantity.Sign ≤ 0
      · have hp := (Sign_nonpos_iff quantity).mp hs
        simp [hs, hp]
      · have hp : quantity.Positive := by
          by_contra hn
          exact hs ((Sign_nonpos_iff quantity).mpr hn)
        by_cases hside : ToLower request.Side ≠ ascii "buy"
            ∧ ToLower request.Side ≠ ascii "sell"
        · simp only [if_neg hs, if_pos hside]
          simp [ht, hp, hside]
        · simp only [if_neg hs, if_neg hside]
          simp only [ht, hp, hside, false_or, or_false, not_true_eq_false, and_false,
            exists_false, Option.some.injEq, reduceCtorEq, exists_eq_left', iff_false,
            not_exists]

/-- The USDC mint, the token of the mock pool. -/
theorem usdc_lower :
    ToLower (ascii "EPjFWdd5AufqSSqeM2qN1xzybapC8G4wEGGkZwyTDt1v")
      = ascii "epjfwdd5aufqssqem2qn1xzybapc8g4weggkzwytdt1v" := by
  decide

theorem GetMockPool_usdc :
    GetMockPool (ascii "EPjFWdd5AufqSSqeM2qN1xzybapC8G4wEGGkZwyTDt1v") = .ok usdcMockPool := by
  simp only [GetMockPool, if_pos usdc_lower, usdcMockPool]

theorem reservePrec_usdcMockPool :
    reservePrec usdcMockPool.BaseReserve = 64 ∧ reservePrec usdcMockPool.QuoteReserve = 64 := by
  decide

theorem floatBase_usdcMockPool : floatBase usdcMockPool = 50000000 := by
  have h : normalizedBase usdcMockPool = 50000000 := by
    norm_num [normalizedBase, usdcMockPool]
  rw [floatBase, h, reservePrec_usdcMockPool.1]
  exact_mod_cast roundToPrec_intCast 64 50000000 (by norm_num)

theorem floatQuote_usdcMockPool : floatQuote usdcMockPool = 1000 := by
  have h : normalizedQuote usdcMockPool = 1000 := by
    norm_num [normalizedQuote, usdcMockPool]
  rw [floatQuote, h, reservePrec_usdcMockPool.2]
  exact_mod_cast roundToPrec_intCast 64 1000 (by norm_num)

theorem floatProduct_usdcMockPool : floatProduct usdcMockPool = 50000000000 := by
  rw [floatProduct, productPrec, floatBase_usdcMockPool, floatQuote_usdcMockPool,
    reservePrec_usdcMockPool.1, reservePrec_usdcMockPool.2]
  norm_num
  exact_mod_cast roundToPrec_intCast 64 50000000000 (by norm_num)

/-- The buy of 1 on the USDC mock pool: `50000000000 / 999` rounded to 64 bits, less
50000000. -/
theorem buy_one_usdcMockPool :
    CalculatePrice usdcMockPool { prec := 64, val := .fin 1 } (ascii "buy")
      = .ok { prec := 64, val := .fin (1719706625025025 / 2 ^ 35) } := by
  have hp : newQuotePrec usdcMockPool 64 = 64 ∧ pricePrec usdcMockPool 64 = 64 := by
    unfold pricePrec productPrec newQuotePrec
    rw [reservePrec_usdcMockPool.1, reservePrec_usdcMockPool.2]
    omega
  rw [CalculatePrice_buy_fin _ _ _ (by decide) (by decide), floatQuote_usdcMockPool,
    if_neg (by norm_num), buyPrice, hp.1, hp.2, floatBase_usdcMockPool,
    floatQuote_usdcMockPool, floatProduct_usdcMockPool]
  have h1 : roundToPrec 64 ((1000 : ℚ) - 1) = 999 := by
    norm_num
    exact_mod_cast roundToPrec_intCast 64 999 (by norm_num)
  have h2 : roundToPrec 64 ((50000000000 : ℚ) / 999) = 13757653000200200200 / 2 ^ 38 := by
    have h := roundToPrec_eval 64 (50000000000 / 999) 25 13757653000200200200
      (by rw [abs_of_pos (by norm_num)]; norm_num)
      (by rw [abs_of_pos (by norm_num)]; norm_num)
      (by rw [abs_lt]; constructor <;> norm_num)
    rw [h]
    norm_num
  have h3 : roundToPrec 64 ((13757653000200200200 : ℚ) / 2 ^ 38 - 50000000)
      = 1719706625025025 / 2 ^ 35 := by
    have h := roundToPrec_of_int 64 1719706625025025 (-35) (by norm_num [abs_of_pos])
    have e : (13757653000200200200 : ℚ) / 2 ^ 38 - 50000000
        = ((1719706625025025 : Int) : ℚ) * (2 : ℚ) ^ (-35 : Int) := by norm_num
    rw [e, h]
    norm_num
  rw [h1, h2, h3]

theorem usdc_ne_nil : ascii "EPjFWdd5AufqSSqeM2qN1xzybapC8G4wEGGkZwyTDt1v" ≠ [] := by
  decide

theorem Sign_one : ¬ ((Float.mk 64 (.fin 1)).Sign ≤ 0) := by
  norm_num [Float.Sign, BigFloat.Sign]

theorem ToLower_BUY : ToLower (ascii "BUY") = ascii "buy" := by
  decide

/-- The request for the USDC mint, quantity 1 and side `BUY` passes `validateRequest`. -/
theorem validateRequest_upper_side :
    validateRequest
        { TokenAddress := ascii "EPjFWdd5AufqSSqeM2qN1xzybapC8G4wEGGkZwyTDt1v"
          Quantity := some { prec := 64, val := .fin 1 }
          Side := ascii "BUY" } = .ok () := by
  have hside : ¬ (ToLower (ascii "BUY") ≠ ascii "buy"
      ∧ ToLower (ascii "BUY") ≠ ascii "sell") := by decide
  simp only [validateRequest, if_neg usdc_ne_nil, if_neg Sign_one, if_neg hside]

/-- The request for the USDC mint, quantity 1 and side `buy` passes `validateRequest`. -/
theorem validateRequest_lower_side :
    validateRequest
        { TokenAddress := ascii "EPjFWdd5AufqSSqeM2qN1xzybapC8G4wEGGkZwyTDt1v"
          Quantity := some { prec := 64, val := .fin 1 }
          Side := ascii "buy" } = .ok () := by
  have hside : ¬ (ToLower (ascii "buy") ≠ ascii "buy"
      ∧ ToLower (ascii "buy") ≠ ascii "sell") := by decide
  simp only [validateRequest, if_neg usdc_ne_nil, if_neg Sign_one, if_neg hside]

/-- The method `GetQuote` after a successful validation and pool lookup, when
`CalculatePrice` fails. -/
theorem GetQuote_of_error (render : Rendering) (findPool : Bytes → Except Error PoolInfo)
    (tokenAddress side : Bytes) (quantity : Float) (pool : PoolInfo) (err : Error)
    (hv : validateRequest
      { TokenAddress := tokenAddress, Quantity := some quantity, Side := side } = .ok ())
    (hp : findPool tokenAddress = .ok pool)
    (hc : CalculatePrice pool quantity side = .error err) :
    GetQuote render findPool
        { TokenAddress := tokenAddress, Quantity := some quantity, Side := side }
      = .error (.failedToCalculatePrice err) := by
  unfold GetQuote
  rw [hv]
  simp only [hp, hc]

/-- The method `GetQuote` after a successful validation and pool lookup, when
`CalculatePrice` returns a price. -/
theorem GetQuote_of_price (render : Rendering) (findPool : Bytes → Except Error PoolInfo)
    (tokenAddress side : Bytes) (quantity : Float) (pool : PoolInfo) (price : Float)
    (hv : validateRequest
      { TokenAddress := tokenAddress, Quantity := some quantity, Side := side } = .ok ())
    (hp : findPool tokenAddress = .ok pool)
    (hc : CalculatePrice pool quantity side = .ok price) :
    ∃ response, GetQuote render findPool
        { TokenAddress := tokenAddress, Quantity := some quantity, Side := side }
          = .ok response
      ∧ response.Price = price := by
  unfold GetQuote
  rw [hv]
  simp only [hp, hc]
  exact ⟨_, rfl, rfl⟩

/-- C10, at a side in upper case. The request for the USDC mint, quantity 1 (64 bits, as
the command line parses it) and side `BUY` passes `validateRequest`; with the mock pool as
the resolved pool, `GetQuote` hands the side as written to `CalculatePrice` and returns the
invalid-side error, while the same request with the side lowercased returns the price
`1719706625025025 / 2^35`, the quotient `50000000000 / 999` rounded to 64 bits, less
50000000. -/
theorem GetQuote_side_not_normalized (render : Rendering) :
    validateRequest
        { TokenAddress := ascii "EPjFWdd5AufqSSqeM2qN1xzybapC8G4wEGGkZwyTDt1v"
          Quantity := some { prec := 64, val := .fin 1 }
          Side := ascii "BUY" } = .ok ()
      ∧ GetQuote render GetMockPool
          { TokenAddress := ascii "EPjFWdd5AufqSSqeM2qN1xzybapC8G4wEGGkZwyTDt1v"
            Quantity := some { prec := 64, val := .fin 1 }
            Side := ascii "BUY" }
        = .error (.failedToCalculatePrice (.invalidSide (ascii "BUY")))
      ∧ ∃ response, GetQuote render GetMockPool
          { TokenAddress := ascii "EPjFWdd5AufqSSqeM2qN1xzybapC8G4wEGGkZwyTDt1v"
            Quantity := some { prec := 64, val := .fin 1 }
            Side := ToLower (ascii "BUY") } = .ok response
          ∧ response.Price = { prec := 64, val := .fin (1719706625025025 / 2 ^ 35) } := by
  refine ⟨validateRequest_upper_side, ?_, ?_⟩
  · exact GetQuote_of_error render GetMockPool _ _ _ usdcMockPool _
      validateRequest_upper_side GetMockPool_usdc
      (CalculatePrice_other_side usdcMockPool _ _ (by decide) (by decide) (by decide)
        (by decide))
  · rw [ToLower_BUY]
    exact GetQuote_of_price render GetMockPool _ _ _ usdcMockPool _
      validateRequest_lower_side GetMockPool_usdc buy_one_usdcMockPool
/-! ## CalculatePrice: sign, slippage and the zero-trade limit -/

/-- The buy price in the form `b * x / (q - x)`. -/
theorem buy_price_eq (b q x : ℚ) (h : q - x ≠ 0) : b * q / (q - x) - b = b * x / (q - x) := by
  field_simp
  ring

/-- The sell price in the form `b * x / (q + x)`. -/
theorem sell_price_eq (b q x : ℚ) (h : q + x ≠ 0) : b - b * q / (q + x) = b * x / (q + x) := by
  field_simp
  ring

/-- A buy of at least `q / 2^58` is worth more than the rounding error `b / 2^59`. -/
theorem buy_gap (b q x : ℚ) (hb : 0 < b) (hq : 0 < q) (hx : q / 2 ^ 58 ≤ x)
    (hxq : 2 * x ≤ q) : b / 2 ^ 59 < b * q / (q - x) - b := by
  have hx0 : 0 < x := lt_of_lt_of_le (by positivity) hx
  have hqx : 0 < q - x := by linarith
  have h1 : q ≤ x * 2 ^ 58 := (div_le_iff₀ (by positivity)).mp hx
  rw [buy_price_eq _ _ _ hqx.ne', div_lt_div_iff₀ (by positivity) hqx]
  have h2 : q - x < x * 2 ^ 59 := by linarith
  calc b * (q - x) < b * (x * 2 ^ 59) := mul_lt_mul_of_pos_left h2 hb
    _ = b * x * 2 ^ 59 := by ring

/-- A sell of at least `q / 2^58` is worth more than the rounding error `b / 2^59`. -/
theorem sell_gap (b q x : ℚ) (hb : 0 < b) (hq : 0 < q) (hx : q / 2 ^ 58 ≤ x) :
    b / 2 ^ 59 < b - b * q / (q + x) := by
  have hx0 : 0 < x := lt_of_lt_of_le (by positivity) hx
  have hqx : 0 < q + x := by linarith
  have h1 : q ≤ x * 2 ^ 58 := (div_le_iff₀ (by positivity)).mp hx
  rw [sell_price_eq _ _ _ hqx.ne', div_lt_div_iff₀ (by positivity) hqx]
  have h2 : q + x < x * 2 ^ 59 := by linarith
  calc b * (q + x) < b * (x * 2 ^ 59) := mul_lt_mul_of_pos_left h2 hb
    _ = b * x * 2 ^ 59 := by ring

/-- The square of a quantity of at least `q / 2^28`, over `q^2`. -/
theorem square_gap (b q x : ℚ) (hb : 0 < b) (hq : 0 < q) (hx : q / 2 ^ 28 ≤ x) :
    b / 2 ^ 56 ≤ b * x ^ 2 / (q * q) := by
  have hx0 : 0 < x := lt_of_lt_of_le (by positivity) hx
  have h1 : q ≤ x * 2 ^ 28 := (div_le_iff₀ (by positivity)).mp hx
  rw [div_le_div_iff₀ (by positivity) (by positivity)]
  have h2 : q * q ≤ (x * 2 ^ 28) * (x * 2 ^ 28) :=
    mul_le_mul h1 h1 hq.le (by positivity)
  calc b * (q * q) ≤ b * ((x * 2 ^ 28) * (x * 2 ^ 28)) := mul_le_mul_of_nonneg_left h2 hb.le
    _ = b * x ^ 2 * 2 ^ 56 := by ring

/-- Convexity of the exact buy price, with a margin: for `q / 2^28 ≤ x ≤ q / 4` the exact
buy of `2 * x` exceeds twice the exact buy of `x` by at least `b / 2^55`. -/
theorem buy_convex_gap (b q x : ℚ) (hb : 0 < b) (hq : 0 < q) (hx : q / 2 ^ 28 ≤ x)
    (hxq : 4 * x ≤ q) :
    2 * (b * q / (q - x) - b) + b / 2 ^ 55 ≤ b * q / (q - 2 * x) - b := by
  have hx0 : 0 < x := lt_of_lt_of_le (by positivity) hx
  have h1 : 0 < q - x := by linarith
  have h2 : 0 < q - 2 * x := by linarith
  have e : b * q / (q - 2 * x) - b - 2 * (b * q / (q - x) - b)
      = 2 * (b * x ^ 2 / ((q - 2 * x) * (q - x))) := by
    field_simp
    ring
  have h3 : (q - 2 * x) * (q - x) ≤ q * q :=
    mul_le_mul (by linarith) (by linarith) h1.le hq.le
  have h4 : b * x ^ 2 / (q * q) ≤ b * x ^ 2 / ((q - 2 * x) * (q - x)) :=
    div_le_div_of_nonneg_left (by positivity) (mul_pos h2 h1) h3
  have h5 := square_gap b q x hb hq hx
  have h6 : b / 2 ^ 55 = 2 * (b / 2 ^ 56) := by ring
  linarith

/-- Concavity of the exact sell price, with a margin: for `q / 2^28 ≤ x ≤ q / 4` twice the
exact sell of `x` exceeds the exact sell of `2 * x` by at least `b / 2^56`. -/
theorem sell_concave_gap (b q x : ℚ) (hb : 0 < b) (hq : 0 < q) (hx : q / 2 ^ 28 ≤ x)
    (hxq : 4 * x ≤ q) :
    b - b * q / (q + 2 * x) + b / 2 ^ 56 ≤ 2 * (b - b * q / (q + x)) := by
  have hx0 : 0 < x := lt_of_lt_of_le (by positivity) hx
  have h1 : 0 < q + x := by linarith
  have h2 : 0 < q + 2 * x := by linarith
  have e : 2 * (b - b * q / (q + x)) - (b - b * q / (q + 2 * x))
      = 2 * (b * x ^ 2 / ((q + 2 * x) * (q + x))) := by
    field_simp
    ring
  have h3 : (q + 2 * x) * (q + x) ≤ 2 * (q * q) := by
    have : (q + 2 * x) * (q + x) ≤ (q + q / 2) * (q + q / 4) :=
      mul_le_mul (by linarith) (by linarith) h1.le (by linarith)
    have e2 : (q + q / 2) * (q + q / 4) = 15 / 8 * (q * q) := by ring
    have : 0 < q * q := mul_pos hq hq
    linarith
  have h4 : b * x ^ 2 / (2 * (q * q)) ≤ b * x ^ 2 / ((q + 2 * x) * (q + x)) :=
    div_le_div_of_nonneg_left (by positivity) (mul_pos h2 h1) h3
  have h5 := square_gap b q x hb hq hx
  have h6 : b * x ^ 2 / (2 * (q * q)) = b * x ^ 2 / (q * q) / 2 := by
    rw [div_div]
    ring_nf
  linarith

/-- The distance of the exact effective buy price `b / (q - x)` from the marginal price
`b / q`, for a buy of at most half the quote reserve. -/
theorem marginal_gap (b q x : ℚ) (hb : 0 < b) (hq : 0 < q) (hx : 0 < x) (hxq : 2 * x ≤ q) :
    |(b * q / (q - x) - b) / x - b / q| ≤ 2 * b * x / q ^ 2 := by
  have h1 : 0 < q - x := by linarith
  have e : (b * q / (q - x) - b) / x - b / q = b * x / (q * (q - x)) := by
    field_simp
    ring
  rw [e, abs_of_nonneg (by positivity)]
  have h2 : q ^ 2 / 2 ≤ q * (q - x) := by
    have : q * (q / 2) ≤ q * (q - x) := mul_le_mul_of_nonneg_left (by linarith) hq.le
    have e2 : q * (q / 2) = q ^ 2 / 2 := by ring
    linarith
  have h3 : b * x / (q * (q - x)) ≤ b * x / (q ^ 2 / 2) :=
    div_le_div_of_nonneg_left (by positivity) (by positivity) h2
  have e3 : b * x / (q ^ 2 / 2) = 2 * b * x / q ^ 2 := by
    field_simp
    ring
  linarith

/-- On the test pool a quantity below `2^-59` is absorbed by the 64-bit subtraction from the
quote reserve 50, whose last place is `2^-58`. -/
theorem testPool_sub_absorbed (x : ℚ) (hx : 0 < x) (hx2 : x < 1 / 2 ^ 59) :
    roundToPrec 64 (50 - x) = 50 := by
  have hs : (1 : ℚ) / 2 ^ 59 < 1 := by norm_num
  have h := roundToPrec_eval 64 (50 - x) 5 14411518807585587200
    (by rw [abs_of_pos (by linarith)]; norm_num; linarith)
    (by rw [abs_of_pos (by linarith)]; norm_num; linarith)
    (by
      have e : (50 - x) / (2 : ℚ) ^ ((5 : Int) + 1 - (64 : Nat))
          - ((14411518807585587200 : Int) : ℚ) = -(x * 2 ^ 58) := by
        norm_num
        ring
      rw [e, abs_neg, abs_of_pos (by positivity)]
      have : x * 2 ^ 58 < 1 / 2 ^ 59 * 2 ^ 58 := mul_lt_mul_of_pos_right hx2 (by positivity)
      have e2 : (1 : ℚ) / 2 ^ 59 * 2 ^ 58 = 1 / 2 := by norm_num
      linarith)
  rw [h]
  norm_num

/-- On the test pool a quantity below `2^-59` is absorbed by the 64-bit addition to the
quote reserve 50. -/
theorem testPool_add_absorbed (x : ℚ) (hx : 0 < x) (hx2 : x < 1 / 2 ^ 59) :
    roundToPrec 64 (50 + x) = 50 := by
  have hs : (1 : ℚ) / 2 ^ 59 < 1 := by norm_num
  have h := roundToPrec_eval 64 (50 + x) 5 14411518807585587200
    (by rw [abs_of_pos (by linarith)]; norm_num; linarith)
    (by rw [abs_of_pos (by linarith)]; norm_num; linarith)
    (by
      have e : (50 + x) / (2 : ℚ) ^ ((5 : Int) + 1 - (64 : Nat))
          - ((14411518807585587200 : Int) : ℚ) = x * 2 ^ 58 := by
        norm_num
        ring
      rw [e, abs_of_pos (by positivity)]
      have : x * 2 ^ 58 < 1 / 2 ^ 59 * 2 ^ 58 := mul_lt_mul_of_pos_right hx2 (by positivity)
      have e2 : (1 : ℚ) / 2 ^ 59 * 2 ^ 58 = 1 / 2 := by norm_num
      linarith)
  rw [h]
  norm_num

/-- On the test pool the buy of a quantity below `2^-59` returns the price 0. -/
theorem testPool_buy_absorbed (x : ℚ) (hx : 0 < x) (hx2 : x < 1 / 2 ^ 59) :
    CalculatePrice testPool { prec := 53, val := .fin x } (ascii "buy")
      = .ok { prec := 64, val := .fin 0 } := by
  have hs : (1 : ℚ) / 2 ^ 59 < 1 := by norm_num
  rw [CalculatePrice_testPool_buy 53 (by norm_num) x (by linarith),
    testPool_sub_absorbed x hx hx2]
  have h2 : roundToPrec 64 ((50000 : ℚ) / 50) = 1000 := by
    norm_num
    exact_mod_cast roundToPrec_intCast 64 1000 (by norm_num)
  rw [h2, sub_self, roundToPrec_zero]

/-- On the test pool the sell of a quantity below `2^-59` returns the price 0. -/
theorem testPool_sell_absorbed (x : ℚ) (hx : 0 < x) (hx2 : x < 1 / 2 ^ 59) :
    CalculatePrice testPool { prec := 53, val := .fin x } (ascii "sell")
      = .ok { prec := 64, val := .fin 0 } := by
  rw [CalculatePrice_testPool_sell 53 (by norm_num) x (by linarith),
    testPool_add_absorbed x hx hx2]
  have h2 : roundToPrec 64 ((50000 : ℚ) / 50) = 1000 := by
    norm_num
    exact_mod_cast roundToPrec_intCast 64 1000 (by norm_num)
  rw [h2, sub_self, roundToPrec_zero]

/-- C16 as stated fails: on the test pool (`B, Q > 0`, `q = 50`) the quantity `x = 2^-60`
satisfies `0 < x < q`, but the 64-bit subtraction `q - x` and addition `q + x` round to `q`,
and both the buy and the sell return the price 0, which is not strictly positive. -/
theorem CalculatePrice_zero_price :
    0 < testPool.BaseReserve ∧ 0 < testPool.QuoteReserve ∧ (0 : ℚ) < 1 / 2 ^ 60
      ∧ (1 : ℚ) / 2 ^ 60 < normalizedQuote testPool
      ∧ CalculatePrice testPool { prec := 53, val := .fin (1 / 2 ^ 60) } (ascii "buy")
          = .ok { prec := 64, val := .fin 0 }
      ∧ CalculatePrice testPool { prec := 53, val := .fin (1 / 2 ^ 60) } (ascii "sell")
          = .ok { prec := 64, val := .fin 0 } := by
  refine ⟨by decide, by decide, by norm_num, ?_,
    testPool_buy_absorbed _ (by norm_num) (by norm_num),
    testPool_sell_absorbed _ (by norm_num) (by norm_num)⟩
  rw [normalizedQuote_testPool]
  norm_num

/-- C16, amended. For every pool with both reserves positive and decimals from 0 to 22,
and every finite quantity `x` of any precision with `q / 2^58 ≤ x ≤ q / 2`, where
`q = Q / 10^dQ`, the buy and the sell both succeed and return a strictly positive
number. -/
theorem CalculatePrice_positive (pool : PoolInfo) (prec : Nat) (x : ℚ)
    (hB : 0 < pool.BaseReserve) (hQ : 0 < pool.QuoteReserve) (hd : DecimalsExact pool)
    (hx : normalizedQuote pool / 2 ^ 58 ≤ x) (hxq : 2 * x ≤ normalizedQuote pool) :
    (∃ price : ℚ,
        CalculatePrice pool { prec := prec, val := .fin x } (ascii "buy")
            = .ok { prec := pricePrec pool prec, val := .fin price }
          ∧ 0 < price)
      ∧ ∃ price : ℚ,
          CalculatePrice pool { prec := prec, val := .fin x } (ascii "sell")
              = .ok { prec := pricePrec pool prec, val := .fin price }
            ∧ 0 < price := by
  have _ := hd
  have hb : 0 < normalizedBase pool :=
    div_pos (by exact_mod_cast hB) (Pow10_pos pool.BaseDecimals)
  have hq : 0 < normalizedQuote pool :=
    div_pos (by exact_mod_cast hQ) (Pow10_pos pool.QuoteDecimals)
  have hx0 : 0 < x := lt_of_lt_of_le (by positivity) hx
  obtain ⟨hbuy, hbe⟩ := CalculatePrice_buy_bound pool prec x hB hQ hx0 hxq
  obtain ⟨hsell, hse⟩ := CalculatePrice_sell_bound pool prec x hB hQ hx0
  have g1 := buy_gap _ _ x hb hq hx hxq
  have g2 := sell_gap _ _ x hb hq hx
  refine ⟨⟨_, hbuy, ?_⟩, ⟨_, hsell, ?_⟩⟩
  · have := (abs_le.mp hbe).1
    linarith
  · have := (abs_le.mp hse).1
    linarith

/-- The amended C16 at the test pool (`q = 50`) and quantity 1 of 53 bits. -/
theorem CalculatePrice_positive_witness :
    (∃ price : ℚ,
        CalculatePrice testPool { prec := 53, val := .fin 1 } (ascii "buy")
            = .ok { prec := pricePrec testPool 53, val := .fin price }
          ∧ 0 < price)
      ∧ ∃ price : ℚ,
          CalculatePrice testPool { prec := 53, val := .fin 1 } (ascii "sell")
              = .ok { prec := pricePrec testPool 53, val := .fin price }
            ∧ 0 < price :=
  CalculatePrice_positive testPool 53 1 (by decide) (by decide) (by decide)
    (by rw [normalizedQuote_testPool]; norm_num)
    (by rw [normalizedQuote_testPool]; norm_num)

/-- The buy of `2^-40` on the test pool: `50000 / (50 - 2^-40)` rounded to 64 bits, less
1000. -/
theorem testPool_buy_small :
    CalculatePrice testPool { prec := 53, val := .fin (1 / 2 ^ 40) } (ascii "buy")
      = .ok { prec := 64, val := .fin (5 / 2 ^ 38) } := by
  rw [CalculatePrice_testPool_buy 53 (by norm_num) _ (by norm_num)]
  have h1 : roundToPrec 64 ((50 : ℚ) - 1 / 2 ^ 40) = 54975581388799 / 2 ^ 40 := by
    have h := roundToPrec_of_int 64 54975581388799 (-40) (by norm_num [abs_of_pos])
    have e : (50 : ℚ) - 1 / 2 ^ 40
        = ((54975581388799 : Int) : ℚ) * (2 : ℚ) ^ (-40 : Int) := by norm_num
    rw [e, h]
    norm_num
  have h2 : roundToPrec 64 ((50000 : ℚ) / (54975581388799 / 2 ^ 40))
      = 18014398509482311680 / 2 ^ 54 := by
    have h := roundToPrec_eval 64 ((50000 : ℚ) / (54975581388799 / 2 ^ 40)) 9
      18014398509482311680
      (by rw [abs_of_pos (by norm_num)]; norm_num)
      (by rw [abs_of_pos (by norm_num)]; norm_num)
      (by rw [abs_lt]; constructor <;> norm_num)
    rw [h]
    norm_num
  have h3 : roundToPrec 64 ((18014398509482311680 : ℚ) / 2 ^ 54 - 1000) = 5 / 2 ^ 38 := by
    have h := roundToPrec_of_int 64 5 (-38) (by norm_num [abs_of_pos])
    have e : (18014398509482311680 : ℚ) / 2 ^ 54 - 1000
        = ((5 : Int) : ℚ) * (2 : ℚ) ^ (-38 : Int) := by norm_num
    rw [e, h]
    norm_num
  rw [h1, h2, h3]

/-- The buy of `2^-39` on the test pool. -/
theorem testPool_buy_small_twice :
    CalculatePrice testPool { prec := 53, val := .fin (1 / 2 ^ 39) } (ascii "buy")
      = .ok { prec := 64, val := .fin (5 / 2 ^ 37) } := by
  rw [CalculatePrice_testPool_buy 53 (by norm_num) _ (by norm_num)]
  have h1 : roundToPrec 64 ((50 : ℚ) - 1 / 2 ^ 39) = 27487790694399 / 2 ^ 39 := by
    have h := roundToPrec_of_int 64 27487790694399 (-39) (by norm_num [abs_of_pos])
    have e : (50 : ℚ) - 1 / 2 ^ 39
        = ((27487790694399 : Int) : ℚ) * (2 : ℚ) ^ (-39 : Int) := by norm_num
    rw [e, h]
    norm_num
  have h2 : roundToPrec 64 ((50000 : ℚ) / (27487790694399 / 2 ^ 39))
      = 18014398509482639360 / 2 ^ 54 := by
    have h := roundToPrec_eval 64 ((50000 : ℚ) / (27487790694399 / 2 ^ 39)) 9
      18014398509482639360
      (by rw [abs_of_pos (by norm_num)]; norm_num)
      (by rw [abs_of_pos (by norm_num)]; norm_num)
      (by rw [abs_lt]; constructor <;> norm_num)
    rw [h]
    norm_num
  have h3 : roundToPrec 64 ((18014398509482639360 : ℚ) / 2 ^ 54 - 1000) = 5 / 2 ^ 37 := by
    have h := roundToPrec_of_int 64 5 (-37) (by norm_num [abs_of_pos])
    have e : (18014398509482639360 : ℚ) / 2 ^ 54 - 1000
        = ((5 : Int) : ℚ) * (2 : ℚ) ^ (-37 : Int) := by norm_num
    rw [e, h]
    norm_num
  rw [h1, h2, h3]

/-- The sell of `2^-40` on the test pool. -/
theorem testPool_sell_small :
    CalculatePrice testPool { prec := 53, val := .fin (1 / 2 ^ 40) } (ascii "sell")
      = .ok { prec := 64, val := .fin (5 / 2 ^ 38) } := by
  rw [CalculatePrice_testPool_sell 53 (by norm_num) _ (by norm_num)]
  have h1 : roundToPrec 64 ((50 : ℚ) + 1 / 2 ^ 40) = 54975581388801 / 2 ^ 40 := by
    have h := roundToPrec_of_int 64 54975581388801 (-40) (by norm_num [abs_of_pos])
    have e : (50 : ℚ) + 1 / 2 ^ 40
        = ((54975581388801 : Int) : ℚ) * (2 : ℚ) ^ (-40 : Int) := by norm_num
    rw [e, h]
    norm_num
  have h2 : roundToPrec 64 ((50000 : ℚ) / (54975581388801 / 2 ^ 40))
      = 18014398509481656320 / 2 ^ 54 := by
    have h := roundToPrec_eval 64 ((50000 : ℚ) / (54975581388801 / 2 ^ 40)) 9
      18014398509481656320
      (by rw [abs_of_pos (by norm_num)]; norm_num)
      (by rw [abs_of_pos (by norm_num)]; norm_num)
      (by rw [abs_lt]; constructor <;> norm_num)
    rw [h]
    norm_num
  have h3 : roundToPrec 64 ((1000 : ℚ) - 18014398509481656320 / 2 ^ 54) = 5 / 2 ^ 38 := by
    have h := roundToPrec_of_int 64 5 (-38) (by norm_num [abs_of_pos])
    have e : (1000 : ℚ) - 18014398509481656320 / 2 ^ 54
        = ((5 : Int) : ℚ) * (2 : ℚ) ^ (-38 : Int) := by norm_num
    rw [e, h]
    norm_num
  rw [h1, h2, h3]

/-- The sell of `2^-39` on the test pool. -/
theorem testPool_sell_small_twice :
    CalculatePrice testPool { prec := 53, val := .fin (1 / 2 ^ 39) } (ascii "sell")
      = .ok { prec := 64, val := .fin (5 / 2 ^ 37) } := by
  rw [CalculatePrice_testPool_sell 53 (by norm_num) _ (by norm_num)]
  have h1 : roundToPrec 64 ((50 : ℚ) + 1 / 2 ^ 39) = 27487790694401 / 2 ^ 39 := by
    have h := roundToPrec_of_int 64 27487790694401 (-39) (by norm_num [abs_of_pos])
    have e : (50 : ℚ) + 1 / 2 ^ 39
        = ((27487790694401 : Int) : ℚ) * (2 : ℚ) ^ (-39 : Int) := by norm_num
    rw [e, h]
    norm_num
  have h2 : roundToPrec 64 ((50000 : ℚ) / (27487790694401 / 2 ^ 39))
      = 18014398509481328640 / 2 ^ 54 := by
    have h := roundToPrec_eval 64 ((50000 : ℚ) / (27487790694401 / 2 ^ 39)) 9
      18014398509481328640
      (by rw [abs_of_pos (by norm_num)]; norm_num)
      (by rw [abs_of_pos (by norm_num)]; norm_num)
      (by rw [abs_lt]; constructor <;> norm_num)
    rw [h]
    norm_num
  have h3 : roundToPrec 64 ((1000 : ℚ) - 18014398509481328640 / 2 ^ 54) = 5 / 2 ^ 37 := by
    have h := roundToPrec_of_int 64 5 (-37) (by norm_num [abs_of_pos])
    have e : (1000 : ℚ) - 18014398509481328640 / 2 ^ 54
        = ((5 : Int) : ℚ) * (2 : ℚ) ^ (-37 : Int) := by norm_num
    rw [e, h]
    norm_num
  rw [h1, h2, h3]

/-- C17 as stated fails: on the test pool (`q = 50`) with `x = 2^-40`, where `2 * x < q`,
the buy of `x` returns `5 / 2^38` and the buy of `2 * x = 2^-39` returns `5 / 2^37`, exactly
twice as much and not more; the sell of `x` returns `5 / 2^38` and the sell of `2 * x`
returns `5 / 2^37`, exactly twice as much and not less. -/
theorem CalculatePrice_slippage_lost :
    0 < testPool.BaseReserve ∧ 0 < testPool.QuoteReserve ∧ (0 : ℚ) < 1 / 2 ^ 40
      ∧ (2 : ℚ) * (1 / 2 ^ 40) = 1 / 2 ^ 39
      ∧ (2 : ℚ) * (1 / 2 ^ 40) < normalizedQuote testPool
      ∧ CalculatePrice testPool { prec := 53, val := .fin (1 / 2 ^ 40) } (ascii "buy")
          = .ok { prec := 64, val := .fin (5 / 2 ^ 38) }
      ∧ CalculatePrice testPool { prec := 53, val := .fin (1 / 2 ^ 39) } (ascii "buy")
          = .ok { prec := 64, val := .fin (5 / 2 ^ 37) }
      ∧ CalculatePrice testPool { prec := 53, val := .fin (1 / 2 ^ 40) } (ascii "sell")
          = .ok { prec := 64, val := .fin (5 / 2 ^ 38) }
      ∧ CalculatePrice testPool { prec := 53, val := .fin (1 / 2 ^ 39) } (ascii "sell")
          = .ok { prec := 64, val := .fin (5 / 2 ^ 37) }
      ∧ (5 : ℚ) / 2 ^ 37 = 2 * (5 / 2 ^ 38) := by
  refine ⟨by decide, by decide, by norm_num, by norm_num, ?_, testPool_buy_small,
    testPool_buy_small_twice, testPool_sell_small, testPool_sell_small_twice, by norm_num⟩
  rw [normalizedQuote_testPool]
  norm_num

/-- C17, amended. Slippage: for every pool with positive reserves and decimals from 0 to
22, and every finite quantity `x` of any precision with `q / 2^28 ≤ x ≤ q / 4`, where
`q = Q / 10^dQ`, the buys and sells of `x` and of `2 * x` succeed with numbers, the buy of
`2 * x` costs more than twice the buy of `x`, and the sell of `2 * x` yields less than
twice the sell of `x`. -/
theorem CalculatePrice_slippage (pool : PoolInfo) (prec : Nat) (x : ℚ)
    (hB : 0 < pool.BaseReserve) (hQ : 0 < pool.QuoteReserve) (hd : DecimalsExact pool)
    (hx : normalizedQuote pool / 2 ^ 28 ≤ x) (hxq : 4 * x ≤ normalizedQuote pool) :
    (∃ buy1 buy2 : ℚ,
        CalculatePrice pool { prec := prec, val := .fin x } (ascii "buy")
            = .ok { prec := pricePrec pool prec, val := .fin buy1 }
          ∧ CalculatePrice pool { prec := prec, val := .fin (2 * x) } (ascii "buy")
            = .ok { prec := pricePrec pool prec, val := .fin buy2 }
          ∧ 2 * buy1 < buy2)
      ∧ ∃ sell1 sell2 : ℚ,
          CalculatePrice pool { prec := prec, val := .fin x } (ascii "sell")
              = .ok { prec := pricePrec pool prec, val := .fin sell1 }
            ∧ CalculatePrice pool { prec := prec, val := .fin (2 * x) } (ascii "sell")
              = .ok { prec := pricePrec pool prec, val := .fin sell2 }
            ∧ sell2 < 2 * sell1 := by
  have _ := hd
  have hb : 0 < normalizedBase pool :=
    div_pos (by exact_mod_cast hB) (Pow10_pos pool.BaseDecimals)
  have hq : 0 < normalizedQuote pool :=
    div_pos (by exact_mod_cast hQ) (Pow10_pos pool.QuoteDecimals)
  have hx0 : 0 < x := lt_of_lt_of_le (by positivity) hx
  obtain ⟨hb1, eb1⟩ := CalculatePrice_buy_bound pool prec x hB hQ hx0 (by linarith)
  obtain ⟨hb2, eb2⟩ := CalculatePrice_buy_bound pool prec (2 * x) hB hQ (by linarith)
    (by linarith)
  obtain ⟨hs1, es1⟩ := CalculatePrice_sell_bound pool prec x hB hQ hx0
  obtain ⟨hs2, es2⟩ := CalculatePrice_sell_bound pool prec (2 * x) hB hQ (by linarith)
  have g1 := buy_convex_gap _ _ x hb hq hx hxq
  have g2 := sell_concave_gap _ _ x hb hq hx hxq
  have e55 : normalizedBase pool / 2 ^ 55 = 16 * (normalizedBase pool / 2 ^ 59) := by ring
  have e56 : normalizedBase pool / 2 ^ 56 = 8 * (normalizedBase pool / 2 ^ 59) := by ring
  have hpos : 0 < normalizedBase pool / 2 ^ 59 := by positivity
  refine ⟨⟨_, _, hb1, hb2, ?_⟩, ⟨_, _, hs1, hs2, ?_⟩⟩
  · have a1 := (abs_le.mp eb1).2
    have a2 := (abs_le.mp eb2).1
    linarith
  · have a1 := (abs_le.mp es1).1
    have a2 := (abs_le.mp es2).2
    linarith

/-- The amended C17 at the test pool (`q = 50`) and quantity 1 of 53 bits. -/
theorem CalculatePrice_slippage_witness :
    (∃ buy1 buy2 : ℚ,
        CalculatePrice testPool { prec := 53, val := .fin 1 } (ascii "buy")
            = .ok { prec := pricePrec testPool 53, val := .fin buy1 }
          ∧ CalculatePrice testPool { prec := 53, val := .fin (2 * 1) } (ascii "buy")
            = .ok { prec := pricePrec testPool 53, val := .fin buy2 }
          ∧ 2 * buy1 < buy2)
      ∧ ∃ sell1 sell2 : ℚ,
          CalculatePrice testPool { prec := 53, val := .fin 1 } (ascii "sell")
              = .ok { prec := pricePrec testPool 53, val := .fin sell1 }
            ∧ CalculatePrice testPool { prec := 53, val := .fin (2 * 1) } (ascii "sell")
              = .ok { prec := pricePrec testPool 53, val := .fin sell2 }
            ∧ sell2 < 2 * sell1 :=
  CalculatePrice_slippage testPool 53 1 (by decide) (by decide) (by decide)
    (by rw [normalizedQuote_testPool]; norm_num)
    (by rw [normalizedQuote_testPool]; norm_num)

/-- C18 as stated fails: on the test pool the marginal price `b / q` is 20, but for every
quantity `0 < x < 2^-59` the 64-bit subtraction `q - x` rounds to `q` and the buy returns
the price 0, so the effective price `buy(x) / x` is 0 for all small `x` and tends to 0,
not to 20. -/
theorem CalculatePrice_zero_trade_vanishes :
    0 < testPool.BaseReserve ∧ 0 < testPool.QuoteReserve
      ∧ normalizedBase testPool / normalizedQuote testPool = 20
      ∧ ∀ x : ℚ, 0 < x → x < 1 / 2 ^ 59 →
          CalculatePrice testPool { prec := 53, val := .fin x } (ascii "buy")
            = .ok { prec := 64, val := .fin 0 } := by
  refine ⟨by decide, by decide, ?_, testPool_buy_absorbed⟩
  rw [normalizedBase_testPool, normalizedQuote_testPool]
  norm_num

/-- C18, amended. For every pool with positive reserves and decimals from 0 to 22, with
`b = B / 10^dB` and `q = Q / 10^dQ`, and every finite quantity `x` of any precision with
`0 < x ≤ q / 2`, the buy returns a number whose effective price `buy(x) / x` lies within
`2 * b * x / q^2 + b / (2^59 * x)` of the marginal price `b / q`: the effective price
approaches the marginal price as `x` decreases only as long as the rounding term
`b / (2^59 * x)` stays small. -/
theorem CalculatePrice_zero_trade_limit (pool : PoolInfo) (prec : Nat) (x : ℚ)
    (hB : 0 < pool.BaseReserve) (hQ : 0 < pool.QuoteReserve) (hd : DecimalsExact pool)
    (hx : 0 < x) (hxq : 2 * x ≤ normalizedQuote pool) :
    ∃ price : ℚ,
      CalculatePrice pool { prec := prec, val := .fin x } (ascii "buy")
          = .ok { prec := pricePrec pool prec, val := .fin price }
        ∧ |price / x - normalizedBase pool / normalizedQuote pool|
          ≤ 2 * normalizedBase pool * x / normalizedQuote pool ^ 2
            + normalizedBase pool / (2 ^ 59 * x) := by
  have _ := hd
  have hb : 0 < normalizedBase pool :=
    div_pos (by exact_mod_cast hB) (Pow10_pos pool.BaseDecimals)
  have hq : 0 < normalizedQuote pool :=
    div_pos (by exact_mod_cast hQ) (Pow10_pos pool.QuoteDecimals)
  obtain ⟨hbuy, hbe⟩ := CalculatePrice_buy_bound pool prec x hB hQ hx hxq
  refine ⟨_, hbuy, ?_⟩
  have g := marginal_gap _ _ x hb hq hx hxq
  have e : buyPrice pool prec x / x - normalizedBase pool / normalizedQuote pool
      = (buyPrice pool prec x
          - (normalizedBase pool * normalizedQuote pool / (normalizedQuote pool - x)
              - normalizedBase pool)) / x
        + ((normalizedBase pool * normalizedQuote pool / (normalizedQuote pool - x)
              - normalizedBase pool) / x - normalizedBase pool / normalizedQuote pool) := by
    ring
  have h1 : |(buyPrice pool prec x
          - (normalizedBase pool * normalizedQuote pool / (normalizedQuote pool - x)
              - normalizedBase pool)) / x| ≤ normalizedBase pool / (2 ^ 59 * x) := by
    rw [abs_div, abs_of_pos hx, ← div_div]
    exact div_le_div_of_nonneg_right hbe hx.le
  rw [e]
  exact le_trans (abs_add _ _) (by linarith)

/-- The amended C18 at the test pool (`b = 1000`, `q = 50`) and quantity 1 of 53 bits. -/
theorem CalculatePrice_zero_trade_limit_witness :
    ∃ price : ℚ,
      CalculatePrice testPool { prec := 53, val := .fin 1 } (ascii "buy")
          = .ok { prec := pricePrec testPool 53, val := .fin price }
        ∧ |price / 1 - normalizedBase testPool / normalizedQuote testPool|
          ≤ 2 * normalizedBase testPool * 1 / normalizedQuote testPool ^ 2
            + normalizedBase testPool / (2 ^ 59 * 1) :=
  CalculatePrice_zero_trade_limit testPool 53 1 (by decide) (by decide) (by decide)
    (by norm_num) (by rw [normalizedQuote_testPool]; norm_num)
/-! ## FindPoolByTokenV3: the selection loop -/

theorem selectBestPool_append (pools : List PoolSearchData) (pool : PoolSearchData) :
    selectBestPool (pools ++ [pool]) = selectStep (selectBestPool pools) pool := by
  simp [selectBestPool, List.foldl_append]

/-- The loop invariant: either nothing was selected and no candidate paired with SOL has a
positive key, or the state holds the first candidate of maximal key among those paired with
SOL, and that key is positive. -/
theorem selectBestPool_invariant (pools : List PoolSearchData) :
    (selectBestPool pools = ([], 0)
        ∧ ∀ c ∈ pools, isPairedWithSOL c = true → poolLiquidity c ≤ 0)
      ∨ ∃ before picked after, pools = before ++ picked :: after
          ∧ selectBestPool pools = (picked.ID, poolLiquidity picked)
          ∧ isPairedWithSOL picked = true ∧ 0 < poolLiquidity picked
          ∧ (∀ c ∈ before, isPairedWithSOL c = true → poolLiquidity c < poolLiquidity picked)
          ∧ (∀ c ∈ after, isPairedWithSOL c = true → poolLiquidity c ≤ poolLiquidity picked) := by
  induction pools using List.reverseRecOn with
  | nil =>
    left
    exact ⟨rfl, by simp⟩
  | append_singleton pools pool ih =>
    rw [selectBestPool_append]
    rcases ih with ⟨hst, hall⟩ | ⟨before, picked, after, hsplit, hst, hpaired, hpos, hbefore, hafter⟩
    · rw [hst]
      by_cases hc : isPairedWithSOL pool = true ∧ poolLiquidity pool > 0
      · right
        refine ⟨pools, pool, [], rfl, ?_, hc.1, hc.2, ?_, by simp⟩
        · simp only [selectStep]
          rw [if_pos hc]
        · intro c hcm hcp
          exact lt_of_le_of_lt (hall c hcm hcp) hc.2
      · left
        refine ⟨?_, ?_⟩
        · simp only [selectStep]
          rw [if_neg hc]
        · intro c hcm hcp
          rcases List.mem_append.mp hcm with h | h
          · exact hall c h hcp
          · have hceq : c = pool := by simpa using h
            subst hceq
            by_contra hlt
            exact hc ⟨hcp, not_le.mp hlt⟩
    · rw [hst]
      by_cases hc : isPairedWithSOL pool = true ∧ poolLiquidity pool > poolLiquidity picked
      · right
        refine ⟨pools, pool, [], rfl, ?_, hc.1, lt_trans hpos hc.2, ?_, by simp⟩
        · simp only [selectStep]
          rw [if_pos hc]
        · intro c hcm hcp
          rw [hsplit] at hcm
          rcases List.mem_append.mp hcm with h | h
          · exact lt_trans (hbefore c h hcp) hc.2
          · rcases List.mem_cons.mp h with h | h
            · subst h
              exact hc.2
            · exact lt_of_le_of_lt (hafter c h hcp) hc.2
      · right
        refine ⟨before, picked, after ++ [pool], ?_, ?_, hpaired, hpos, hbefore, ?_⟩
        · rw [hsplit]
          simp
        · simp only [selectStep]
          rw [if_neg hc]
        · intro c hcm hcp
          rcases List.mem_append.mp hcm with h | h
          · exact hafter c h hcp
          · have hceq : c = pool := by simpa using h
            subst hceq
            by_contra hlt
            exact hc ⟨hcp, not_le.mp hlt⟩

theorem isPairedWithSOL_solCandidate (id : Bytes) (liquidity tvl : ℚ) :
    isPairedWithSOL (solCandidate id liquidity tvl) = true := by
  simp [isPairedWithSOL, solCandidate, EqualFold]

theorem selectBestPool_two_candidates :
    selectBestPool [solCandidate (ascii "a") (-1) 100, solCandidate (ascii "b") 5 0]
      = (ascii "b", 5) := by
  simp only [selectBestPool, List.foldl, selectStep, isPairedWithSOL_solCandidate]
  norm_num [poolLiquidity, solCandidate]

/-- C11 as stated fails: of the two candidates paired with SOL, `a` with liquidity -1 and
TVL 100 and `b` with liquidity 5, the loop picks `b`, whose key in the words of the claim
(liquidity if liquidity > 0, else TVL) is 5, below the key 100 of `a`. -/
theorem selectBestPool_negative_liquidity :
    (selectBestPool [solCandidate (ascii "a") (-1) 100, solCandidate (ascii "b") 5 0]).1
        = (solCandidate (ascii "b") 5 0).ID
      ∧ isPairedWithSOL (solCandidate (ascii "a") (-1) 100) = true
      ∧ specLiquidityKey (solCandidate (ascii "b") 5 0)
          < specLiquidityKey (solCandidate (ascii "a") (-1) 100) := by
  refine ⟨?_, isPairedWithSOL_solCandidate _ _ _, ?_⟩
  · rw [selectBestPool_two_candidates]
    rfl
  · norm_num [specLiquidityKey, solCandidate]

/-- C11, amended. With the liquidity key of the code (the liquidity if it is not 0, else
the TVL): whenever the selection loop picks a pool (ends with a non-empty `bestPoolID`), the
list splits around a picked candidate with that id which is paired with SOL, whose key is
at least the key of every candidate paired with SOL, and before which every candidate
paired with SOL has a strictly smaller key. -/
theorem selectBestPool_picks_first_maximum (pools : List PoolSearchData)
    (h : (selectBestPool pools).1 ≠ []) :
    ∃ before picked after, pools = before ++ picked :: after
      ∧ picked.ID = (selectBestPool pools).1
      ∧ isPairedWithSOL picked = true
      ∧ (∀ c ∈ pools, isPairedWithSOL c = true → poolLiquidity c ≤ poolLiquidity picked)
      ∧ (∀ c ∈ before, isPairedWithSOL c = true → poolLiquidity c < poolLiquidity picked) := by
  rcases selectBestPool_invariant pools with
    ⟨hst, _⟩ | ⟨before, picked, after, hsplit, hst, hpaired, _, hbefore, hafter⟩
  · rw [hst] at h
    exact absurd rfl h
  · refine ⟨before, picked, after, hsplit, by rw [hst], hpaired, ?_, hbefore⟩
    intro c hcm hcp
    rw [hsplit] at hcm
    rcases List.mem_append.mp hcm with h1 | h1
    · exact le_of_lt (hbefore c h1 hcp)
    · rcases List.mem_cons.mp h1 with h2 | h2
      · rw [h2]
      · exact hafter c h2 hcp

/-- The amended C11 on the list of the counterexample: the loop picks `b`. -/
theorem selectBestPool_picks_first_maximum_witness :
    ∃ before picked after,
      [solCandidate (ascii "a") (-1) 100, solCandidate (ascii "b") 5 0]
          = before ++ picked :: after
      ∧ picked.ID
          = (selectBestPool [solCandidate (ascii "a") (-1) 100,
              solCandidate (ascii "b") 5 0]).1
      ∧ isPairedWithSOL picked = true
      ∧ (∀ c ∈ [solCandidate (ascii "a") (-1) 100, solCandidate (ascii "b") 5 0],
          isPairedWithSOL c = true → poolLiquidity c ≤ poolLiquidity picked)
      ∧ (∀ c ∈ before, isPairedWithSOL c = true → poolLiquidity c < poolLiquidity picked) :=
  selectBestPool_picks_first_maximum
    [solCandidate (ascii "a") (-1) 100, solCandidate (ascii "b") 5 0]
    (by
      rw [selectBestPool_two_candidates]
      decide)

/-- A search reply with the given candidates, `success` set and a non-zero count. -/
theorem selectPoolID_of_success (tokenMint : Bytes) (searchResp : PoolSearchResponse)
    (hs : searchResp.Success = true) (hc : searchResp.Count ≠ 0) :
    selectPoolID tokenMint searchResp
      = if (selectBestPool searchResp.Data).1 = [] then .error (.noPoolPairedWithSOL tokenMint)
        else .ok (selectBestPool searchResp.Data).1 := by
  unfold selectPoolID
  rw [if_neg (by simp [hs, hc])]

/-- C12 as stated fails: the reply is successful with count 1 and its only candidate is
paired with SOL, but reports liquidity 0 and TVL 0; the selection step answers that no pool
paired with SOL was found. -/
theorem selectPoolID_ignores_zero_liquidity :
    selectPoolID (ascii "token")
        { Success := true
          Count := 1
          Data := [solCandidate (ascii "a") 0 0]
          HasNextPage := false }
      = .error (.noPoolPairedWithSOL (ascii "token"))
    ∧ ∃ c ∈ [solCandidate (ascii "a") 0 0], isPairedWithSOL c = true := by
  constructor
  · rw [selectPoolID_of_success _ _ rfl (by decide)]
    simp only [selectBestPool, List.foldl, selectStep, isPairedWithSOL_solCandidate]
    norm_num [poolLiquidity, solCandidate]
  · exact ⟨_, List.mem_singleton.mpr rfl, isPairedWithSOL_solCandidate _ _ _⟩

/-- C12, amended. For every successful search reply with a non-zero count whose candidates
all carry a non-empty id, the selection step reports that no pool paired with SOL was found
if and only if no candidate paired with SOL has a liquidity key (the liquidity if it is
not 0, else the TVL) greater than 0. -/
theorem selectPoolID_none_iff (tokenMint : Bytes) (searchResp : PoolSearchResponse)
    (hs : searchResp.Success = true) (hc : searchResp.Count ≠ 0)
    (hid : ∀ c ∈ searchResp.Data, c.ID ≠ []) :
    selectPoolID tokenMint searchResp = .error (.noPoolPairedWithSOL tokenMint)
      ↔ ∀ c ∈ searchResp.Data, isPairedWithSOL c = true → poolLiquidity c ≤ 0 := by
  rw [selectPoolID_of_success tokenMint searchResp hs hc]
  rcases selectBestPool_invariant searchResp.Data with
    ⟨hst, hall⟩ | ⟨before, picked, after, hsplit, hst, hpaired, hpos, _, _⟩
  · rw [hst]
    simp only [if_true]
    exact ⟨fun _ => hall, fun _ => trivial⟩
  · have hmem : picked ∈ searchResp.Data := by
      rw [hsplit]
      simp
    have hne : (selectBestPool searchResp.Data).1 ≠ [] := by
      rw [hst]
      exact hid picked hmem
    rw [if_neg hne]
    constructor
    · intro h
      cases h
    · intro h
      exact absurd (h picked hmem hpaired) (not_le.mpr hpos)

/-- The amended C12 on a reply whose only candidate is paired with SOL and has liquidity 5:
a pool is found. -/
theorem selectPoolID_none_iff_witness :
    selectPoolID (ascii "token")
        { Success := true
          Count := 1
          Data := [solCandidate (ascii "a") 5 0]
          HasNextPage := false }
      = .error (.noPoolPairedWithSOL (ascii "token"))
      ↔ ∀ c ∈ [solCandidate (ascii "a") 5 0], isPairedWithSOL c = true → poolLiquidity c ≤ 0 :=
  selectPoolID_none_iff (ascii "token")
    { Success := true
      Count := 1
      Data := [solCandidate (ascii "a") 5 0]
      HasNextPage := false }
    rfl (by decide)
    (by
      intro c hc
      rw [List.mem_singleton.mp hc]
      decide)

set_option maxRecDepth 100000 in
theorem DecodeBase64Data_wrapAccount : DecodeBase64Data wrapAccountBase64 = .ok wrapAccountData := by
  decide

theorem DecodeBase64Data_testVault :
    DecodeBase64Data testVaultBase64 = .ok (1 :: List.replicate 66 0) := by
  decide

/-! ## The pool decoder: the claims -/

theorem decodePoolAccount_of_carries (accountInfo : JsonObject) (data : Bytes)
    (h : CarriesData accountInfo data) : decodePoolAccount accountInfo = decodeLayout data := by
  obtain ⟨value, dataList, base64Data, h1, h2, h3, h4, h5⟩ := h
  unfold decodePoolAccount
  simp only [h1, h2, h4, h5]
  rw [if_neg (by omega)]

/-- A descriptor returned by `GetPoolInfoOnchain` has the address asked for and the mints
and decimals of the decoded layout. -/
theorem GetPoolInfoOnchain_fields (w : World) (poolAddress : Bytes) (log : List NetCall)
    (accountInfo : JsonObject) (layout : PoolLayout) (pool : PoolInfo)
    (h1 : w.accountInfo log poolAddress = .ok accountInfo)
    (h2 : decodePoolAccount accountInfo = .ok layout)
    (h3 : (GetPoolInfoOnchain w poolAddress log).1 = .ok pool) :
    pool.PoolAddress = poolAddress ∧ pool.BaseToken = layout.baseMint
      ∧ pool.QuoteToken = layout.quoteMint ∧ pool.BaseDecimals = layout.baseDecimals
      ∧ pool.QuoteDecimals = layout.quoteDecimals := by
  unfold GetPoolInfoOnchain at h3
  simp only [h1, h2] at h3
  repeat' split at h3
  all_goals try cases h3
  all_goals exact ⟨rfl, rfl, rfl, rfl, rfl⟩

/-- A descriptor returned by `GetPoolInfo` has the address asked for and the mints and
decimals of the decoded layout. -/
theorem GetPoolInfo_fields (w : World) (poolAddress : Bytes) (log : List NetCall)
    (accountInfo : JsonObject) (layout : PoolLayout) (pool : PoolInfo)
    (h1 : w.accountInfo log poolAddress = .ok accountInfo)
    (h2 : decodePoolAccount accountInfo = .ok layout)
    (h3 : (GetPoolInfo w poolAddress log).1 = .ok pool) :
    pool.PoolAddress = poolAddress ∧ pool.BaseToken = layout.baseMint
      ∧ pool.QuoteToken = layout.quoteMint ∧ pool.BaseDecimals = layout.baseDecimals
      ∧ pool.QuoteDecimals = layout.quoteDecimals := by
  unfold GetPoolInfo at h3
  simp only [h1, h2] at h3
  repeat' split at h3
  all_goals try cases h3
  all_goals exact ⟨rfl, rfl, rfl, rfl, rfl⟩

theorem carriesData_accountReply (base64Data data : Bytes)
    (h : DecodeBase64Data base64Data = .ok data) :
    CarriesData (accountReply base64Data) data :=
  ⟨[(ascii "data", .array [.string base64Data, .string (ascii "base64")])],
    [.string base64Data, .string (ascii "base64")], base64Data, rfl, rfl, by simp, rfl, h⟩

set_option maxRecDepth 100000 in
theorem decodeLayout_wrapAccountData :
    decodeLayout wrapAccountData
      = .ok { baseDecimals := -9223372036854775808
              quoteDecimals := 0
              baseMint := List.replicate 32 49
              quoteMint := List.replicate 32 49
              baseVault := List.replicate 32 49
              quoteVault := List.replicate 32 49 } := by
  decide

theorem extractTokenAmount_balanceReply_one :
    extractTokenAmount (balanceReply (ascii "1")) = .ok 1 := by
  decide

/-- The run of `GetPoolInfoOnchain` on the account data `wrapAccountData` with both vault
balances reported as `1`: three requests. -/
theorem GetPoolInfoOnchain_wrapAccount (poolAddress : Bytes) (log : List NetCall) :
    GetPoolInfoOnchain (rpcWorld wrapAccountBase64 (ascii "1")) poolAddress log
      = (.ok (wrapAccountPool poolAddress),
          log ++ [.getAccountInfo poolAddress,
            .getTokenAccountBalance (List.replicate 32 49),
            .getTokenAccountBalance (List.replicate 32 49)]) := by
  have hdec : decodePoolAccount (accountReply wrapAccountBase64)
      = decodeLayout wrapAccountData :=
    decodePoolAccount_of_carries _ _
      (carriesData_accountReply _ _ DecodeBase64Data_wrapAccount)
  simp only [GetPoolInfoOnchain, rpcWorld, hdec, decodeLayout_wrapAccountData,
    extractTokenAmount_balanceReply_one, wrapAccountPool]

set_option maxRecDepth 100000 in
/-- C13 as stated fails on the decimals: the account data `wrapAccountData` has 600 bytes
and the unsigned 64-bit integer at offset 32 is `2^63`, but the descriptor that
`GetPoolInfoOnchain` returns has `BaseDecimals = -2^63`. -/
theorem GetPoolInfoOnchain_decimals_wrap :
    wrapAccountData.length = 600
      ∧ CarriesData (accountReply wrapAccountBase64) wrapAccountData
      ∧ Uint64LE (slice wrapAccountData 32 40) = 2 ^ 63
      ∧ ∃ pool, (GetPoolInfoOnchain (rpcWorld wrapAccountBase64 (ascii "1")) (ascii "pool")
            []).1 = .ok pool
          ∧ pool.BaseDecimals = -(2 ^ 63) :=
  ⟨by decide, carriesData_accountReply _ _ DecodeBase64Data_wrapAccount, by decide,
    wrapAccountPool (ascii "pool"), by rw [GetPoolInfoOnchain_wrapAccount], by decide⟩

theorem GetPoolInfoOnchain_log (w : World) (poolAddress : Bytes) (log : List NetCall)
    (accountInfo : JsonObject) (layout : PoolLayout)
    (h1 : w.accountInfo log poolAddress = .ok accountInfo)
    (h2 : decodePoolAccount accountInfo = .ok layout) :
    NetCall.getTokenAccountBalance layout.baseVault
      ∈ (GetPoolInfoOnchain w poolAddress log).2 := by
  unfold GetPoolInfoOnchain
  simp only [h1, h2]
  repeat' split
  all_goals simp

theorem GetPoolInfo_log (w : World) (poolAddress : Bytes) (log : List NetCall)
    (accountInfo : JsonObject) (layout : PoolLayout)
    (h1 : w.accountInfo log poolAddress = .ok accountInfo)
    (h2 : decodePoolAccount accountInfo = .ok layout) :
    NetCall.getMultipleAccounts [layout.baseVault, layout.quoteVault]
      ∈ (GetPoolInfo w poolAddress log).2 := by
  unfold GetPoolInfo
  simp only [h1, h2]
  repeat' split
  all_goals simp

/-- The descriptors that `GetPoolInfoOnchain` returns, for a decoded layout: the base vault
is asked first, the quote vault second, and each reserve is the amount of its own reply. -/
theorem GetPoolInfoOnchain_ok_iff (w : World) (poolAddress : Bytes) (log : List NetCall)
    (accountInfo : JsonObject) (layout : PoolLayout) (pool : PoolInfo) (log' : List NetCall)
    (h1 : w.accountInfo log poolAddress = .ok accountInfo)
    (h2 : decodePoolAccount accountInfo = .ok layout) :
    GetPoolInfoOnchain w poolAddress log = (.ok pool, log')
      ↔ ∃ baseBalance quoteBalance,
          w.tokenAccountBalance (log ++ [.getAccountInfo poolAddress]) layout.baseVault
              = .ok baseBalance
            ∧ w.tokenAccountBalance
                (log ++ [.getAccountInfo poolAddress,
                  .getTokenAccountBalance layout.baseVault]) layout.quoteVault
              = .ok quoteBalance
            ∧ extractTokenAmount baseBalance = .ok pool.BaseReserve
            ∧ extractTokenAmount quoteBalance = .ok pool.QuoteReserve
            ∧ pool.PoolAddress = poolAddress
            ∧ pool.BaseToken = layout.baseMint ∧ pool.QuoteToken = layout.quoteMint
            ∧ pool.BaseDecimals = layout.baseDecimals
            ∧ pool.QuoteDecimals = layout.quoteDecimals
            ∧ log' = log ++ [.getAccountInfo poolAddress,
                .getTokenAccountBalance layout.baseVault,
                .getTokenAccountBalance layout.quoteVault] := by
  unfold GetPoolInfoOnchain
  simp only [h1, h2]
  constructor
  · intro h
    split at h
    · cases h
    · rename_i baseBalance hb
      split at h
      · cases h
      · rename_i quoteBalance hq
        split at h
        · cases h
        · rename_i baseReserve eb
          split at h
          · cases h
          · rename_i quoteReserve eq
            cases h
            exact ⟨baseBalance, quoteBalance, hb, hq, eb, eq, rfl, rfl, rfl, rfl, rfl, rfl⟩
  · rintro ⟨baseBalance, quoteBalance, hb, hq, eb, eq, f1, f2, f3, f4, f5, hl⟩
    simp only [hb, hq, eb, eq]
    cases pool
    simp only at f1 f2 f3 f4 f5
    subst f1 f2 f3 f4 f5 hl
    rfl

/-- The descriptors that `GetPoolInfo` returns, for a decoded layout: one request for both
vaults, the base vault first, and each reserve is the amount of its own vault account. -/
theorem GetPoolInfo_ok_iff (w : World) (poolAddress : Bytes) (log : List NetCall)
    (accountInfo : JsonObject) (layout : PoolLayout) (pool : PoolInfo) (log' : List NetCall)
    (h1 : w.accountInfo log poolAddress = .ok accountInfo)
    (h2 : decodePoolAccount accountInfo = .ok layout) :
    GetPoolInfo w poolAddress log = (.ok pool, log')
      ↔ ∃ vaults vault0 vault1,
          w.multipleAccounts (log ++ [.getAccountInfo poolAddress])
              [layout.baseVault, layout.quoteVault] = .ok vaults
            ∧ vaults.get? 0 = some vault0 ∧ vaults.get? 1 = some vault1
            ∧ getTokenBalance vault0 = .ok pool.BaseReserve
            ∧ getTokenBalance vault1 = .ok pool.QuoteReserve
            ∧ pool.PoolAddress = poolAddress
            ∧ pool.BaseToken = layout.baseMint ∧ pool.QuoteToken = layout.quoteMint
            ∧ pool.BaseDecimals = layout.baseDecimals
            ∧ pool.QuoteDecimals = layout.quoteDecimals
            ∧ log' = log ++ [.getAccountInfo poolAddress,
                .getMultipleAccounts [layout.baseVault, layout.quoteVault]] := by
  unfold GetPoolInfo
  simp only [h1, h2]
  constructor
  · intro h
    split at h
    · cases h
    · rename_i vaults hv
      split at h
      · cases h
      · rename_i vault0 h0
        split at h
        · cases h
        · rename_i baseReserve eb
          split at h
          · cases h
          · rename_i vault1 hv1
            split at h
            · cases h
            · rename_i quoteReserve eq
              cases h
              refine ⟨vaults, vault0, vault1, hv, ?_, ?_, eb, eq, rfl, rfl, rfl, rfl, rfl, rfl⟩
              · unfold vaultAt at h0
                split at h0
                · rename_i hget
                  cases h0
                  exact hget
                · cases h0
              · unfold vaultAt at hv1
                split at hv1
                · rename_i hget
                  cases hv1
                  exact hget
                · cases hv1
  · rintro ⟨vaults, vault0, vault1, hv, h0, hv1, eb, eq, f1, f2, f3, f4, f5, hl⟩
    have e0 : vaultAt vaults 0 = .ok vault0 := by
      unfold vaultAt
      rw [h0]
    have e1 : vaultAt vaults 1 = .ok vault1 := by
      unfold vaultAt
      rw [hv1]
    simp only [hv, e0, e1, eb, eq]
    cases pool
    simp only at f1 f2 f3 f4 f5
    subst f1 f2 f3 f4 f5 hl
    rfl

set_option maxRecDepth 100000 in
theorem DecodeBase64Data_layoutAccount :
    DecodeBase64Data layoutAccountBase64 = .ok layoutAccountData := by
  decide

theorem DecodeBase64Data_baseVault :
    DecodeBase64Data baseVaultBase64 = .ok (232 :: 3 :: List.replicate 65 0) := by
  decide

theorem DecodeBase64Data_quoteVault :
    DecodeBase64Data quoteVaultBase64 = .ok (50 :: List.replicate 66 0) := by
  decide

theorem vaults_ne : Base58Encode (List.replicate 32 2) ≠ Base58Encode (List.replicate 32 1) := by
  decide

set_option maxRecDepth 100000 in
theorem layoutAccountData_fields :
    layoutAccountData.length = 600
      ∧ uint64ToInt (Uint64LE (slice layoutAccountData 32 40)) = 6
      ∧ uint64ToInt (Uint64LE (slice layoutAccountData 40 48)) = 9
      ∧ slice layoutAccountData 336 368 = List.replicate 32 1
      ∧ slice layoutAccountData 368 400 = List.replicate 32 2
      ∧ slice layoutAccountData 400 432 = List.replicate 32 3
      ∧ slice layoutAccountData 432 464 = List.replicate 32 4 := by
  decide

/-- C13, amended. Let the account reply carry the decoded account data `data`. If `data`
is shorter than 600 bytes, `GetPoolInfoOnchain` and `GetPoolInfo` both reject it. If it has
at least 600 bytes, the six fields read are whole slices inside `data`, and with the base
vault `Base58Encode` of the 32 bytes at offset 336 and the quote vault `Base58Encode` of the
32 bytes at offset 368: `GetPoolInfoOnchain` returns a descriptor exactly when the balance
request for the base vault and then the balance request for the quote vault are answered
and both amounts parse, and `GetPoolInfo` returns a descriptor exactly when the one request
for the list of the base vault and the quote vault is answered with at least two accounts
whose amounts decode. The descriptor then has the base reserve of the base vault reply and
the quote reserve of the quote vault reply, `BaseDecimals` and `QuoteDecimals` equal to the
little-endian 64-bit integers at offsets 32 and 40 converted to `int` (the unsigned value
below `2^63`, the value minus `2^64` from there on), and `BaseToken`, `QuoteToken` equal to
`Base58Encode` of the 32 bytes at offsets 400 and 432; the requests sent are the account
request and these vault requests, in this order. -/
theorem pool_decoder_layout (w : World) (poolAddress : Bytes) (log : List NetCall)
    (accountInfo : JsonObject) (data : Bytes)
    (h1 : w.accountInfo log poolAddress = .ok accountInfo)
    (h2 : CarriesData accountInfo data) :
    (data.length < 600 →
        (GetPoolInfoOnchain w poolAddress log).1 = .error (.poolDataTooShort data.length)
          ∧ (GetPoolInfo w poolAddress log).1 = .error (.poolDataTooShort data.length))
      ∧ (600 ≤ data.length →
        ((slice data 32 40).length = 8 ∧ (slice data 40 48).length = 8
            ∧ (slice data 400 432).length = 32 ∧ (slice data 432 464).length = 32
            ∧ (slice data 336 368).length = 32 ∧ (slice data 368 400).length = 32)
          ∧ NetCall.getTokenAccountBalance (Base58Encode (slice data 336 368))
              ∈ (GetPoolInfoOnchain w poolAddress log).2
          ∧ NetCall.getMultipleAccounts
                [Base58Encode (slice data 336 368), Base58Encode (slice data 368 400)]
              ∈ (GetPoolInfo w poolAddress log).2
          ∧ (∀ pool log', GetPoolInfoOnchain w poolAddress log = (.ok pool, log')
              ↔ ∃ baseBalance quoteBalance,
                  w.tokenAccountBalance (log ++ [.getAccountInfo poolAddress])
                      (Base58Encode (slice data 336 368)) = .ok baseBalance
                    ∧ w.tokenAccountBalance
                        (log ++ [.getAccountInfo poolAddress,
                          .getTokenAccountBalance (Base58Encode (slice data 336 368))])
                        (Base58Encode (slice data 368 400)) = .ok quoteBalance
                    ∧ extractTokenAmount baseBalance = .ok pool.BaseReserve
                    ∧ extractTokenAmount quoteBalance = .ok pool.QuoteReserve
                    ∧ pool.PoolAddress = poolAddress
                    ∧ pool.BaseToken = Base58Encode (slice data 400 432)
                    ∧ pool.QuoteToken = Base58Encode (slice data 432 464)
                    ∧ pool.BaseDecimals = uint64ToInt (Uint64LE (slice data 32 40))
                    ∧ pool.QuoteDecimals = uint64ToInt (Uint64LE (slice data 40 48))
                    ∧ log' = log ++ [.getAccountInfo poolAddress,
                        .getTokenAccountBalance (Base58Encode (slice data 336 368)),
                        .getTokenAccountBalance (Base58Encode (slice data 368 400))])
          ∧ ∀ pool log', GetPoolInfo w poolAddress log = (.ok pool, log')
              ↔ ∃ vaults vault0 vault1,
                  w.multipleAccounts (log ++ [.getAccountInfo poolAddress])
                      [Base58Encode (slice data 336 368), Base58Encode (slice data 368 400)]
                      = .ok vaults
                    ∧ vaults.get? 0 = some vault0 ∧ vaults.get? 1 = some vault1
                    ∧ getTokenBalance vault0 = .ok pool.BaseReserve
                    ∧ getTokenBalance vault1 = .ok pool.QuoteReserve
                    ∧ pool.PoolAddress = poolAddress
                    ∧ pool.BaseToken = Base58Encode (slice data 400 432)
                    ∧ pool.QuoteToken = Base58Encode (slice data 432 464)
                    ∧ pool.BaseDecimals = uint64ToInt (Uint64LE (slice data 32 40))
                    ∧ pool.QuoteDecimals = uint64ToInt (Uint64LE (slice data 40 48))
                    ∧ log' = log ++ [.getAccountInfo poolAddress,
                        .getMultipleAccounts
                          [Base58Encode (slice data 336 368),
                            Base58Encode (slice data 368 400)]]) := by
  have hdec := decodePoolAccount_of_carries accountInfo data h2
  constructor
  · intro hshort
    have hl : decodePoolAccount accountInfo = .error (.poolDataTooShort data.length) := by
      rw [hdec, decodeLayout, if_pos hshort]
    constructor
    · simp only [GetPoolInfoOnchain, h1, hl]
    · simp only [GetPoolInfo, h1, hl]
  · intro hlong
    have hl : decodePoolAccount accountInfo
        = .ok { baseDecimals := uint64ToInt (Uint64LE (slice data 32 40))
                quoteDecimals := uint64ToInt (Uint64LE (slice data 40 48))
                baseMint := Base58Encode (slice data 400 432)
                quoteMint := Base58Encode (slice data 432 464)
                baseVault := Base58Encode (slice data 336 368)
                quoteVault := Base58Encode (slice data 368 400) } := by
      rw [hdec, decodeLayout, if_neg (by omega)]
      rfl
    refine ⟨⟨?_, ?_, ?_, ?_, ?_, ?_⟩, ?_, ?_, ?_, ?_⟩
    · rw [length_slice _ _ _ (by omega)]
    · rw [length_slice _ _ _ (by omega)]
    · rw [length_slice _ _ _ (by omega)]
    · rw [length_slice _ _ _ (by omega)]
    · rw [length_slice _ _ _ (by omega)]
    · rw [length_slice _ _ _ (by omega)]
    · exact GetPoolInfoOnchain_log w poolAddress log accountInfo _ h1 hl
    · exact GetPoolInfo_log w poolAddress log accountInfo _ h1 hl
    · intro pool log'
      exact GetPoolInfoOnchain_ok_iff w poolAddress log accountInfo _ pool log' h1 hl
    · intro pool log'
      exact GetPoolInfo_ok_iff w poolAddress log accountInfo _ pool log' h1 hl

theorem extractTokenAmount_balanceReply_amounts :
    extractTokenAmount (balanceReply (ascii "1000")) = .ok 1000
      ∧ extractTokenAmount (balanceReply (ascii "50")) = .ok 50 := by
  decide

theorem getTokenBalance_vaults :
    getTokenBalance (vaultReply baseVaultBase64) = .ok 1000
      ∧ getTokenBalance (vaultReply quoteVaultBase64) = .ok 50 := by
  constructor
  · simp only [getTokenBalance, vaultReply]
    have hget : JsonObject.get
        [(ascii "data", Json.array [.string baseVaultBase64, .string (ascii "base64")])]
        (ascii "data") = .array [.string baseVaultBase64, .string (ascii "base64")] := rfl
    simp only [hget, List.length_cons, List.length_nil, List.head?_cons,
      DecodeBase64Data_baseVault]
    decide
  · simp only [getTokenBalance, vaultReply]
    have hget : JsonObject.get
        [(ascii "data", Json.array [.string quoteVaultBase64, .string (ascii "base64")])]
        (ascii "data") = .array [.string quoteVaultBase64, .string (ascii "base64")] := rfl
    simp only [hget, List.length_cons, List.length_nil, List.head?_cons,
      DecodeBase64Data_quoteVault]
    decide

theorem DecodeBase64Data_empty : DecodeBase64Data [] = .ok [] := by
  decide

/-- The amended C13 on the account data `layoutAccountData` (600 bytes, six distinct
fields) in `layoutWorld`, where the base vault holds 1000 and the quote vault 50: both
loaders return the descriptor `layoutPool` with the reserves 1000 and 50, the decimals 6
and 9 and the mints of offsets 400 and 432, after asking for the vault of offset 336 and
then for the vault of offset 368; and on the empty account data both loaders reject. -/
theorem pool_decoder_layout_witness :
    (layoutWorld.accountInfo [] (ascii "pool") = .ok (accountReply layoutAccountBase64)
        ∧ CarriesData (accountReply layoutAccountBase64) layoutAccountData
        ∧ 600 ≤ layoutAccountData.length
        ∧ GetPoolInfoOnchain layoutWorld (ascii "pool") []
          = (.ok (layoutPool (ascii "pool")),
              [.getAccountInfo (ascii "pool"),
                .getTokenAccountBalance (Base58Encode (slice layoutAccountData 336 368)),
                .getTokenAccountBalance (Base58Encode (slice layoutAccountData 368 400))])
        ∧ GetPoolInfo layoutWorld (ascii "pool") []
          = (.ok (layoutPool (ascii "pool")),
              [.getAccountInfo (ascii "pool"),
                .getMultipleAccounts
                  [Base58Encode (slice layoutAccountData 336 368),
                    Base58Encode (slice layoutAccountData 368 400)]]))
      ∧ ((rpcWorld [] (ascii "1")).accountInfo [] (ascii "pool") = .ok (accountReply [])
        ∧ CarriesData (accountReply []) []
        ∧ ([] : Bytes).length < 600
        ∧ (GetPoolInfoOnchain (rpcWorld [] (ascii "1")) (ascii "pool") []).1
          = .error (.poolDataTooShort 0)
        ∧ (GetPoolInfo (rpcWorld [] (ascii "1")) (ascii "pool") []).1
          = .error (.poolDataTooShort 0)) := by
  have hc := carriesData_accountReply _ _ DecodeBase64Data_layoutAccount
  have hf := layoutAccountData_fields
  have hlen : 600 ≤ layoutAccountData.length := by rw [hf.1]
  have h := (pool_decoder_layout layoutWorld (ascii "pool") []
    (accountReply layoutAccountBase64) layoutAccountData rfl hc).2 hlen
  have hs := (pool_decoder_layout (rpcWorld [] (ascii "1")) (ascii "pool") []
    (accountReply []) [] rfl (carriesData_accountReply _ _ DecodeBase64Data_empty)).1
    (by decide)
  refine ⟨⟨rfl, hc, hlen, ?_, ?_⟩, rfl, carriesData_accountReply _ _ DecodeBase64Data_empty,
    by decide, hs.1, hs.2⟩
  · refine (h.2.2.2.1 _ _).mpr ⟨balanceReply (ascii "1000"), balanceReply (ascii "50"),
      ?_, ?_, extractTokenAmount_balanceReply_amounts.1,
      extractTokenAmount_balanceReply_amounts.2, rfl, ?_, ?_, ?_, ?_, rfl⟩
    · rw [hf.2.2.2.1]
      simp only [layoutWorld, if_true]
    · rw [hf.2.2.2.1, hf.2.2.2.2.1]
      simp only [layoutWorld, if_neg vaults_ne]
    · rw [hf.2.2.2.2.2.1]
      rfl
    · rw [hf.2.2.2.2.2.2]
      rfl
    · rw [hf.2.1]
      rfl
    · rw [hf.2.2.1]
      rfl
  · refine (h.2.2.2.2 _ _).mpr ⟨[vaultReply baseVaultBase64, vaultReply quoteVaultBase64],
      vaultReply baseVaultBase64, vaultReply quoteVaultBase64, ?_, rfl, rfl,
      getTokenBalance_vaults.1, getTokenBalance_vaults.2, rfl, ?_, ?_, ?_, ?_, rfl⟩
    · rw [hf.2.2.2.1, hf.2.2.2.2.1]
      simp only [layoutWorld, List.map, if_true, if_neg vaults_ne]
    · rw [hf.2.2.2.2.2.1]
      rfl
    · rw [hf.2.2.2.2.2.2]
      rfl
    · rw [hf.2.1]
      rfl
    · rw [hf.2.2.1]
      rfl
/-! ## The descriptor invariant -/

theorem getTokenBalance_nonneg (vault : Option JsonObject) (amount : Int)
    (h : getTokenBalance vault = .ok amount) : 0 ≤ amount := by
  unfold getTokenBalance at h
  repeat' split at h
  all_goals try cases h
  all_goals first
    | exact le_refl _
    | exact Int.natCast_nonneg _

theorem GetPoolInfo_reserves (w : World) (poolAddress : Bytes) (log : List NetCall)
    (pool : PoolInfo) (h : (GetPoolInfo w poolAddress log).1 = .ok pool) :
    ∃ vault0 vault1, getTokenBalance vault0 = .ok pool.BaseReserve
      ∧ getTokenBalance vault1 = .ok pool.QuoteReserve := by
  unfold GetPoolInfo at h
  repeat' split at h
  all_goals try cases h
  all_goals exact ⟨_, _, by assumption, by assumption⟩

theorem truncate_nonneg (x : ℚ) (h : 0 ≤ x) : 0 ≤ truncate x := by
  unfold truncate
  rw [if_pos h]
  exact Int.floor_nonneg.mpr h

theorem roundToPrec_nonneg (prec : Nat) (x : ℚ) (hp : 1 ≤ prec) (hx : 0 ≤ x) :
    0 ≤ roundToPrec prec x := by
  rcases hx.lt_or_eq with h | h
  · exact (roundToPrec_pos prec x hp h).le
  · rw [← h, roundToPrec_zero]

/-- The reserve that the catalog adapter computes from a reported amount and the decimals:
the product rounded to 53 bits, cut to its integer part. -/
theorem adapterReserve_eq (amount : ℚ) (decimals : Int) :
    (match Float.Mul (Float.SetFloat64 amount).prec (Float.SetFloat64 amount)
        (Float.SetFloat64 (Pow10 decimals)) with
      | .ok baseAmount => baseAmount.Int 0
      | .error _ => 0)
      = truncate (roundToPrec 53 (amount * Pow10 decimals)) := by
  simp [Float.Mul, Float.SetFloat64, BigFloat.Mul, Float.opPrec, BigFloat.round, Float.Int]

theorem convertV3PoolToInternal_reserves (poolV3 : PoolInfoData) :
    (convertV3PoolToInternal poolV3).BaseReserve
        = truncate (roundToPrec 53 (poolV3.MintAmountA * Pow10 poolV3.MintA.Decimals))
      ∧ (convertV3PoolToInternal poolV3).QuoteReserve
        = truncate (roundToPrec 53 (poolV3.MintAmountB * Pow10 poolV3.MintB.Decimals)) :=
  ⟨adapterReserve_eq _ _, adapterReserve_eq _ _⟩

/-- The adapter rounds before it cuts: the reported amount 1004.031676, as the `float64`
`8831556019339403 / 2^43`, with 6 decimals has the exact product `1004031675.99999...`,
which the 53-bit product rounds to 1004031676. -/
theorem convertV3PoolToInternal_rounds :
    truncate ((8831556019339403 / 2 ^ 43 : ℚ) * Pow10 6) = 1004031675
      ∧ (convertV3PoolToInternal
          (catalogPool (ascii "p") 6 (8831556019339403 / 2 ^ 43) 1)).BaseReserve
        = 1004031676 := by
  constructor
  · have e : (8831556019339403 / 2 ^ 43 : ℚ) * Pow10 6
        = 137993062802178171875 / 137438953472 := by
      norm_num [Pow10]
    rw [e, truncate, if_pos (by norm_num), Int.floor_eq_iff]
    constructor <;> norm_num
  · rw [(convertV3PoolToInternal_reserves _).1]
    have e : (catalogPool (ascii "p") 6 (8831556019339403 / 2 ^ 43) 1).MintAmountA
        * Pow10 (catalogPool (ascii "p") 6 (8831556019339403 / 2 ^ 43) 1).MintA.Decimals
        = 137993062802178171875 / 137438953472 := by
      norm_num [catalogPool, Pow10]
    rw [e]
    have h := roundToPrec_eval 53 (137993062802178171875 / 137438953472) 29
      8422428149547008
      (by rw [abs_of_pos (by norm_num)]; norm_num)
      (by rw [abs_of_pos (by norm_num)]; norm_num)
      (by rw [abs_lt]; constructor <;> norm_num)
    rw [h]
    have e2 : ((8422428149547008 : Int) : ℚ) * (2 : ℚ) ^ ((29 : Int) + 1 - (53 : Nat))
        = ((1004031676 : Int) : ℚ) := by
      norm_num
    rw [e2, truncate, if_pos (by norm_num), Int.floor_intCast]

/-- C14 as stated fails: the catalog adapter copies the decimals of the reply, so a catalog
pool whose `mintA` reports 19 decimals becomes a descriptor with `BaseDecimals = 19`,
outside the range 0..18. -/
theorem convertV3PoolToInternal_decimals_unchecked :
    (convertV3PoolToInternal (catalogPool (ascii "p") 19 1 1)).BaseDecimals = 19
      ∧ ¬ DescriptorInvariant (convertV3PoolToInternal (catalogPool (ascii "p") 19 1 1)) := by
  refine ⟨rfl, ?_⟩
  intro h
  have h19 : (convertV3PoolToInternal (catalogPool (ascii "p") 19 1 1)).BaseDecimals ≤ 18 :=
    h.2.2.2.1
  have : (19 : Int) ≤ 18 := h19
  omega

/-- C14, amended. Every descriptor returned by the legacy decoder `GetPoolInfo` has both
reserves at least 0, and the descriptor that the catalog adapter builds from reported
amounts that are at least 0 has both reserves at least 0 (the adapter rounds each product
to 53 bits before it cuts it to an integer). -/
theorem descriptor_reserves_nonneg (w : World) (poolAddress : Bytes) (log : List NetCall)
    (pool : PoolInfo) (poolV3 : PoolInfoData) :
    ((GetPoolInfo w poolAddress log).1 = .ok pool →
        0 ≤ pool.BaseReserve ∧ 0 ≤ pool.QuoteReserve)
      ∧ (0 ≤ poolV3.MintAmountA → 0 ≤ poolV3.MintAmountB →
        0 ≤ (convertV3PoolToInternal poolV3).BaseReserve
          ∧ 0 ≤ (convertV3PoolToInternal poolV3).QuoteReserve) := by
  constructor
  · intro h
    obtain ⟨vault0, vault1, h0, h1⟩ := GetPoolInfo_reserves w poolAddress log pool h
    exact ⟨getTokenBalance_nonneg vault0 _ h0, getTokenBalance_nonneg vault1 _ h1⟩
  · intro hA hB
    rw [(convertV3PoolToInternal_reserves poolV3).1, (convertV3PoolToInternal_reserves poolV3).2]
    exact ⟨truncate_nonneg _ (roundToPrec_nonneg 53 _ (by norm_num)
        (mul_nonneg hA (Pow10_pos _).le)),
      truncate_nonneg _ (roundToPrec_nonneg 53 _ (by norm_num)
        (mul_nonneg hB (Pow10_pos _).le))⟩

theorem getTokenBalance_testVault : getTokenBalance (vaultReply testVaultBase64) = .ok 1 := by
  have h : DecodeBase64Data testVaultBase64 = .ok (1 :: List.replicate 66 0) :=
    DecodeBase64Data_testVault
  simp only [getTokenBalance, vaultReply]
  have hget : JsonObject.get
      [(ascii "data", Json.array [.string testVaultBase64, .string (ascii "base64")])]
      (ascii "data") = .array [.string testVaultBase64, .string (ascii "base64")] := rfl
  simp only [hget, List.length_cons, List.length_nil, List.head?_cons, h]
  decide

/-- The run of `GetPoolInfo` on the account data `wrapAccountData` with two vault accounts
of amount 1: two requests. -/
theorem GetPoolInfo_wrapAccount (poolAddress : Bytes) (log : List NetCall) :
    GetPoolInfo (rpcWorld wrapAccountBase64 (ascii "1")) poolAddress log
      = (.ok (wrapAccountPool poolAddress),
          log ++ [.getAccountInfo poolAddress,
            .getMultipleAccounts [List.replicate 32 49, List.replicate 32 49]]) := by
  have hdec : decodePoolAccount (accountReply wrapAccountBase64)
      = decodeLayout wrapAccountData :=
    decodePoolAccount_of_carries _ _
      (carriesData_accountReply _ _ DecodeBase64Data_wrapAccount)
  simp only [GetPoolInfo, rpcWorld, hdec, decodeLayout_wrapAccountData, vaultAt,
    List.get?, getTokenBalance_testVault, wrapAccountPool]

/-- The amended C14 on the run of `GetPoolInfo` over `wrapAccountData` and on the catalog
pool with amounts 1 and 1. -/
theorem descriptor_reserves_nonneg_witness :
    0 ≤ (wrapAccountPool (ascii "pool")).BaseReserve
      ∧ 0 ≤ (wrapAccountPool (ascii "pool")).QuoteReserve
      ∧ 0 ≤ (convertV3PoolToInternal (catalogPool (ascii "p") 6 1 1)).BaseReserve
      ∧ 0 ≤ (convertV3PoolToInternal (catalogPool (ascii "p") 6 1 1)).QuoteReserve :=
  ⟨((descriptor_reserves_nonneg (rpcWorld wrapAccountBase64 (ascii "1")) (ascii "pool") []
        (wrapAccountPool (ascii "pool")) (catalogPool (ascii "p") 6 1 1)).1
      (by rw [GetPoolInfo_wrapAccount])).1,
    ((descriptor_reserves_nonneg (rpcWorld wrapAccountBase64 (ascii "1")) (ascii "pool") []
        (wrapAccountPool (ascii "pool")) (catalogPool (ascii "p") 6 1 1)).1
      (by rw [GetPoolInfo_wrapAccount])).2,
    (descriptor_reserves_nonneg (rpcWorld wrapAccountBase64 (ascii "1")) (ascii "pool") []
        testPool (catalogPool (ascii "p") 6 1 1)).2
      (by norm_num [catalogPool]) (by norm_num [catalogPool])⟩

/-! ## The pool cache -/

theorem cacheGet_cachePut (s : Service) (key : Bytes) (pool : PoolInfo) :
    (s.cachePut key pool).cacheGet key = some pool := by
  simp [Service.cacheGet, Service.cachePut]

theorem GetPoolInfoV3_log (w : World) (poolID : Bytes) (log : List NetCall) :
    (GetPoolInfoV3 w poolID log).2 = log ++ [.catalogPoolInfo poolID] := by
  unfold GetPoolInfoV3
  repeat' split
  all_goals rfl

/-- The requests of `FindPoolByTokenV3` are catalog requests. -/
theorem FindPoolByTokenV3_log (w : World) (tokenMint : Bytes) (log : List NetCall) :
    ∃ calls, (FindPoolByTokenV3 w tokenMint log).2 = log ++ calls
      ∧ ∀ c ∈ calls, c.isCatalog = true := by
  unfold FindPoolByTokenV3
  split
  · exact ⟨[.catalogSearch tokenMint], rfl, by simp [NetCall.isCatalog]⟩
  · split
    · exact ⟨[.catalogSearch tokenMint], rfl, by simp [NetCall.isCatalog]⟩
    · rename_i bestPoolID _
      refine ⟨[.catalogSearch tokenMint, .catalogPoolInfo bestPoolID], ?_, ?_⟩
      · rw [GetPoolInfoV3_log]
        simp
      · simp [NetCall.isCatalog]

theorem FindPoolByTokenV3_catalogWorld (log : List NetCall) :
    FindPoolByTokenV3 catalogWorld (ascii "token") log
      = (.ok (catalogPool (ascii "pool1") 6 1 1),
          log ++ [.catalogSearch (ascii "token"), .catalogPoolInfo (ascii "pool1")]) := by
  have hbest : selectBestPool [solCandidate (ascii "pool1") 5 0] = (ascii "pool1", 5) := by
    simp only [selectBestPool, List.foldl, selectStep, isPairedWithSOL_solCandidate]
    norm_num [poolLiquidity, solCandidate]
  have hsel : selectPoolID (ascii "token")
      { Success := true
        Count := 1
        Data := [solCandidate (ascii "pool1") 5 0]
        HasNextPage := false } = .ok (ascii "pool1") := by
    rw [selectPoolID_of_success _ _ rfl (by decide)]
    simp only [hbest]
    rw [if_neg (by decide)]
  simp only [FindPoolByTokenV3, catalogWorld, hsel, GetPoolInfoV3]
  simp

theorem findPool_api_first_call :
    findPool catalogWorld apiService (ascii "token") []
      = (.ok (convertV3PoolToInternal (catalogPool (ascii "pool1") 6 1 1)),
          apiService.cachePut (ascii "pool1")
            (convertV3PoolToInternal (catalogPool (ascii "pool1") 6 1 1)),
          [.catalogSearch (ascii "token"), .catalogPoolInfo (ascii "pool1")]) := by
  have hget : apiService.cacheGet (catalogPool (ascii "pool1") 6 1 1).ID = none := rfl
  simp only [findPool, findPoolViaAPI, FindPoolByTokenV3_catalogWorld, hget]
  simp [apiService]
  rfl

theorem findPool_api_second_call :
    findPool catalogWorld
        (apiService.cachePut (ascii "pool1")
          (convertV3PoolToInternal (catalogPool (ascii "pool1") 6 1 1)))
        (ascii "token") [.catalogSearch (ascii "token"), .catalogPoolInfo (ascii "pool1")]
      = (.ok (convertV3PoolToInternal (catalogPool (ascii "pool1") 6 1 1)),
          apiService.cachePut (ascii "pool1")
            (convertV3PoolToInternal (catalogPool (ascii "pool1") 6 1 1)),
          [.catalogSearch (ascii "token"), .catalogPoolInfo (ascii "pool1"),
            .catalogSearch (ascii "token"), .catalogPoolInfo (ascii "pool1")]) := by
  have hget : (apiService.cachePut (ascii "pool1")
        (convertV3PoolToInternal (catalogPool (ascii "pool1") 6 1 1))).cacheGet
        (catalogPool (ascii "pool1") 6 1 1).ID
      = some (convertV3PoolToInternal (catalogPool (ascii "pool1") 6 1 1)) :=
    cacheGet_cachePut _ _ _
  simp only [findPool, findPoolViaAPI, FindPoolByTokenV3_catalogWorld, hget]
  simp [apiService, Service.cachePut]

/-- C15 as stated fails in catalog mode: on a fresh service with `use_api` set, the first
`findPool` succeeds after two catalog requests and fills the cache; the second `findPool`
for the same token returns the same descriptor but sends the two catalog requests again. -/
theorem findPool_api_repeats_catalog_requests :
    findPool catalogWorld apiService (ascii "token") []
        = (.ok (convertV3PoolToInternal (catalogPool (ascii "pool1") 6 1 1)),
            apiService.cachePut (ascii "pool1")
              (convertV3PoolToInternal (catalogPool (ascii "pool1") 6 1 1)),
            [.catalogSearch (ascii "token"), .catalogPoolInfo (ascii "pool1")])
      ∧ findPool catalogWorld
          (apiService.cachePut (ascii "pool1")
            (convertV3PoolToInternal (catalogPool (ascii "pool1") 6 1 1)))
          (ascii "token") [.catalogSearch (ascii "token"), .catalogPoolInfo (ascii "pool1")]
        = (.ok (convertV3PoolToInternal (catalogPool (ascii "pool1") 6 1 1)),
            apiService.cachePut (ascii "pool1")
              (convertV3PoolToInternal (catalogPool (ascii "pool1") 6 1 1)),
            [.catalogSearch (ascii "token"), .catalogPoolInfo (ascii "pool1"),
              .catalogSearch (ascii "token"), .catalogPoolInfo (ascii "pool1")]) :=
  ⟨findPool_api_first_call, findPool_api_second_call⟩

/-- A successful `findPoolHardcoded` leaves the descriptor in the cache under the hardcoded
pool address, and a second call returns it from there without any request. -/
theorem findPoolHardcoded_memoized (w : World) (s : Service) (tokenAddress : Bytes)
    (log : List NetCall) (pool : PoolInfo) (s' : Service) (log' : List NetCall)
    (h : findPoolHardcoded w s tokenAddress log = (.ok pool, s', log')) :
    (∃ poolAddress, knownPools (ToLower tokenAddress) = some poolAddress
        ∧ s'.cacheGet poolAddress = some pool)
      ∧ findPoolHardcoded w s' tokenAddress log' = (.ok pool, s', log')
      ∧ s'.useAPI = s.useAPI := by
  unfold findPoolHardcoded at h
  split at h
  · cases h
  · rename_i poolAddress hknown
    split at h
    · rename_i cached hcached
      cases h
      refine ⟨⟨poolAddress, hknown, hcached⟩, ?_, rfl⟩
      unfold findPoolHardcoded
      simp only [hknown, hcached]
    · split at h
      · cases h
      · rename_i loaded log1 _
        cases h
        refine ⟨⟨poolAddress, hknown, cacheGet_cachePut _ _ _⟩, ?_, rfl⟩
        unfold findPoolHardcoded
        simp only [hknown, cacheGet_cachePut]

/-- A successful `findPoolViaAPI` leaves the descriptor in the cache under the id of the
pool that the catalog found. -/
theorem findPoolViaAPI_populates (w : World) (s : Service) (tokenAddress : Bytes)
    (log : List NetCall) (pool : PoolInfo) (s' : Service) (log' : List NetCall)
    (h : findPoolViaAPI w s tokenAddress log = (.ok pool, s', log')) :
    ∃ poolV3, (FindPoolByTokenV3 w tokenAddress log).1 = .ok poolV3
      ∧ s'.cacheGet poolV3.ID = some pool ∧ s'.useAPI = s.useAPI := by
  unfold findPoolViaAPI at h
  split at h
  · cases h
  · rename_i poolV3 log1 hfind
    refine ⟨poolV3, by rw [hfind], ?_⟩
    split at h
    · rename_i cached hcached
      cases h
      exact ⟨hcached, rfl⟩
    · split at h
      · split at h
        · cases h
        · cases h
          exact ⟨cacheGet_cachePut _ _ _, rfl⟩
      · cases h
        exact ⟨cacheGet_cachePut _ _ _, rfl⟩

/-- The second `findPoolViaAPI`: the catalog is asked again, and the cache is looked up with
the id of its answer. -/
theorem findPoolViaAPI_second (w : World) (s : Service) (tokenAddress : Bytes)
    (log : List NetCall) :
    (∀ poolV3 pool, (FindPoolByTokenV3 w tokenAddress log).1 = .ok poolV3 →
        s.cacheGet poolV3.ID = some pool →
        findPoolViaAPI w s tokenAddress log
          = (.ok pool, s, (FindPoolByTokenV3 w tokenAddress log).2))
      ∧ ∀ err, (FindPoolByTokenV3 w tokenAddress log).1 = .error err →
        findPoolViaAPI w s tokenAddress log
          = (.error (.failedToFindPoolViaAPI err), s,
              (FindPoolByTokenV3 w tokenAddress log).2) := by
  constructor
  · intro poolV3 pool hfind hcached
    unfold findPoolViaAPI
    cases hres : FindPoolByTokenV3 w tokenAddress log with
    | mk result log1 =>
      rw [hres] at hfind
      simp only at hfind
      subst hfind
      simp only [hcached]
  · intro err hfind
    unfold findPoolViaAPI
    cases hres : FindPoolByTokenV3 w tokenAddress log with
    | mk result log1 =>
      rw [hres] at hfind
      simp only at hfind
      subst hfind
      rfl

/-- C15, amended. After a `findPool` call that succeeded the cache holds the returned
descriptor: under the hardcoded pool address of the token when `use_api` is not set, under
the id of the pool that the catalog found when `use_api` is set (either `use_onchain`
setting). With `use_api` not set, a second `findPool` call for the same token returns the
same descriptor, leaves the service as it is and sends no request at all. With `use_api`
set, the second call first repeats the catalog search, whose requests are catalog requests
only; when the catalog names the same pool id again, the call returns the same descriptor
from the cache, leaves the service as it is and sends no request beyond the catalog search
(no RPC request); when the catalog search fails, the call fails with its error. -/
theorem findPool_memoized (w : World) (s : Service) (tokenAddress : Bytes)
    (log : List NetCall) (pool : PoolInfo) (s' : Service) (log' : List NetCall)
    (h : findPool w s tokenAddress log = (.ok pool, s', log')) :
    (s.useAPI = false →
        (∃ poolAddress, knownPools (ToLower tokenAddress) = some poolAddress
            ∧ s'.cacheGet poolAddress = some pool)
          ∧ findPool w s' tokenAddress log' = (.ok pool, s', log'))
      ∧ (s.useAPI = true →
          ∃ poolV3, (FindPoolByTokenV3 w tokenAddress log).1 = .ok poolV3
            ∧ s'.cacheGet poolV3.ID = some pool
            ∧ (∃ calls, (FindPoolByTokenV3 w tokenAddress log').2 = log' ++ calls
                ∧ ∀ c ∈ calls, c.isCatalog = true)
            ∧ (∀ poolV3', (FindPoolByTokenV3 w tokenAddress log').1 = .ok poolV3' →
                poolV3'.ID = poolV3.ID →
                findPool w s' tokenAddress log'
                  = (.ok pool, s', (FindPoolByTokenV3 w tokenAddress log').2))
            ∧ ∀ err, (FindPoolByTokenV3 w tokenAddress log').1 = .error err →
                findPool w s' tokenAddress log'
                  = (.error (.failedToFindPoolViaAPI err), s',
                      (FindPoolByTokenV3 w tokenAddress log').2)) := by
  constructor
  · intro hapi
    have hne : ¬ s.useAPI = true := by simp [hapi]
    unfold findPool at h
    rw [if_neg hne] at h
    obtain ⟨h0, h1, h2⟩ := findPoolHardcoded_memoized w s tokenAddress log pool s' log' h
    refine ⟨h0, ?_⟩
    unfold findPool
    rw [if_neg (by rw [h2]; exact hne)]
    exact h1
  · intro hapi
    unfold findPool at h
    rw [if_pos hapi] at h
    obtain ⟨poolV3, hfirst, hcache, h2⟩ :=
      findPoolViaAPI_populates w s tokenAddress log pool s' log' h
    have hapi' : s'.useAPI = true := by rw [h2]; exact hapi
    refine ⟨poolV3, hfirst, hcache, FindPoolByTokenV3_log w tokenAddress log', ?_, ?_⟩
    · intro poolV3' hfind hid
      unfold findPool
      rw [if_pos hapi']
      exact (findPoolViaAPI_second w s' tokenAddress log').1 poolV3' pool hfind
        (by rw [hid]; exact hcache)
    · intro err hfind
      unfold findPool
      rw [if_pos hapi']
      exact (findPoolViaAPI_second w s' tokenAddress log').2 err hfind

theorem findPool_hardcoded_first_call :
    findPool (rpcWorld wrapAccountBase64 (ascii "1")) hardcodedService usdcMint []
      = (.ok (wrapAccountPool usdcPoolAddress),
          hardcodedService.cachePut usdcPoolAddress (wrapAccountPool usdcPoolAddress),
          [.getAccountInfo usdcPoolAddress,
            .getMultipleAccounts [List.replicate 32 49, List.replicate 32 49]]) := by
  have hknown : knownPools (ToLower usdcMint) = some usdcPoolAddress := by decide
  have hget : hardcodedService.cacheGet usdcPoolAddress = none := rfl
  have hne : ¬ hardcodedService.useAPI = true := by decide
  have honchain : ¬ hardcodedService.useOnchain = true := by decide
  unfold findPool
  rw [if_neg hne]
  unfold findPoolHardcoded
  simp only [hknown, hget, if_neg honchain, GetPoolInfo_wrapAccount, List.nil_append]

/-- The amended C15 on a fresh service in hardcoded mode and on a fresh service in catalog
mode. In hardcoded mode the first `findPool` for the USDC mint loads the pool with two RPC
requests, and the second call returns the same descriptor, the same service and the same
log. In catalog mode the first `findPool` asks the catalog twice and caches the descriptor
under the id `pool1`; the second call asks the catalog again, which names `pool1` again,
and returns the cached descriptor and the same service, with the log of the catalog search
only. -/
theorem findPool_memoized_witness :
    (findPool (rpcWorld wrapAccountBase64 (ascii "1")) hardcodedService usdcMint []
        = (.ok (wrapAccountPool usdcPoolAddress),
            hardcodedService.cachePut usdcPoolAddress (wrapAccountPool usdcPoolAddress),
            [.getAccountInfo usdcPoolAddress,
              .getMultipleAccounts [List.replicate 32 49, List.replicate 32 49]])
        ∧ findPool (rpcWorld wrapAccountBase64 (ascii "1"))
            (hardcodedService.cachePut usdcPoolAddress (wrapAccountPool usdcPoolAddress))
            usdcMint
            [.getAccountInfo usdcPoolAddress,
              .getMultipleAccounts [List.replicate 32 49, List.replicate 32 49]]
          = (.ok (wrapAccountPool usdcPoolAddress),
              hardcodedService.cachePut usdcPoolAddress (wrapAccountPool usdcPoolAddress),
              [.getAccountInfo usdcPoolAddress,
                .getMultipleAccounts [List.replicate 32 49, List.replicate 32 49]]))
      ∧ (findPool catalogWorld apiService (ascii "token") []
          = (.ok (convertV3PoolToInternal (catalogPool (ascii "pool1") 6 1 1)),
              apiService.cachePut (ascii "pool1")
                (convertV3PoolToInternal (catalogPool (ascii "pool1") 6 1 1)),
              [.catalogSearch (ascii "token"), .catalogPoolInfo (ascii "pool1")])
        ∧ (apiService.cachePut (ascii "pool1")
              (convertV3PoolToInternal (catalogPool (ascii "pool1") 6 1 1))).cacheGet
            (ascii "pool1")
          = some (convertV3PoolToInternal (catalogPool (ascii "pool1") 6 1 1))
        ∧ findPool catalogWorld
            (apiService.cachePut (ascii "pool1")
              (convertV3PoolToInternal (catalogPool (ascii "pool1") 6 1 1)))
            (ascii "token")
            [.catalogSearch (ascii "token"), .catalogPoolInfo (ascii "pool1")]
          = (.ok (convertV3PoolToInternal (catalogPool (ascii "pool1") 6 1 1)),
              apiService.cachePut (ascii "pool1")
                (convertV3PoolToInternal (catalogPool (ascii "pool1") 6 1 1)),
              (FindPoolByTokenV3 catalogWorld (ascii "token")
                [.catalogSearch (ascii "token"), .catalogPoolInfo (ascii "pool1")]).2)) := by
  refine ⟨⟨findPool_hardcoded_first_call, ?_⟩, findPool_api_first_call, ?_⟩
  · exact ((findPool_memoized (rpcWorld wrapAccountBase64 (ascii "1")) hardcodedService
      usdcMint [] _ _ _ findPool_hardcoded_first_call).1 rfl).2
  · obtain ⟨poolV3, hfirst, hcache, _, hsecond, _⟩ :=
      (findPool_memoized catalogWorld apiService (ascii "token") [] _ _ _
        findPool_api_first_call).2 rfl
    rw [FindPoolByTokenV3_catalogWorld] at hfirst
    simp only [Except.ok.injEq] at hfirst
    subst hfirst
    exact ⟨hcache, hsecond (catalogPool (ascii "pool1") 6 1 1)
      (by rw [FindPoolByTokenV3_catalogWorld]) rfl⟩
/-! ## PadNumbers: the bytes that are not digits -/

/-- A run of ASCII digits holds no other byte. -/
theorem filter_nondigit_eq_nil (run : Bytes) (h : ∀ x ∈ run, isDigit x = true) :
    run.filter (fun b => !isDigit b) = [] := by
  rw [List.filter_eq_nil_iff]
  intro x hx
  simp [h x hx]

theorem formatDecimal_digits (num : Nat) : ∀ x ∈ formatDecimal num, isDigit x = true := by
  intro x hx
  rw [formatDecimal_eq] at hx
  split_ifs at hx with h0
  · rw [List.mem_singleton.mp hx]
    rfl
  · obtain ⟨d, hd, rfl⟩ := List.mem_map.mp hx
    have hlt : d < 10 := Nat.digits_lt_base (by norm_num) (List.mem_reverse.mp hd)
    simp [isDigit]
    omega

/-- For a width from 0 to 1000000 `Sprintf` writes ASCII digits only. -/
theorem Sprintf_digits (width : Int) (num : Nat) (h0 : 0 ≤ width) (h1 : width ≤ 1000000) :
    ∀ x ∈ Sprintf width num, isDigit x = true := by
  intro x hx
  simp only [Sprintf] at hx
  rw [if_neg (by omega), if_neg (by omega)] at hx
  rcases List.mem_append.mp hx with h | h
  · rw [List.eq_of_mem_replicate h]
    rfl
  · exact formatDecimal_digits num x h

theorem mem_slice_of_digits (input : Bytes) (s e : Nat) (he : e ≤ input.length)
    (h : ∀ k, s ≤ k → k < e → isDigit (input.getD k 0) = true) :
    ∀ x ∈ slice input s e, isDigit x = true := by
  intro x hx
  obtain ⟨k, hk, rfl⟩ := List.mem_iff_getElem.mp hx
  have hlen := length_slice input s e he
  have hin : s + k < input.length := by omega
  have := h (s + k) (by omega) (by omega)
  rw [List.getD_eq_getElem _ _ hin] at this
  simpa [slice] using this

/-- For a width from 0 to 1000000 the outer loop adds to `result` the bytes of the rest of
the input that are not digits, and digits. -/
theorem padLoop_nondigits (input : Bytes) (width : Int) (h0 : 0 ≤ width)
    (h1 : width ≤ 1000000) (fuel : Nat) :
    ∀ (i : Nat) (result : Bytes), i ≤ input.length → input.length - i ≤ fuel →
    (padLoop input width fuel i result).filter (fun b => !isDigit b)
      = result.filter (fun b => !isDigit b)
        ++ (input.drop i).filter (fun b => !isDigit b) := by
  induction fuel with
  | zero =>
    intro i result hi hf
    have : i = input.length := by omega
    subst this
    simp [padLoop]
  | succ fuel ih =>
    intro i result hi hf
    by_cases hlt : i < input.length
    · by_cases hd : isDigit (input.getD i 0) = true
      · obtain ⟨h1', h2, h3, h4⟩ :=
          scanDigits_spec input (input.length - i) i hi (le_refl _)
        have hne : scanDigits input (input.length - i) i ≠ i := by
          intro heq
          rw [heq] at h4
          rcases h4 with h4 | h4
          · omega
          · rw [hd] at h4; exact Bool.noConfusion h4
        have hslice := filter_nondigit_eq_nil _ (mem_slice_of_digits input i _ h2 h3)
        have hdrop : (input.drop i).filter (fun b => !isDigit b)
            = (input.drop (scanDigits input (input.length - i) i)).filter
                (fun b => !isDigit b) := by
          rw [← slice_append_drop input i _ h1', List.filter_append, hslice, List.nil_append]
        rw [padLoop, if_pos hlt, if_pos hd]
        simp only []
        split
        · rw [ih _ _ h2 (by omega), List.filter_append,
            filter_nondigit_eq_nil _ (Sprintf_digits width _ h0 h1), List.append_nil, hdrop]
        · rw [ih _ _ h2 (by omega), List.filter_append, hslice, List.append_nil, hdrop]
      · rw [padLoop, if_pos hlt, if_neg hd, ih (i + 1) _ (by omega) (by omega),
          ← getD_cons_drop input i hlt]
        have hd' : isDigit (input.getD i 0) = false := by simpa using hd
        simp only [List.filter_append, List.filter_cons, hd', Bool.not_false, if_true,
          List.filter_nil, List.append_assoc, List.singleton_append]
    · have : i = input.length := by omega
      subst this
      simp [padLoop]

/-- For every width from 0 to 1000000 the bytes of `PadNumbers input width` that are not
digits are those of the input, in order. -/
theorem PadNumbers_nondigits (input : Bytes) (width : Int) (h0 : 0 ≤ width)
    (h1 : width ≤ 1000000) :
    (PadNumbers input width).filter (fun b => !isDigit b)
      = input.filter (fun b => !isDigit b) := by
  unfold PadNumbers
  rw [padLoop_nondigits input width h0 h1 input.length 0 [] (Nat.zero_le _) (by omega)]
  simp

/-- An input without any ASCII digit is returned unchanged, whatever the width. -/
theorem PadNumbers_no_digit (input : Bytes) (width : Int)
    (h : ∀ x ∈ input, isDigit x = false) : PadNumbers input width = input := by
  apply PadNumbers_unchanged
  intro s e hrun _
  have hs : s < input.length := lt_of_lt_of_le hrun.1 hrun.2.1
  have hd := hrun.2.2.1 s (le_refl _) hrun.1
  rw [List.getD_eq_getElem _ _ hs] at hd
  rw [h _ (List.getElem_mem hs)] at hd
  exact Bool.noConfusion hd

/-- C19, at a width that `fmt` refuses. The input `7` has no byte that is not a digit; with
width 1000001 the output `%!(BADWIDTH)7` has the twelve bytes of `%!(BADWIDTH)` in front of
the digit. -/
theorem PadNumbers_adds_bytes :
    (0 : Int) ≤ 1000001
      ∧ (ascii "7").filter (fun b => !isDigit b) = []
      ∧ (PadNumbers (ascii "7") 1000001).filter (fun b => !isDigit b)
          = ascii "%!(BADWIDTH)" := by
  decide

/-! ## DetermineDecimals: the claims -/

theorem two_zpow_eq_52 (e : Int) :
    (2 : ℚ) ^ e = 4503599627370496 * (2 : ℚ) ^ (e - 52) := by
  have h : (2 : ℚ) ^ e = (2 : ℚ) ^ (52 : Int) * (2 : ℚ) ^ (e - 52) := by
    rw [← zpow_add₀ (by norm_num : (2 : ℚ) ≠ 0)]
    congr 1
    ring
  rw [h]
  norm_num

theorem two_zpow_succ_eq_53 (e : Int) :
    (2 : ℚ) ^ (e + 1) = 9007199254740992 * (2 : ℚ) ^ (e - 52) := by
  have h : (2 : ℚ) ^ (e + 1) = (2 : ℚ) ^ (53 : Int) * (2 : ℚ) ^ (e - 52) := by
    rw [← zpow_add₀ (by norm_num : (2 : ℚ) ≠ 0)]
    congr 1
    ring
  rw [h]
  norm_num

/-- Where rounding to `float64` puts a positive rational with respect to a float of the
normal range, written `N * 2^(E-52)` with `2^52 < N ≤ 2^53`. -/
theorem nearestFloat64_lt_iff (x : ℚ) (hx : 0 < x) (E N : Int)
    (hE : -1022 < E) (hN1 : 4503599627370496 < N) (hN2 : N ≤ 9007199254740992) :
    nearestFloat64 x < N * (2 : ℚ) ^ (E - 52)
      ↔ x < (N - 1 / 2) * (2 : ℚ) ^ (E - 52)
        ∨ (x = (N - 1 / 2) * (2 : ℚ) ^ (E - 52) ∧ N % 2 = 1) := by
  obtain ⟨hlo, hhi⟩ := log_bracket x hx
  have hN1' : (4503599627370496 : ℚ) + 1 ≤ N := by exact_mod_cast (show 4503599627370496 + 1 ≤ N by omega)
  have hN2' : (N : ℚ) ≤ 9007199254740992 := by exact_mod_cast hN2
  have hqE : (0 : ℚ) < (2 : ℚ) ^ (E - 52) := by positivity
  unfold nearestFloat64
  rcases lt_trichotomy (Int.log 2 x) E with hlt | heq | hgt
  · -- below the binade of the threshold
    have hq : (0 : ℚ) < (2 : ℚ) ^ (max (Int.log 2 x) (-1022) - 52) := by positivity
    have he1 : Int.log 2 x ≤ max (Int.log 2 x) (-1022) := le_max_left _ _
    have he2 : max (Int.log 2 x) (-1022) + 1 ≤ E := by
      rcases le_total (Int.log 2 x) (-1022) with h | h
      · rw [max_eq_right h]; omega
      · rw [max_eq_left h]; omega
    have hx1 : x < (2 : ℚ) ^ (max (Int.log 2 x) (-1022) + 1) :=
      lt_of_lt_of_le hhi (zpow_le_zpow_right₀ (by norm_num) (by omega))
    have hxE : x < (2 : ℚ) ^ E :=
      lt_of_lt_of_le hx1 (zpow_le_zpow_right₀ (by norm_num) he2)
    have hy : x / (2 : ℚ) ^ (max (Int.log 2 x) (-1022) - 52) < (9007199254740992 : Int) := by
      rw [div_lt_iff₀ hq]
      rw [two_zpow_succ_eq_53] at hx1
      exact_mod_cast hx1
    have hr := roundHalfEven_le_of_lt _ _ hy
    have hr' : (roundHalfEven (x / (2 : ℚ) ^ (max (Int.log 2 x) (-1022) - 52)) : ℚ)
        ≤ 9007199254740992 := by exact_mod_cast hr
    have hnf : (roundHalfEven (x / (2 : ℚ) ^ (max (Int.log 2 x) (-1022) - 52)) : ℚ)
          * (2 : ℚ) ^ (max (Int.log 2 x) (-1022) - 52) ≤ (2 : ℚ) ^ E := by
      calc (roundHalfEven (x / (2 : ℚ) ^ (max (Int.log 2 x) (-1022) - 52)) : ℚ)
              * (2 : ℚ) ^ (max (Int.log 2 x) (-1022) - 52)
          ≤ 9007199254740992 * (2 : ℚ) ^ (max (Int.log 2 x) (-1022) - 52) :=
            mul_le_mul_of_nonneg_right hr' hq.le
        _ = (2 : ℚ) ^ (max (Int.log 2 x) (-1022) + 1) := (two_zpow_succ_eq_53 _).symm
        _ ≤ (2 : ℚ) ^ E := zpow_le_zpow_right₀ (by norm_num) he2
    rw [two_zpow_eq_52 E] at hnf hxE
    constructor
    · intro _
      left
      nlinarith
    · intro _
      nlinarith
  · -- in the binade of the threshold
    have he : max (Int.log 2 x) (-1022) = E := by
      rw [heq]
      exact max_eq_left (by omega)
    rw [he, mul_lt_mul_right hqE]
    have hcast : (roundHalfEven (x / (2 : ℚ) ^ (E - 52)) : ℚ) < N
        ↔ roundHalfEven (x / (2 : ℚ) ^ (E - 52)) < N := by exact_mod_cast Iff.rfl
    rw [hcast, roundHalfEven_lt_iff, div_lt_iff₀ hqE, div_eq_iff hqE.ne']
  · -- above the binade of the threshold
    have he : max (Int.log 2 x) (-1022) = Int.log 2 x := max_eq_left (by omega)
    rw [he]
    have hq : (0 : ℚ) < (2 : ℚ) ^ (Int.log 2 x - 52) := by positivity
    have hy : ((4503599627370496 : Int) : ℚ) ≤ x / (2 : ℚ) ^ (Int.log 2 x - 52) := by
      rw [le_div_iff₀ hq]
      rw [two_zpow_eq_52] at hlo
      exact_mod_cast hlo
    have hr := le_roundHalfEven _ _ hy
    have hr' : (4503599627370496 : ℚ)
        ≤ (roundHalfEven (x / (2 : ℚ) ^ (Int.log 2 x - 52)) : ℚ) := by exact_mod_cast hr
    have hE1 : (2 : ℚ) ^ (E + 1) ≤ (2 : ℚ) ^ Int.log 2 x :=
      zpow_le_zpow_right₀ (by norm_num) (by omega)
    have hnf : (2 : ℚ) ^ (E + 1)
        ≤ (roundHalfEven (x / (2 : ℚ) ^ (Int.log 2 x - 52)) : ℚ)
          * (2 : ℚ) ^ (Int.log 2 x - 52) := by
      calc (2 : ℚ) ^ (E + 1) ≤ (2 : ℚ) ^ Int.log 2 x := hE1
        _ = 4503599627370496 * (2 : ℚ) ^ (Int.log 2 x - 52) := two_zpow_eq_52 _
        _ ≤ _ := mul_le_mul_of_nonneg_right hr' hq.le
    have hxE : (2 : ℚ) ^ (E + 1) ≤ x := le_trans hE1 hlo
    rw [two_zpow_succ_eq_53 E] at hnf hxE
    constructor
    · intro h
      exfalso
      nlinarith
    · rintro (h | ⟨h, _⟩)
      · exfalso
        nlinarith
      · exfalso
        nlinarith

theorem nearestFloat64_nonneg (x : ℚ) (hx : 0 < x) : 0 ≤ nearestFloat64 x := by
  unfold nearestFloat64
  have hq : (0 : ℚ) < (2 : ℚ) ^ (max (Int.log 2 x) (-1022) - 52) := by positivity
  have hy : ((0 : Int) : ℚ) ≤ x / (2 : ℚ) ^ (max (Int.log 2 x) (-1022) - 52) := by
    have := div_pos hx hq
    exact_mod_cast this.le
  have hr := le_roundHalfEven _ _ hy
  have hr' : (0 : ℚ) ≤ (roundHalfEven (x / (2 : ℚ) ^ (max (Int.log 2 x) (-1022) - 52)) : ℚ) := by
    exact_mod_cast hr
  exact mul_nonneg hr' hq.le

/-- The comparison of a converted price with a `float64` of the normal range, written
`N * 2^(E-52)` with `2^52 < N ≤ 2^53`: the price is below the midpoint between that float
and its predecessor, or on the midpoint when the predecessor is the even one. -/
theorem Float64_lt_iff (x : ℚ) (E N : Int)
    (hE : -1022 < E) (hE2 : E < 1023) (hN1 : 4503599627370496 < N)
    (hN2 : N ≤ 9007199254740992) :
    (Float64 (.fin x)).lt (.fin (N * (2 : ℚ) ^ (E - 52)))
      ↔ x < (N - 1 / 2) * (2 : ℚ) ^ (E - 52)
        ∨ (x = (N - 1 / 2) * (2 : ℚ) ^ (E - 52) ∧ N % 2 = 1) := by
  have hN1' : (4503599627370496 : ℚ) + 1 ≤ N := by
    exact_mod_cast (show 4503599627370496 + 1 ≤ N by omega)
  have hN2' : (N : ℚ) ≤ 9007199254740992 := by exact_mod_cast hN2
  have hqE : (0 : ℚ) < (2 : ℚ) ^ (E - 52) := by positivity
  have ht : (0 : ℚ) < N * (2 : ℚ) ^ (E - 52) := by
    apply mul_pos _ hqE
    linarith
  have hm : (0 : ℚ) < (N - 1 / 2) * (2 : ℚ) ^ (E - 52) := by
    apply mul_pos _ hqE
    linarith
  rcases lt_trichotomy x 0 with hneg | hzero | hpos
  · have hnn := nearestFloat64_nonneg (-x) (by linarith)
    have hl : (Float64 (.fin x)).lt (.fin (N * (2 : ℚ) ^ (E - 52))) := by
      simp only [Float64]
      rw [if_neg hneg.ne, if_neg (not_lt.mpr hneg.le)]
      split
      · show -nearestFloat64 (-x) < _
        linarith
      · show true = true
        rfl
    exact ⟨fun _ => Or.inl (by linarith), fun _ => hl⟩
  · subst hzero
    have hl : (Float64 (.fin 0)).lt (.fin (N * (2 : ℚ) ^ (E - 52))) := by
      simp only [Float64, if_true]
      exact ht
    exact ⟨fun _ => Or.inl hm, fun _ => hl⟩
  · have key := nearestFloat64_lt_iff x hpos E N hE hN1 hN2
    have hbig : N * (2 : ℚ) ^ (E - 52) < 2 ^ 1024 := by
      have h1 : (2 : ℚ) ^ (E + 1) ≤ (2 : ℚ) ^ ((1023 : Nat) : Int) :=
        zpow_le_zpow_right₀ (by norm_num) (by omega)
      rw [zpow_natCast, two_zpow_succ_eq_53 E] at h1
      have h2 : (2 : ℚ) ^ 1023 < 2 ^ 1024 := by
        rw [pow_succ]
        have : (0 : ℚ) < 2 ^ 1023 := by positivity
        linarith
      have h3 : N * (2 : ℚ) ^ (E - 52) ≤ 9007199254740992 * (2 : ℚ) ^ (E - 52) :=
        mul_le_mul_of_nonneg_right hN2' hqE.le
      linarith
    simp only [Float64]
    rw [if_neg hpos.ne', if_pos hpos]
    split
    · exact key
    · next hover =>
      constructor
      · intro h
        exact absurd h (by simp [BigFloat.lt])
      · intro h
        exfalso
        exact hover (lt_trans (key.mpr h) hbig)

theorem Float64_lt_oneHundredth (x : ℚ) :
    (Float64 (.fin x)).lt (.fin float64OneHundredth) ↔ x ≤ 11529215046068469 / 2 ^ 60 := by
  have h := Float64_lt_iff x (-7) 5764607523034235 (by norm_num) (by norm_num)
    (by norm_num) (by norm_num)
  have e1 : float64OneHundredth
      = ((5764607523034235 : Int) : ℚ) * (2 : ℚ) ^ ((-7 : Int) - 52) := by
    norm_num [float64OneHundredth, zpow_neg]
  have e2 : (((5764607523034235 : Int) : ℚ) - 1 / 2) * (2 : ℚ) ^ ((-7 : Int) - 52)
      = 11529215046068469 / 2 ^ 60 := by
    norm_num [zpow_neg]
  rw [e1, h, e2]
  constructor
  · rintro (h | ⟨h, _⟩)
    · exact h.le
    · exact h.le
  · intro h
    rcases lt_or_eq_of_le h with h | h
    · exact Or.inl h
    · exact Or.inr ⟨h, by norm_num⟩

theorem Float64_lt_one (x : ℚ) :
    (Float64 (.fin x)).lt (.fin 1) ↔ x < 1 - 1 / 2 ^ 54 := by
  have h := Float64_lt_iff x (-1) 9007199254740992 (by norm_num) (by norm_num)
    (by norm_num) (by norm_num)
  have e1 : (1 : ℚ) = ((9007199254740992 : Int) : ℚ) * (2 : ℚ) ^ ((-1 : Int) - 52) := by
    norm_num [zpow_neg]
  have e2 : (((9007199254740992 : Int) : ℚ) - 1 / 2) * (2 : ℚ) ^ ((-1 : Int) - 52)
      = 1 - 1 / 2 ^ 54 := by
    norm_num [zpow_neg]
  rw [e2] at h
  rw [← e1] at h
  rw [h]
  constructor
  · rintro (h | ⟨_, h⟩)
    · exact h
    · norm_num at h
  · intro h
    exact Or.inl h

theorem Float64_lt_hundred (x : ℚ) :
    (Float64 (.fin x)).lt (.fin 100) ↔ x < 100 - 1 / 2 ^ 47 := by
  have h := Float64_lt_iff x 6 7036874417766400 (by norm_num) (by norm_num)
    (by norm_num) (by norm_num)
  have e1 : (100 : ℚ) = ((7036874417766400 : Int) : ℚ) * (2 : ℚ) ^ ((6 : Int) - 52) := by
    norm_num [zpow_neg]
  have e2 : (((7036874417766400 : Int) : ℚ) - 1 / 2) * (2 : ℚ) ^ ((6 : Int) - 52)
      = 100 - 1 / 2 ^ 47 := by
    norm_num [zpow_neg]
  rw [e2] at h
  rw [← e1] at h
  rw [h]
  constructor
  · rintro (h | ⟨_, h⟩)
    · exact h
    · norm_num at h
  · intro h
    exact Or.inl h

/-- C20, counterexample: the price `1 - 2^-60` lies in `0.01 ≤ p < 1`, where the claim
promises 6 decimals, but its conversion to `float64` is `1.0`, and `DetermineDecimals`
returns 4. -/
theorem DetermineDecimals_just_below_one :
    (1 / 100 : ℚ) ≤ 1 - 1 / 2 ^ 60 ∧ (1 - 1 / 2 ^ 60 : ℚ) < 1
      ∧ DetermineDecimals (.fin (1 - 1 / 2 ^ 60)) = 4 := by
  refine ⟨by norm_num, by norm_num, ?_⟩
  unfold DetermineDecimals
  rw [if_neg, if_neg, if_pos]
  · rw [Float64_lt_hundred]
    norm_num
  · rw [Float64_lt_one]
    norm_num
  · rw [Float64_lt_oneHundredth]
    norm_num

/-- C20, amended: `DetermineDecimals` compares the `float64` nearest to the price, so the
boundaries between the four results lie at the rounding midpoints below the `float64`
constants `0.01`, `1` and `100`: the result is 8 up to `11529215046068469 / 2^60`
(inclusive), 6 from there to `1 - 2^-54`, 4 from `1 - 2^-54` (inclusive) to `100 - 2^-47`,
and 2 from `100 - 2^-47` on; it is 8 for minus infinity and 2 for plus infinity. -/
theorem DetermineDecimals_thresholds (p : ℚ) :
    DetermineDecimals (.fin p)
        = (if p ≤ 11529215046068469 / 2 ^ 60 then 8
           else if p < 1 - 1 / 2 ^ 54 then 6
           else if p < 100 - 1 / 2 ^ 47 then 4
           else 2)
      ∧ DetermineDecimals (.inf true) = 8 ∧ DetermineDecimals (.inf false) = 2 := by
  refine ⟨?_, ?_, ?_⟩
  · unfold DetermineDecimals
    simp only [Float64_lt_oneHundredth, Float64_lt_one, Float64_lt_hundred]
  · simp [DetermineDecimals, Float64, BigFloat.lt]
  · simp [DetermineDecimals, Float64, BigFloat.lt]

/-! ## GetTokenSymbol -/

theorem ToLower_ascii (s : Bytes) (hs : ∀ b ∈ s, b < 128) :
    ToLower s = s.map foldKey := by
  unfold ToLower
  rw [if_pos (by simpa using hs)]
  apply List.map_congr_left
  intro b hb
  have := hs b hb
  unfold foldKey
  split
  · rfl
  · rw [if_neg (by omega), if_neg (by omega)]

/-- On ASCII strings `EqualFold` is the equality of the lower-cased strings. -/
theorem EqualFold_ascii (s t : Bytes) (hs : ∀ b ∈ s, b < 128) (ht : ∀ b ∈ t, b < 128) :
    EqualFold s t = true ↔ ToLower s = ToLower t := by
  unfold EqualFold
  rw [rangeRunes_ascii s hs, rangeRunes_ascii t ht, ToLower_ascii s hs, ToLower_ascii t ht]
  simp

theorem slice_last_four (address : Bytes) :
    slice address (address.length - 4) address.length = address.drop (address.length - 4) := by
  unfold slice
  apply List.take_of_length_le
  rw [List.length_drop]

/-- C21 as stated fails on multi-byte characters: the address of five accented letters has
five characters and equals no known mint, yet `GetTokenSymbol` does not return it: the
length and the cuts are counted in bytes, and the result is two letters, `...`, two
letters. -/
theorem GetTokenSymbol_counts_bytes :
    (rangeRunes accentedAddress).length = 5
      ∧ EqualFold accentedAddress usdcMint = false
      ∧ EqualFold accentedAddress usdtMint = false
      ∧ EqualFold accentedAddress solMint = false
      ∧ GetTokenSymbol accentedAddress
          = [195, 169, 195, 169] ++ ascii "..." ++ [195, 169, 195, 169]
      ∧ GetTokenSymbol accentedAddress ≠ accentedAddress := by
  decide

/-- C21, amended. For every address: `GetTokenSymbol` returns `USDC`, `USDT` or `SOL` when
the lower-cased address is the lower-cased mint of that token; otherwise, when the address
is longer than 8 bytes, its first 4 bytes, then `...`, then its last 4 bytes; otherwise
the address itself. For an address of ASCII characters the lower-cased strings are equal
exactly when the address equals the mint ignoring letter case (`strings.EqualFold`). -/
theorem GetTokenSymbol_bytes (address : Bytes) :
    GetTokenSymbol address
        = (if ToLower address = ToLower usdcMint then ascii "USDC"
           else if ToLower address = ToLower usdtMint then ascii "USDT"
           else if ToLower address = ToLower solMint then ascii "SOL"
           else if 8 < address.length then
             address.take 4 ++ ascii "..." ++ address.drop (address.length - 4)
           else address)
      ∧ ((∀ b ∈ address, b < 128) → ∀ mint ∈ [usdcMint, usdtMint, solMint],
          (ToLower address = ToLower mint ↔ EqualFold address mint = true)) := by
  constructor
  · have h1 : ToLower usdcMint = ascii "epjfwdd5aufqssqem2qn1xzybapc8g4weggkzwytdt1v" := by
      decide
    have h2 : ToLower usdtMint = ascii "es9vmfrzacermjfrf4h2fyd4kconky11mcce8benwnyb" := by
      decide
    have h3 : ToLower solMint = ascii "so11111111111111111111111111111111111111112" := by
      decide
    rw [h1, h2, h3]
    unfold GetTokenSymbol
    split
    · rfl
    · split
      · rfl
      · split
        · rfl
        · split
          · rename_i hlen
            rw [slice_last_four address]
            simp [slice]
          · rfl
  · intro hascii mint hmint
    have hm : ∀ b ∈ mint, b < 128 := by
      revert mint
      decide
    exact (EqualFold_ascii address mint hascii hm).symm

/-- The amended C21 at the USDC mint written in capitals, an ASCII address. -/
theorem GetTokenSymbol_bytes_witness :
    GetTokenSymbol (ascii "EPJFWDD5AUFQSSQEM2QN1XZYBAPC8G4WEGGKZWYTDT1V") = ascii "USDC"
      ∧ EqualFold (ascii "EPJFWDD5AUFQSSQEM2QN1XZYBAPC8G4WEGGKZWYTDT1V") usdcMint = true :=
  ⟨(GetTokenSymbol_bytes (ascii "EPJFWDD5AUFQSSQEM2QN1XZYBAPC8G4WEGGKZWYTDT1V")).1.trans
      (by decide),
    ((GetTokenSymbol_bytes (ascii "EPJFWDD5AUFQSSQEM2QN1XZYBAPC8G4WEGGKZWYTDT1V")).2
      (by decide) usdcMint (by decide)).mp (by decide)⟩

/-! ## Base58: decoding then encoding -/

theorem alphabet_getD_indexOf : ∀ c ∈ base58Alphabet,
    base58Alphabet.indexOf c < 58 ∧ base58Alphabet.getD (base58Alphabet.indexOf c) 0 = c := by
  decide

/-- A string of alphabet characters is a run of `1`s followed by the characters of digits
below 58 that do not start with the digit 0. -/
theorem alphabet_string_split (s : Bytes) (hs : ∀ c ∈ s, c ∈ base58Alphabet) :
    ∃ (z : Nat) (ds : List Nat), (∀ d ∈ ds, d < 58) ∧ (∀ a ∈ ds.head?, a ≠ 0)
      ∧ s = List.replicate z 49 ++ ds.map (fun d => base58Alphabet.getD d 0) := by
  obtain ⟨tail, hsplit, hhead⟩ := leading_zero_split (s.map base58Alphabet.indexOf)
  have hlt : ∀ d ∈ s.map base58Alphabet.indexOf, d < 58 := by
    intro d hd
    obtain ⟨c, hc, rfl⟩ := List.mem_map.mp hd
    exact (alphabet_getD_indexOf c (hs c hc)).1
  refine ⟨countLeading 0 (s.map base58Alphabet.indexOf), tail, ?_, hhead, ?_⟩
  · intro d hd
    apply hlt
    rw [hsplit]
    exact List.mem_append_right _ hd
  · have hback : s = (s.map base58Alphabet.indexOf).map (fun d => base58Alphabet.getD d 0) := by
      rw [List.map_map]
      conv_lhs => rw [← List.map_id s]
      apply List.map_congr_left
      intro c hc
      exact ((alphabet_getD_indexOf c (hs c hc)).2).symm
    conv_lhs => rw [hback, hsplit]
    rw [List.map_append, List.map_replicate, alphabet_getD_zero]

/-- Encoding the bytes that `Base58Decode` returns for leading `1`s and digits gives the
string back. -/
theorem Base58Encode_decoded (z : Nat) (ds : List Nat) (hds : ∀ d ∈ ds, d < 58)
    (hhead : ∀ a ∈ ds.head?, a ≠ 0) :
    Base58Encode
        (List.replicate z 0 ++ (Nat.digits 256 (Nat.ofDigits 58 ds.reverse)).reverse)
      = List.replicate z 49 ++ ds.map (fun d => base58Alphabet.getD d 0) := by
  have hlead : countLeading 0
      (List.replicate z 0 ++ (Nat.digits 256 (Nat.ofDigits 58 ds.reverse)).reverse) = z := by
    rw [countLeading_replicate_append, countLeading_of_head_ne, Nat.add_zero]
    intro a ha
    by_cases hne : Nat.digits 256 (Nat.ofDigits 58 ds.reverse) = []
    · simp [hne] at ha
    · have hlast := Nat.getLast_digit_ne_zero 256 (Nat.digits_ne_nil_iff_ne_zero.mp hne)
      rw [List.head?_reverse, List.getLast?_eq_getLast _ hne] at ha
      simp at ha
      rw [← ha]
      exact hlast
  have hval : SetBytes
      (List.replicate z 0 ++ (Nat.digits 256 (Nat.ofDigits 58 ds.reverse)).reverse)
        = Nat.ofDigits 58 ds.reverse := by
    rw [SetBytes_eq, List.reverse_append, List.reverse_reverse, List.reverse_replicate,
      Nat.ofDigits_append, ofDigits_replicate_zero, Nat.mul_zero, Nat.add_zero,
      Nat.ofDigits_digits]
  have hdig : Nat.digits 58 (Nat.ofDigits 58 ds.reverse) = ds.reverse := by
    apply Nat.digits_ofDigits 58 (by norm_num)
    · intro d hd
      exact hds d (List.mem_reverse.mp hd)
    · intro hne
      rw [List.getLast_reverse]
      cases ds with
      | nil => simp at hne
      | cons a t => exact hhead a (by simp)
  rw [Base58Encode_eq, hlead, hval, hdig, List.reverse_reverse]

/-- C26. Every string `s` made only of characters of the alphabet is decoded without
error, and encoding the decoded bytes gives `s` back; hence two such strings that decode
to the same result are equal. -/
theorem Base58Encode_Base58Decode (s t : Bytes) (hs : ∀ c ∈ s, c ∈ base58Alphabet)
    (ht : ∀ c ∈ t, c ∈ base58Alphabet) :
    (∃ b, Base58Decode s = .ok b ∧ Base58Encode b = s)
      ∧ (Base58Decode s = Base58Decode t → s = t) := by
  obtain ⟨z, ds, hds, hhead, rfl⟩ := alphabet_string_split s hs
  obtain ⟨z', ds', hds', hhead', rfl⟩ := alphabet_string_split t ht
  refine ⟨⟨_, Base58Decode_digits z ds hds hhead, Base58Encode_decoded z ds hds hhead⟩, ?_⟩
  intro h
  rw [Base58Decode_digits z ds hds hhead, Base58Decode_digits z' ds' hds' hhead'] at h
  have h2 := congrArg Base58Encode (Except.ok.inj h)
  rwa [Base58Encode_decoded z ds hds hhead, Base58Encode_decoded z' ds' hds' hhead'] at h2

/-- The claim C26 at the strings `2VfUX` and `Ldp`. -/
theorem Base58Encode_Base58Decode_witness :
    (∃ b, Base58Decode (ascii "2VfUX") = .ok b ∧ Base58Encode b = ascii "2VfUX")
      ∧ (Base58Decode (ascii "2VfUX") = Base58Decode (ascii "Ldp")
          → ascii "2VfUX" = ascii "Ldp") :=
  Base58Encode_Base58Decode (ascii "2VfUX") (ascii "Ldp") (by decide) (by decide)

/-! ## Base58: the published vectors -/

set_option maxRecDepth 100000 in
/-- C22. `Base58Encode` on the vectors of the tests: the empty input, `[0]`, `[0,0,0]`,
`[1,2,3]`, `[1,2,3,4]`, 32 zero bytes, and 3 followed by 31 zero bytes. -/
theorem Base58Encode_vectors :
    Base58Encode [] = ascii ""
      ∧ Base58Encode [0] = ascii "1"
      ∧ Base58Encode [0, 0, 0] = ascii "111"
      ∧ Base58Encode [1, 2, 3] = ascii "Ldp"
      ∧ Base58Encode [1, 2, 3, 4] = ascii "2VfUX"
      ∧ Base58Encode (List.replicate 32 0) = ascii "11111111111111111111111111111111"
      ∧ Base58Encode (3 :: List.replicate 31 0)
          = ascii "CiDwVBFgWV9E5MvXWoLgnEgn2hK7rJikbvfWavzAQz3" := by
  refine ⟨by decide, by decide, by decide, by decide, by decide, by decide, ?_⟩
  decide

/-! ## getTokenBalance -/

theorem quantumBytes_lt (sextets : List Nat) : ∀ x ∈ quantumBytes sextets, x < 256 := by
  unfold quantumBytes
  split <;> intro x hx <;> simp at hx
  · subst hx; exact Nat.mod_lt _ (by norm_num)
  · rcases hx with rfl | rfl <;> exact Nat.mod_lt _ (by norm_num)
  · rcases hx with rfl | rfl | rfl <;> exact Nat.mod_lt _ (by norm_num)

theorem decodeQuanta_lt (input : Bytes) : ∀ (pending : List Nat) (out data : Bytes),
    (∀ x ∈ out, x < 256) → decodeQuanta input pending out = .ok data →
    ∀ x ∈ data, x < 256 := by
  induction input with
  | nil =>
    intro pending out data hout h
    unfold decodeQuanta at h
    split at h
    · cases h; exact hout
    · cases h
  | cons c rest ih =>
    intro pending out data hout h
    have happ : ∀ p : List Nat, ∀ x ∈ out ++ quantumBytes p, x < 256 := by
      intro p x hx
      rcases List.mem_append.mp hx with h1 | h1
      · exact hout x h1
      · exact quantumBytes_lt p x h1
    unfold decodeQuanta at h
    repeat' split at h
    all_goals try cases h
    all_goals first
      | exact ih _ _ _ (happ _) h
      | exact ih _ _ _ hout h
      | exact happ _

/-- The bytes that `DecodeBase64Data` returns are below 256. -/
theorem DecodeBase64Data_lt (s data : Bytes) (h : DecodeBase64Data s = .ok data) :
    ∀ x ∈ data, x < 256 :=
  decodeQuanta_lt s [] [] data (by simp) h

/-- The little-endian integer of the first eight bytes, written out. -/
theorem Uint64LE_slice (data : Bytes) (hlen : 8 ≤ data.length) (hlt : ∀ x ∈ data, x < 256) :
    Uint64LE (slice data 0 8) % 2 ^ 64
      = data.getD 0 0 + 256 * data.getD 1 0 + 256 ^ 2 * data.getD 2 0
        + 256 ^ 3 * data.getD 3 0 + 256 ^ 4 * data.getD 4 0 + 256 ^ 5 * data.getD 5 0
        + 256 ^ 6 * data.getD 6 0 + 256 ^ 7 * data.getD 7 0 := by
  match data, hlen, hlt with
  | a0 :: a1 :: a2 :: a3 :: a4 :: a5 :: a6 :: a7 :: rest, _, hlt =>
    have h0 : a0 < 256 := hlt a0 (by simp)
    have h1 : a1 < 256 := hlt a1 (by simp)
    have h2 : a2 < 256 := hlt a2 (by simp)
    have h3 : a3 < 256 := hlt a3 (by simp)
    have h4 : a4 < 256 := hlt a4 (by simp)
    have h5 : a5 < 256 := hlt a5 (by simp)
    have h6 : a6 < 256 := hlt a6 (by simp)
    have h7 : a7 < 256 := hlt a7 (by simp)
    simp only [slice, List.drop_zero, Nat.sub_zero, List.take_succ_cons, List.take_zero,
      Uint64LE, List.foldr_cons, List.foldr_nil, List.getD_cons_zero, List.getD_cons_succ]
    rw [Nat.mod_eq_of_lt (by omega)]
    ring

/-- C23. The cases of `getTokenBalance`: 0 without error for a nil account, for a `data`
field that is missing or not a list, for a list of fewer than two entries, for a list that
does not start with a string, and for decoded data of fewer than 8 bytes; the unsigned
little-endian 64-bit integer of bytes 0..7 for decoded data of at least 8 bytes; and an
error exactly when the base64 decoding fails, with the error of the decoder. -/
theorem getTokenBalance_cases (accountData : Option JsonObject) :
    (accountData = none → getTokenBalance accountData = .ok 0)
      ∧ (∀ obj, accountData = some obj →
          (∀ value, JsonObject.get obj (ascii "data") ≠ .array value) →
          getTokenBalance accountData = .ok 0)
      ∧ (∀ obj value, accountData = some obj →
          JsonObject.get obj (ascii "data") = .array value → value.length < 2 →
          getTokenBalance accountData = .ok 0)
      ∧ (∀ obj value, accountData = some obj →
          JsonObject.get obj (ascii "data") = .array value →
          (∀ s, value.head? ≠ some (.string s)) →
          getTokenBalance accountData = .ok 0)
      ∧ (∀ s data, VaultString accountData s → DecodeBase64Data s = .ok data →
          data.length < 8 → getTokenBalance accountData = .ok 0)
      ∧ (∀ s data, VaultString accountData s → DecodeBase64Data s = .ok data →
          8 ≤ data.length →
          getTokenBalance accountData
            = .ok ((data.getD 0 0 + 256 * data.getD 1 0 + 256 ^ 2 * data.getD 2 0
                + 256 ^ 3 * data.getD 3 0 + 256 ^ 4 * data.getD 4 0
                + 256 ^ 5 * data.getD 5 0 + 256 ^ 6 * data.getD 6 0
                + 256 ^ 7 * data.getD 7 0 : Nat) : Int))
      ∧ (∀ s err, VaultString accountData s → DecodeBase64Data s = .error err →
          getTokenBalance accountData = .error err)
      ∧ (∀ err, getTokenBalance accountData = .error err →
          ∃ s, VaultString accountData s ∧ DecodeBase64Data s = .error err) := by
  refine ⟨?_, ?_, ?_, ?_, ?_, ?_, ?_, ?_⟩
  · rintro rfl
    rfl
  · rintro obj rfl hno
    cases hget : JsonObject.get obj (ascii "data") with
    | array value => exact absurd hget (hno value)
    | _ => simp only [getTokenBalance, hget]
  · rintro obj value rfl hget hlen
    simp only [getTokenBalance, hget, if_pos hlen]
  · rintro obj value rfl hget hhead
    simp only [getTokenBalance, hget]
    split <;> rfl
  · rintro s data ⟨obj, value, rfl, hget, hlen, hhead⟩ hdec hshort
    simp only [getTokenBalance, hget, if_neg (not_lt.mpr hlen), hhead, hdec, if_pos hshort]
  · rintro s data ⟨obj, value, rfl, hget, hlen, hhead⟩ hdec hlong
    simp only [getTokenBalance, hget, if_neg (not_lt.mpr hlen), hhead, hdec,
      if_neg (not_lt.mpr hlong)]
    rw [Uint64LE_slice data hlong (DecodeBase64Data_lt s data hdec)]
  · rintro s err ⟨obj, value, rfl, hget, hlen, hhead⟩ hdec
    simp only [getTokenBalance, hget, if_neg (not_lt.mpr hlen), hhead, hdec]
  · intro err h
    unfold getTokenBalance at h
    split at h
    · cases h
    · rename_i obj
      split at h
      · rename_i value hget
        split at h
        · cases h
        · rename_i hlen
          split at h
          · rename_i s hhead
            split at h
            · rename_i err2 hdec
              cases h
              exact ⟨s, ⟨obj, value, rfl, hget, not_lt.mp hlen, hhead⟩, hdec⟩
            · split at h <;> cases h
          · cases h
      · cases h

/-- The claim C23 at the token account of `TestGetTokenBalance`: 67 decoded bytes, the
first eight of which are the little-endian integer 1. -/
theorem getTokenBalance_cases_witness :
    VaultString (vaultReply testVaultBase64) testVaultBase64
      ∧ DecodeBase64Data testVaultBase64 = .ok (1 :: List.replicate 66 0)
      ∧ getTokenBalance (vaultReply testVaultBase64) = .ok 1 :=
  ⟨⟨_, _, rfl, rfl, by decide, rfl⟩, DecodeBase64Data_testVault,
    ((getTokenBalance_cases (vaultReply testVaultBase64)).2.2.2.2.2.1 testVaultBase64
      (1 :: List.replicate 66 0) ⟨_, _, rfl, rfl, by decide, rfl⟩ DecodeBase64Data_testVault
      (by decide)).trans (by decide)⟩

/-! ## GetPoolInfo: the vault list -/

set_option maxRecDepth 100000 in
/-- C24 fails. The pool account is `wrapAccountData` (600 bytes) and the
`getMultipleAccounts` reply is successful: with a `value` list that is `null` (empty) the
index expression `vaults[0]` panics, and with a list of one vault account the index
expression `vaults[1]` panics; `GetPoolInfo` returns neither a descriptor nor an error. -/
theorem GetPoolInfo_index_out_of_range :
    600 ≤ wrapAccountData.length
      ∧ CarriesData (accountReply wrapAccountBase64) wrapAccountData
      ∧ (vaultsWorld []).multipleAccounts [.getAccountInfo (ascii "pool")]
          [List.replicate 32 49, List.replicate 32 49] = .ok []
      ∧ (GetPoolInfo (vaultsWorld []) (ascii "pool") []).1 = .error .panicIndexOutOfRange
      ∧ (GetPoolInfo (vaultsWorld [vaultReply testVaultBase64]) (ascii "pool") []).1
          = .error .panicIndexOutOfRange := by
  have hdec : decodePoolAccount (accountReply wrapAccountBase64)
      = decodeLayout wrapAccountData :=
    decodePoolAccount_of_carries _ _
      (carriesData_accountReply _ _ DecodeBase64Data_wrapAccount)
  refine ⟨by decide, carriesData_accountReply _ _ DecodeBase64Data_wrapAccount, rfl, ?_, ?_⟩
  · simp only [GetPoolInfo, vaultsWorld, hdec, decodeLayout_wrapAccountData, vaultAt,
      List.get?]
  · simp only [GetPoolInfo, vaultsWorld, hdec, decodeLayout_wrapAccountData, vaultAt,
      List.get?, getTokenBalance_testVault]

/-! ## PadNumbers: applying it twice -/

theorem padRest_nil (width : Int) (afterDot : Bool) : padRest width afterDot [] = [] := by
  rw [padRest]

theorem padRest_digit (width : Int) (afterDot : Bool) (c : Nat) (rest : Bytes)
    (h : isDigit c = true) :
    padRest width afterDot (c :: rest)
      = (if afterDot = true then c :: rest.takeWhile isDigit
          else Sprintf width (Atoi (c :: rest.takeWhile isDigit)))
        ++ padRest width false (rest.dropWhile isDigit) := by
  rw [padRest, if_pos h]

theorem padRest_other (width : Int) (afterDot : Bool) (c : Nat) (rest : Bytes)
    (h : ¬ isDigit c = true) :
    padRest width afterDot (c :: rest) = c :: padRest width (decide (c = 46)) rest := by
  rw [padRest, if_neg h]

/-- The digits in front of `run ++ rest` when `rest` does not start with a digit. -/
theorem takeWhile_run (run rest : Bytes) (hrun : ∀ x ∈ run, isDigit x = true)
    (hrest : ∀ a ∈ rest.head?, isDigit a = false) :
    (run ++ rest).takeWhile isDigit = run ∧ (run ++ rest).dropWhile isDigit = rest := by
  have h1 : rest.takeWhile isDigit = [] := by
    cases rest with
    | nil => rfl
    | cons a t =>
      have := hrest a (by simp)
      simp [List.takeWhile_cons, this]
  have h2 : rest.dropWhile isDigit = rest := by
    cases rest with
    | nil => rfl
    | cons a t =>
      have := hrest a (by simp)
      simp [List.dropWhile_cons, this]
  rw [List.takeWhile_append_of_pos hrun, List.dropWhile_append_of_pos hrun, h1, h2]
  simp

theorem head_dropWhile_isDigit (l : Bytes) :
    ∀ a ∈ (l.dropWhile isDigit).head?, isDigit a = false := by
  intro a ha
  have h := List.head?_dropWhile_not isDigit l
  rw [Option.mem_def.mp ha] at h
  exact h

/-- The outer loop computes `padRest` of the rest of the input. -/
theorem padLoop_eq_padRest (input : Bytes) (width : Int) (fuel : Nat) :
    ∀ (i : Nat) (result : Bytes), i ≤ input.length → input.length - i ≤ fuel →
    padLoop input width fuel i result
      = result ++ padRest width (decide (0 < i ∧ input.getD (i - 1) 0 = 46)) (input.drop i) := by
  induction fuel with
  | zero =>
    intro i result hi hf
    have : i = input.length := by omega
    subst this
    simp [padLoop, padRest_nil]
  | succ fuel ih =>
    intro i result hi hf
    by_cases hlt : i < input.length
    · by_cases hd : isDigit (input.getD i 0) = true
      · obtain ⟨h1, h2, h3, h4⟩ :=
          scanDigits_spec input (input.length - i) i hi (le_refl _)
        have hne : scanDigits input (input.length - i) i ≠ i := by
          intro heq
          rw [heq] at h4
          rcases h4 with h4 | h4
          · omega
          · rw [hd] at h4; exact Bool.noConfusion h4
        have hsplit := slice_append_drop input i _ h1
        have hrest : ∀ a ∈ (input.drop (scanDigits input (input.length - i) i)).head?,
            isDigit a = false := by
          intro a ha
          rcases h4 with h4 | h4
          · rw [h4, List.drop_length] at ha
            simp at ha
          · have hj : scanDigits input (input.length - i) i < input.length := by
              rcases Nat.lt_or_ge (scanDigits input (input.length - i) i) input.length
                with h | h
              · exact h
              · rw [List.getD_eq_default _ _ h] at h4
                rw [List.drop_eq_nil_of_le h] at ha
                simp at ha
            rw [← getD_cons_drop input _ hj] at ha
            simp only [List.head?_cons, Option.mem_def, Option.some.injEq] at ha
            rw [← ha]
            exact h4
        have htd := takeWhile_run _ _ (mem_slice_of_digits input i _ h2 h3) hrest
        rw [hsplit, ← getD_cons_drop input i hlt] at htd
        simp only [List.takeWhile_cons, List.dropWhile_cons, hd, if_true] at htd
        have hflag : decide (0 < scanDigits input (input.length - i) i
            ∧ input.getD (scanDigits input (input.length - i) i - 1) 0 = 46) = false := by
          have hprev := h3 (scanDigits input (input.length - i) i - 1) (by omega) (by omega)
          simp only [decide_eq_false_iff_not, not_and]
          intro _ h46
          rw [h46] at hprev
          exact absurd hprev (by decide)
        rw [padLoop, if_pos hlt, if_pos hd]
        simp only []
        rw [← getD_cons_drop input i hlt, padRest_digit _ _ _ _ hd, htd.1, htd.2]
        by_cases hdot : i > 0 ∧ input.getD (i - 1) 0 = 46
        · rw [if_neg (not_not.mpr hdot), ih _ _ h2 (by omega), hflag]
          have : decide (0 < i ∧ input.getD (i - 1) 0 = 46) = true := by
            simpa using hdot
          rw [this, if_pos rfl, List.append_assoc]
        · rw [if_pos hdot, ih _ _ h2 (by omega), hflag]
          have : decide (0 < i ∧ input.getD (i - 1) 0 = 46) = false := by
            simpa using hdot
          rw [this, if_neg (by simp), List.append_assoc]
      · rw [padLoop, if_pos hlt, if_neg hd, ih (i + 1) _ (by omega) (by omega),
          ← getD_cons_drop input i hlt, padRest_other _ _ _ _ hd]
        simp
    · have : i = input.length := by omega
      subst this
      simp [padLoop, padRest_nil]

theorem PadNumbers_eq_padRest (input : Bytes) (width : Int) :
    PadNumbers input width = padRest width false input := by
  unfold PadNumbers
  rw [padLoop_eq_padRest input width input.length 0 [] (Nat.zero_le _) (by omega)]
  simp

theorem Atoi_le_maxInt (run : Bytes) : Atoi run ≤ maxInt := by
  unfold Atoi
  simp only []
  split
  · assumption
  · exact le_refl _

theorem foldl_replicate_zero (k : Nat) :
    (List.replicate k 48).foldl (fun acc ch => acc * 10 + (ch - 48)) 0 = 0 := by
  induction k with
  | zero => rfl
  | succ k ih => simp [List.replicate_succ, ih]

/-- Parsing what `Sprintf` wrote for a width from 0 to 1000000 gives the number back. -/
theorem Atoi_Sprintf (width : Int) (num : Nat) (h0 : 0 ≤ width) (h1 : width ≤ 1000000)
    (hn : num ≤ maxInt) : Atoi (Sprintf width num) = num := by
  have hval : (Sprintf width num).foldl (fun acc ch => acc * 10 + (ch - 48)) 0 = num := by
    simp only [Sprintf]
    rw [if_neg (by omega), if_neg (by omega), List.foldl_append, foldl_replicate_zero,
      foldl_digits_eq, formatDecimal_eq]
    by_cases hz : num = 0
    · subst hz
      simp [Nat.ofDigits]
    · rw [if_neg hz, List.map_map]
      have : (fun ch => ch - 48) ∘ (fun d => 48 + d) = id := by
        funext d
        simp
      rw [this, List.map_id, List.reverse_reverse, Nat.ofDigits_digits]
  unfold Atoi
  simp only [hval, if_pos hn]

theorem Sprintf_ne_nil (width : Int) (num : Nat) : Sprintf width num ≠ [] := by
  have hne : formatDecimal num ≠ [] := by
    rw [formatDecimal_eq]
    split
    · simp
    · rename_i hz
      simp [Nat.digits_ne_nil_iff_ne_zero.mpr hz]
  unfold Sprintf
  simp only []
  split
  · simp [badWidthString, ascii]
  · split <;> simp [hne]

theorem padRest_head (width : Int) (afterDot : Bool) (l : Bytes)
    (h : ∀ a ∈ l.head?, isDigit a = false) :
    ∀ a ∈ (padRest width afterDot l).head?, isDigit a = false := by
  cases l with
  | nil => simp [padRest_nil]
  | cons c rest =>
    have hc : ¬ isDigit c = true := by
      have := h c (by simp)
      simp [this]
    rw [padRest_other _ _ _ _ hc]
    intro a ha
    simp only [List.head?_cons, Option.mem_def, Option.some.injEq] at ha
    rw [← ha]
    simpa using hc

/-- The loop on a run of digits followed by a rest that does not start with a digit. -/
theorem padRest_run (width : Int) (afterDot : Bool) (run rest : Bytes) (hne : run ≠ [])
    (hrun : ∀ x ∈ run, isDigit x = true) (hrest : ∀ a ∈ rest.head?, isDigit a = false) :
    padRest width afterDot (run ++ rest)
      = (if afterDot = true then run else Sprintf width (Atoi run))
        ++ padRest width false rest := by
  cases run with
  | nil => exact absurd rfl hne
  | cons c t =>
    have hc : isDigit c = true := hrun c (by simp)
    have ht : ∀ x ∈ t, isDigit x = true := fun x hx => hrun x (by simp [hx])
    have htd := takeWhile_run t rest ht hrest
    rw [List.cons_append, padRest_digit _ _ _ _ hc, htd.1, htd.2]

/-- For a width from 0 to 1000000 the loop reproduces its own output. -/
theorem padRest_idempotent (width : Int) (h0 : 0 ≤ width) (h1 : width ≤ 1000000)
    (n : Nat) : ∀ (l : Bytes) (afterDot : Bool), l.length ≤ n →
    padRest width afterDot (padRest width afterDot l) = padRest width afterDot l := by
  induction n with
  | zero =>
    intro l afterDot hl
    have : l = [] := List.length_eq_zero.mp (by omega)
    subst this
    simp [padRest_nil]
  | succ n ih =>
    intro l afterDot hl
    cases l with
    | nil => simp [padRest_nil]
    | cons c rest =>
      by_cases hc : isDigit c = true
      · have hlen : (rest.dropWhile isDigit).length ≤ n := by
          have := (List.dropWhile_sublist isDigit (l := rest)).length_le
          simp only [List.length_cons] at hl
          omega
        have hrun : ∀ x ∈ c :: rest.takeWhile isDigit, isDigit x = true := by
          intro x hx
          rcases List.mem_cons.mp hx with rfl | hx
          · exact hc
          · exact List.mem_takeWhile_imp hx
        have hhead := padRest_head width false _ (head_dropWhile_isDigit rest)
        rw [padRest_digit _ _ _ _ hc]
        by_cases hdot : afterDot = true
        · rw [if_pos hdot, padRest_run width afterDot _ _ (by simp) hrun hhead, if_pos hdot,
            ih _ false hlen]
        · rw [if_neg hdot,
            padRest_run width afterDot _ _ (Sprintf_ne_nil _ _)
              (Sprintf_digits width _ h0 h1) hhead,
            if_neg hdot, Atoi_Sprintf width _ h0 h1 (Atoi_le_maxInt _), ih _ false hlen]
      · rw [padRest_other _ _ _ _ hc, padRest_other _ _ _ _ hc,
          ih rest _ (by simpa using hl)]

/-- For every width from 0 to 1000000 `PadNumbers` is idempotent. -/
theorem PadNumbers_idempotent_in_range (input : Bytes) (width : Int) (h0 : 0 ≤ width)
    (h1 : width ≤ 1000000) :
    PadNumbers (PadNumbers input width) width = PadNumbers input width := by
  rw [PadNumbers_eq_padRest, PadNumbers_eq_padRest]
  exact padRest_idempotent width h0 h1 input.length input false (le_refl _)

/-- C25, at a width that `fmt` refuses. With width 1000001 the first pass turns `7` into
`%!(BADWIDTH)7`, and the second pass puts `%!(BADWIDTH)` in front of the digit once more:
the two results differ. -/
theorem PadNumbers_not_idempotent :
    (0 : Int) ≤ 1000001
      ∧ PadNumbers (ascii "7") 1000001 = ascii "%!(BADWIDTH)7"
      ∧ PadNumbers (PadNumbers (ascii "7") 1000001) 1000001
          = ascii "%!(BADWIDTH)%!(BADWIDTH)7" := by
  decide

end Deficheck

